import Mathlib

/-!
Verification of the libretrogd 2D rasterization core
(`src/libretrogd/src/graphics/bitmap/blit.rs` and
`src/libretrogd/src/graphics/bitmap/primitives.rs`).

The Rust code is shallowly embedded: `i32` values become `Int`, `u32`/`u8`
values become `Nat`, and the `as i32` / `as u32` casts that the clipping code
performs are modelled exactly (two's complement, wrapping modulo `2^32`).
Pixel buffers are modelled as total functions `Int → Nat` indexed by the raw
buffer offset `y * width + x`; the pointer arithmetic of the transfer
routines is reproduced literally as integer offset arithmetic over those
functions.
-/

namespace Retro

/-- The Rust cast `u32 → i32` (two's complement reinterpretation). -/
def u32_as_i32 (n : Nat) : Int :=
if n < 2 ^ 31 then (n : Int) else (n : Int) - 2 ^ 32

/-- The Rust cast `i32 → u32` (two's complement reinterpretation,
i.e. the value modulo `2^32`). -/
def i32_as_u32 (z : Int) : Nat :=
(z % (2 ^ 32 : Int)).toNat

/-- Rust `Rect` from the repository's math module (declaration not under `src/`):
`x`, `y` are `i32`, `width`, `height` are `u32`. -/
structure Rect where
  x : Int
  y : Int
  width : Nat
  height : Nat
deriving DecidableEq, Repr

/-- Modelled from the spec: `right = x + width - 1`. -/
def Rect.right (r : Rect) : Int := r.x + (r.width : Int) - 1

/-- Modelled from the spec: `bottom = y + height - 1`. -/
def Rect.bottom (r : Rect) : Int := r.y + (r.height : Int) - 1

/-- Modelled from the spec: construct a `Rect` from two corner points,
normalizing so the first corner is top-left. -/
def Rect.from_coords (x1 y1 x2 y2 : Int) : Rect :=
{ x := min x1 x2
  y := min y1 y2
  width := (max x1 x2 - min x1 x2 + 1).toNat
  height := (max y1 y2 - min y1 y2 + 1).toNat }

/-- Modelled from the spec: `clamp_to(bounds)` intersects `self` with `bounds`
in place and returns whether any positive-area intersection remains (on
`false` the rect is left in an unspecified state and the caller must skip
drawing; we return the rect unchanged in that case). -/
def Rect.clamp_to (self bounds : Rect) : Bool × Rect :=
  let x1 := max self.x bounds.x
  let y1 := max self.y bounds.y
  let x2 := min self.right bounds.right
  let y2 := min self.bottom bounds.bottom
  if x1 ≤ x2 ∧ y1 ≤ y2 then
    (true, { x := x1, y := y1, width := (x2 - x1 + 1).toNat, height := (y2 - y1 + 1).toNat })
  else
    (false, self)

/-- The three mutable parameters of `clip_blit` (the source blit region and
the destination top-left coordinates), bundled so that the partial mutation
the Rust function performs before an early `return false` can be observed. -/
structure ClipState where
  region : Rect
  dx : Int
  dy : Int
deriving DecidableEq, Repr

/-- The left-edge step of `clip_blit` (blit.rs lines 112-123): `none` means
`return false` (completely off the left edge), `some` is the state after the
step. -/
def clipLeft (clip : Rect) (s : ClipState) : Option ClipState :=
  if s.dx < clip.x then
    if s.dx + u32_as_i32 s.region.width - 1 < clip.x then none
    else
      let offset := clip.x - s.dx
      some { s with
              region := { s.region with
                            x := s.region.x + offset
                            width := i32_as_u32 (u32_as_i32 s.region.width - offset) }
              dx := clip.x }
  else some s

/-- The right-edge step of `clip_blit` (blit.rs lines 125-134). -/
def clipRight (clip : Rect) (s : ClipState) : Option ClipState :=
  if s.dx > u32_as_i32 clip.width - u32_as_i32 s.region.width then
    if s.dx > clip.right then none
    else
      let offset := s.dx + u32_as_i32 s.region.width - u32_as_i32 clip.width
      some { s with
              region := { s.region with
                            width := i32_as_u32 (u32_as_i32 s.region.width - offset) } }
  else some s

/-- The top-edge step of `clip_blit` (blit.rs lines 136-147). -/
def clipTop (clip : Rect) (s : ClipState) : Option ClipState :=
  if s.dy < clip.y then
    if s.dy + u32_as_i32 s.region.height - 1 < clip.y then none
    else
      let offset := clip.y - s.dy
      some { s with
              region := { s.region with
                            y := s.region.y + offset
                            height := i32_as_u32 (u32_as_i32 s.region.height - offset) }
              dy := clip.y }
  else some s

/-- The bottom-edge step of `clip_blit` (blit.rs lines 149-158). -/
def clipBottom (clip : Rect) (s : ClipState) : Option ClipState :=
  if s.dy > u32_as_i32 clip.height - u32_as_i32 s.region.height then
    if s.dy > clip.bottom then none
    else
      let offset := s.dy + u32_as_i32 s.region.height - u32_as_i32 clip.height
      some { s with
              region := { s.region with
                            height := i32_as_u32 (u32_as_i32 s.region.height - offset) }}
  else some s

/-- Rust `clip_blit` (blit.rs lines 106-161): applies the four edge steps in
order; returns the boolean result together with the final values of the
mutable parameters (which, on `false`, hold whatever mutations were already
performed by the earlier steps). -/
def clip_blit (clip : Rect) (s : ClipState) : Bool × ClipState :=
  match clipLeft clip s with
  | none => (false, s)
  | some s1 =>
    match clipRight clip s1 with
    | none => (false, s1)
    | some s2 =>
      match clipTop clip s2 with
      | none => (false, s2)
      | some s3 =>
        match clipBottom clip s3 with
        | none => (false, s3)
        | some s4 => (true, s4)

/-- Modelled from the spec: a `Bitmap` owns a contiguous buffer of
palette-index bytes (modelled as a total function from the raw offset
`y * width + x` to the byte stored there), a fixed `width` and `height`,
and a mutable `clip_region`. -/
structure Bitmap where
  width : Nat
  height : Nat
  clip_region : Rect
  pixels : Int → Nat

/-- Pointwise buffer update (the semantics of a single byte store). -/
def upd (f : Int → Nat) (p : Int) (v : Nat) : Int → Nat :=
fun q => if q = p then v else f q

/-- Modelled from the spec: unchecked accessors compute the raw buffer
offset `y * width + x` with no validation. -/
def Bitmap.ptr (b : Bitmap) (x y : Int) : Int := y * (b.width : Int) + x

/-- Modelled from the spec: the per-pixel visibility test `is_xy_visible`,
performed against the bitmap's current clip region. -/
def Bitmap.is_xy_visible (b : Bitmap) (x y : Int) : Prop :=
b.clip_region.x ≤ x ∧ x ≤ b.clip_region.right ∧
  b.clip_region.y ≤ y ∧ y ≤ b.clip_region.bottom

instance (b : Bitmap) (x y : Int) : Decidable (b.is_xy_visible x y) := by
  unfold Bitmap.is_xy_visible; infer_instance

/-- Rust `set_pixel` (primitives.rs lines 15-19): writes the byte only when the
bounds-checked accessor finds the coordinates inside the clip region
(modelled from the spec for `pixels_at_mut`). -/
def Bitmap.set_pixel (b : Bitmap) (x y : Int) (color : Nat) : Bitmap :=
  if b.is_xy_visible x y then { b with pixels := upd b.pixels (b.ptr x y) color }
  else b

/-- Rust `get_pixel` (primitives.rs lines 62-68). -/
def Bitmap.get_pixel (b : Bitmap) (x y : Int) : Option Nat :=
  if b.is_xy_visible x y then some (b.pixels (b.ptr x y)) else none

/-- The semantics of `ptr::copy_from(src, count)` used by `solid_blit`:
copy `count` bytes from offset `sp` of `srcPx` to offset `dp` of `dstPx`
(the two buffers belong to distinct bitmaps, so no aliasing). -/
def copyBytes (dstPx srcPx : Int → Nat) (dp sp : Int) : Nat → (Int → Nat)
  | 0 => dstPx
  | n + 1 => upd (copyBytes dstPx srcPx dp sp n) (dp + n) (srcPx (sp + n))

/-- The row loop of `solid_blit`: each iteration copies `w` bytes and then
advances both pointers by their own full pitch. -/
def solidRows (dstPx srcPx : Int → Nat) (dp sp : Int) (w dpitch spitch : Nat) :
    Nat → (Int → Nat)
  | 0 => dstPx
  | h + 1 =>
    solidRows (copyBytes dstPx srcPx dp sp w) srcPx
      (dp + (dpitch : Int)) (sp + (spitch : Int)) w dpitch spitch h

/-- Rust `solid_blit` (blit.rs lines 202-214): row-wise byte copy; source pitch is
the source bitmap width, destination pitch the destination bitmap width. -/
def Bitmap.solid_blit (dest : Bitmap) (src : Bitmap) (src_region : Rect)
    (dest_x dest_y : Int) : Bitmap :=
  { dest with
    pixels :=
      solidRows dest.pixels src.pixels
        (dest.ptr dest_x dest_y) (src.ptr src_region.x src_region.y)
        src_region.width dest.width src.width src_region.height }

/-- Rust `get_flipped_blit_properties` (blit.rs lines 164-200): per-pixel x step,
source start corner, and per-row source pointer increment for the four
flip combinations.  `src.width - src_region.width` is a `u32` subtraction in
Rust (which would panic on underflow); it is modelled exactly as the integer
difference. -/
def Bitmap.get_flipped_blit_properties (_self : Bitmap) (src : Bitmap)
    (src_region : Rect) (horizontal_flip vertical_flip : Bool) :
    Int × Int × Int × Int :=
  if !horizontal_flip && !vertical_flip then
    (1, src_region.x, src_region.y, (src.width : Int) - (src_region.width : Int))
  else if horizontal_flip && !vertical_flip then
    (-1, src_region.right, src_region.y, (src.width : Int) + (src_region.width : Int))
  else if !horizontal_flip && vertical_flip then
    (1, src_region.x, src_region.bottom, -((src.width : Int) + (src_region.width : Int)))
  else
    (-1, src_region.right, src_region.bottom, -((src.width : Int) - (src_region.width : Int)))

/-- The inner pixel loop shared by the flipped blits: write one byte, step
the source pointer by `x_inc` and the destination pointer by 1. -/
def flippedRow (dstPx srcPx : Int → Nat) (dp sp x_inc : Int) : Nat → (Int → Nat)
  | 0 => dstPx
  | n + 1 => flippedRow (upd dstPx dp (srcPx sp)) srcPx (dp + 1) (sp + x_inc) x_inc n

/-- The row loop of `solid_flipped_blit`: after the `w` pixel steps the source
pointer has advanced by `w * x_inc` and gets `src_next_row_inc` added, the
destination pointer has advanced by `w` and gets `dest_next_row_inc` added. -/
def flippedRows (dstPx srcPx : Int → Nat) (dp sp x_inc : Int) (w : Nat)
    (dnext snext : Int) : Nat → (Int → Nat)
  | 0 => dstPx
  | h + 1 =>
    flippedRows (flippedRow dstPx srcPx dp sp x_inc w) srcPx
      (dp + (w : Int) + dnext) (sp + (w : Int) * x_inc + snext) x_inc w dnext snext h

/-- Rust `solid_flipped_blit` (blit.rs lines 216-242). -/
def Bitmap.solid_flipped_blit (dest : Bitmap) (src : Bitmap) (src_region : Rect)
    (dest_x dest_y : Int) (horizontal_flip vertical_flip : Bool) : Bitmap :=
  let dnext := (dest.width : Int) - (src_region.width : Int)
  let p := dest.get_flipped_blit_properties src src_region horizontal_flip vertical_flip
  { dest with
    pixels :=
      flippedRows dest.pixels src.pixels
        (dest.ptr dest_x dest_y) (src.ptr p.2.1 p.2.2.1) p.1
        src_region.width dnext p.2.2.2 src_region.height }

/-- Inner pixel loop of `solid_palette_offset_blit`: the destination byte is
the source byte plus `offset` with wrapping (modulo 256) `u8` addition. -/
def solidOffsetRow (dstPx srcPx : Int → Nat) (dp sp : Int) (offset : Nat) :
    Nat → (Int → Nat)
  | 0 => dstPx
  | n + 1 =>
    solidOffsetRow (upd dstPx dp ((srcPx sp + offset) % 256)) srcPx
      (dp + 1) (sp + 1) offset n

/-- Row loop of `solid_palette_offset_blit`. -/
def solidOffsetRows (dstPx srcPx : Int → Nat) (dp sp : Int) (w : Nat)
    (dnext snext : Int) (offset : Nat) : Nat → (Int → Nat)
  | 0 => dstPx
  | h + 1 =>
    solidOffsetRows (solidOffsetRow dstPx srcPx dp sp offset w) srcPx
      (dp + (w : Int) + dnext) (sp + (w : Int) + snext) w dnext snext offset h

/-- Rust `solid_palette_offset_blit` (blit.rs lines 244-267). -/
def Bitmap.solid_palette_offset_blit (dest : Bitmap) (src : Bitmap)
    (src_region : Rect) (dest_x dest_y : Int) (offset : Nat) : Bitmap :=
  let snext := (src.width : Int) - (src_region.width : Int)
  let dnext := (dest.width : Int) - (src_region.width : Int)
  { dest with
    pixels :=
      solidOffsetRows dest.pixels src.pixels
        (dest.ptr dest_x dest_y) (src.ptr src_region.x src_region.y)
        src_region.width dnext snext offset src_region.height }

/-- Inner pixel loop of `transparent_blit`: source pixels equal to
`transparent_color` are skipped. -/
def transparentRow (dstPx srcPx : Int → Nat) (dp sp : Int) (t : Nat) :
    Nat → (Int → Nat)
  | 0 => dstPx
  | n + 1 =>
    transparentRow
      (if srcPx sp ≠ t then upd dstPx dp (srcPx sp) else dstPx) srcPx
      (dp + 1) (sp + 1) t n

/-- Row loop of `transparent_blit`. -/
def transparentRows (dstPx srcPx : Int → Nat) (dp sp : Int) (w : Nat)
    (dnext snext : Int) (t : Nat) : Nat → (Int → Nat)
  | 0 => dstPx
  | h + 1 =>
    transparentRows (transparentRow dstPx srcPx dp sp t w) srcPx
      (dp + (w : Int) + dnext) (sp + (w : Int) + snext) w dnext snext t h

/-- Rust `transparent_blit` (blit.rs lines 298-325). -/
def Bitmap.transparent_blit (dest : Bitmap) (src : Bitmap) (src_region : Rect)
    (dest_x dest_y : Int) (transparent_color : Nat) : Bitmap :=
  let snext := (src.width : Int) - (src_region.width : Int)
  let dnext := (dest.width : Int) - (src_region.width : Int)
  { dest with
    pixels :=
      transparentRows dest.pixels src.pixels
        (dest.ptr dest_x dest_y) (src.ptr src_region.x src_region.y)
        src_region.width dnext snext transparent_color src_region.height }

/-- Inner pixel loop of `transparent_palette_offset_blit`: the wrapping
palette offset is applied only to source pixels that pass the transparency
test. -/
def transparentOffsetRow (dstPx srcPx : Int → Nat) (dp sp : Int)
    (t offset : Nat) : Nat → (Int → Nat)
  | 0 => dstPx
  | n + 1 =>
    transparentOffsetRow
      (if srcPx sp ≠ t then upd dstPx dp ((srcPx sp + offset) % 256) else dstPx)
      srcPx (dp + 1) (sp + 1) t offset n

/-- Row loop of `transparent_palette_offset_blit`. -/
def transparentOffsetRows (dstPx srcPx : Int → Nat) (dp sp : Int) (w : Nat)
    (dnext snext : Int) (t offset : Nat) : Nat → (Int → Nat)
  | 0 => dstPx
  | h + 1 =>
    transparentOffsetRows (transparentOffsetRow dstPx srcPx dp sp t offset w) srcPx
      (dp + (w : Int) + dnext) (sp + (w : Int) + snext) w dnext snext t offset h

/-- Rust `transparent_palette_offset_blit` (blit.rs lines 360-388). -/
def Bitmap.transparent_palette_offset_blit (dest : Bitmap) (src : Bitmap)
    (src_region : Rect) (dest_x dest_y : Int) (transparent_color offset : Nat) :
    Bitmap :=
  let snext := (src.width : Int) - (src_region.width : Int)
  let dnext := (dest.width : Int) - (src_region.width : Int)
  { dest with
    pixels :=
      transparentOffsetRows dest.pixels src.pixels
        (dest.ptr dest_x dest_y) (src.ptr src_region.x src_region.y)
        src_region.width dnext snext transparent_color offset src_region.height }

/-- Inner pixel loop of `transparent_flipped_blit`: transparency test with
the source pointer stepping by `x_inc`. -/
def transparentFlippedRow (dstPx srcPx : Int → Nat) (dp sp x_inc : Int) (t : Nat) :
    Nat → (Int → Nat)
  | 0 => dstPx
  | n + 1 =>
    transparentFlippedRow
      (if srcPx sp ≠ t then upd dstPx dp (srcPx sp) else dstPx) srcPx
      (dp + 1) (sp + x_inc) x_inc t n

/-- Row loop of `transparent_flipped_blit`. -/
def transparentFlippedRows (dstPx srcPx : Int → Nat) (dp sp x_inc : Int) (w : Nat)
    (dnext snext : Int) (t : Nat) : Nat → (Int → Nat)
  | 0 => dstPx
  | h + 1 =>
    transparentFlippedRows (transparentFlippedRow dstPx srcPx dp sp x_inc t w) srcPx
      (dp + (w : Int) + dnext) (sp + (w : Int) * x_inc + snext) x_inc w dnext snext t h

/-- Rust `transparent_flipped_blit` (blit.rs lines 327-358). -/
def Bitmap.transparent_flipped_blit (dest : Bitmap) (src : Bitmap)
    (src_region : Rect) (dest_x dest_y : Int) (transparent_color : Nat)
    (horizontal_flip vertical_flip : Bool) : Bitmap :=
  let dnext := (dest.width : Int) - (src_region.width : Int)
  let p := dest.get_flipped_blit_properties src src_region horizontal_flip vertical_flip
  { dest with
    pixels :=
      transparentFlippedRows dest.pixels src.pixels
        (dest.ptr dest_x dest_y) (src.ptr p.2.1 p.2.2.1) p.1
        src_region.width dnext p.2.2.2 transparent_color src_region.height }

/-- Inner pixel loop of `solid_flipped_palette_offset_blit`. -/
def solidFlippedOffsetRow (dstPx srcPx : Int → Nat) (dp sp x_inc : Int)
    (offset : Nat) : Nat → (Int → Nat)
  | 0 => dstPx
  | n + 1 =>
    solidFlippedOffsetRow (upd dstPx dp ((srcPx sp + offset) % 256)) srcPx
      (dp + 1) (sp + x_inc) x_inc offset n

/-- Row loop of `solid_flipped_palette_offset_blit`. -/
def solidFlippedOffsetRows (dstPx srcPx : Int → Nat) (dp sp x_inc : Int) (w : Nat)
    (dnext snext : Int) (offset : Nat) : Nat → (Int → Nat)
  | 0 => dstPx
  | h + 1 =>
    solidFlippedOffsetRows (solidFlippedOffsetRow dstPx srcPx dp sp x_inc offset w)
      srcPx (dp + (w : Int) + dnext) (sp + (w : Int) * x_inc + snext) x_inc w dnext
      snext offset h

/-- Rust `solid_flipped_palette_offset_blit` (blit.rs lines 269-296). -/
def Bitmap.solid_flipped_palette_offset_blit (dest : Bitmap) (src : Bitmap)
    (src_region : Rect) (dest_x dest_y : Int)
    (horizontal_flip vertical_flip : Bool) (offset : Nat) : Bitmap :=
  let dnext := (dest.width : Int) - (src_region.width : Int)
  let p := dest.get_flipped_blit_properties src src_region horizontal_flip vertical_flip
  { dest with
    pixels :=
      solidFlippedOffsetRows dest.pixels src.pixels
        (dest.ptr dest_x dest_y) (src.ptr p.2.1 p.2.2.1) p.1
        src_region.width dnext p.2.2.2 offset src_region.height }

/-- Inner pixel loop of `transparent_flipped_palette_offset_blit`. -/
def transparentFlippedOffsetRow (dstPx srcPx : Int → Nat) (dp sp x_inc : Int)
    (t offset : Nat) : Nat → (Int → Nat)
  | 0 => dstPx
  | n + 1 =>
    transparentFlippedOffsetRow
      (if srcPx sp ≠ t then upd dstPx dp ((srcPx sp + offset) % 256) else dstPx)
      srcPx (dp + 1) (sp + x_inc) x_inc t offset n

/-- Row loop of `transparent_flipped_palette_offset_blit`. -/
def transparentFlippedOffsetRows (dstPx srcPx : Int → Nat) (dp sp x_inc : Int)
    (w : Nat) (dnext snext : Int) (t offset : Nat) : Nat → (Int → Nat)
  | 0 => dstPx
  | h + 1 =>
    transparentFlippedOffsetRows
      (transparentFlippedOffsetRow dstPx srcPx dp sp x_inc t offset w) srcPx
      (dp + (w : Int) + dnext) (sp + (w : Int) * x_inc + snext) x_inc w dnext snext
      t offset h

/-- Rust `transparent_flipped_palette_offset_blit` (blit.rs lines 390-422). -/
def Bitmap.transparent_flipped_palette_offset_blit (dest : Bitmap) (src : Bitmap)
    (src_region : Rect) (dest_x dest_y : Int) (transparent_color : Nat)
    (horizontal_flip vertical_flip : Bool) (offset : Nat) : Bitmap :=
  let dnext := (dest.width : Int) - (src_region.width : Int)
  let p := dest.get_flipped_blit_properties src src_region horizontal_flip vertical_flip
  { dest with
    pixels :=
      transparentFlippedOffsetRows dest.pixels src.pixels
        (dest.ptr dest_x dest_y) (src.ptr p.2.1 p.2.2.1) p.1
        src_region.width dnext p.2.2.2 transparent_color offset src_region.height }

/-- Inner pixel loop of `transparent_single_color_blit`: non-transparent
source pixels are replaced by the fixed `draw_color`. -/
def transparentSingleRow (dstPx srcPx : Int → Nat) (dp sp : Int)
    (t draw_color : Nat) : Nat → (Int → Nat)
  | 0 => dstPx
  | n + 1 =>
    transparentSingleRow
      (if srcPx sp ≠ t then upd dstPx dp draw_color else dstPx) srcPx
      (dp + 1) (sp + 1) t draw_color n

/-- Row loop of `transparent_single_color_blit`. -/
def transparentSingleRows (dstPx srcPx : Int → Nat) (dp sp : Int) (w : Nat)
    (dnext snext : Int) (t draw_color : Nat) : Nat → (Int → Nat)
  | 0 => dstPx
  | h + 1 =>
    transparentSingleRows (transparentSingleRow dstPx srcPx dp sp t draw_color w)
      srcPx (dp + (w : Int) + dnext) (sp + (w : Int) + snext) w dnext snext t
      draw_color h

/-- Rust `transparent_single_color_blit` (blit.rs lines 424-452). -/
def Bitmap.transparent_single_color_blit (dest : Bitmap) (src : Bitmap)
    (src_region : Rect) (dest_x dest_y : Int) (transparent_color draw_color : Nat) :
    Bitmap :=
  let snext := (src.width : Int) - (src_region.width : Int)
  let dnext := (dest.width : Int) - (src_region.width : Int)
  { dest with
    pixels :=
      transparentSingleRows dest.pixels src.pixels
        (dest.ptr dest_x dest_y) (src.ptr src_region.x src_region.y)
        src_region.width dnext snext transparent_color draw_color
        src_region.height }

/-- Inner pixel loop of `transparent_flipped_single_color_blit`. -/
def transparentFlippedSingleRow (dstPx srcPx : Int → Nat) (dp sp x_inc : Int)
    (t draw_color : Nat) : Nat → (Int → Nat)
  | 0 => dstPx
  | n + 1 =>
    transparentFlippedSingleRow
      (if srcPx sp ≠ t then upd dstPx dp draw_color else dstPx) srcPx
      (dp + 1) (sp + x_inc) x_inc t draw_color n

/-- Row loop of `transparent_flipped_single_color_blit`. -/
def transparentFlippedSingleRows (dstPx srcPx : Int → Nat) (dp sp x_inc : Int)
    (w : Nat) (dnext snext : Int) (t draw_color : Nat) : Nat → (Int → Nat)
  | 0 => dstPx
  | h + 1 =>
    transparentFlippedSingleRows
      (transparentFlippedSingleRow dstPx srcPx dp sp x_inc t draw_color w) srcPx
      (dp + (w : Int) + dnext) (sp + (w : Int) * x_inc + snext) x_inc w dnext snext
      t draw_color h

/-- Rust `transparent_flipped_single_color_blit` (blit.rs lines 454-486). -/
def Bitmap.transparent_flipped_single_color_blit (dest : Bitmap) (src : Bitmap)
    (src_region : Rect) (dest_x dest_y : Int) (transparent_color : Nat)
    (horizontal_flip vertical_flip : Bool) (draw_color : Nat) : Bitmap :=
  let dnext := (dest.width : Int) - (src_region.width : Int)
  let p := dest.get_flipped_blit_properties src src_region horizontal_flip vertical_flip
  { dest with
    pixels :=
      transparentFlippedSingleRows dest.pixels src.pixels
        (dest.ptr dest_x dest_y) (src.ptr p.2.1 p.2.2.1) p.1
        src_region.width dnext p.2.2.2 transparent_color draw_color
        src_region.height }

/-- Per-pixel body of Rust `rotozoom_palette_offset_blit` (blit.rs lines
592-608), the routine behind both `RotoZoomOffset` (`transparent_color =
none`) and `RotoZoomTransparentOffset` (`transparent_color = some t`).  The
`f32` arithmetic of the surrounding loop only selects which source sample
(`src_x as usize` within the row at `src_region.y + src_y as i32`) is read
and which destination coordinates (`draw_x`, `draw_y`) are written; those
values enter here as parameters, and the integer value path of the body -
the transparency gate `transparent_color.is_none() || transparent_color !=
Some(pixel)`, the `wrapping_add(offset)`, and the double bounds-checked
`set_pixel` write - is embedded exactly. -/
def Bitmap.rotozoom_palette_offset_body (dest : Bitmap) (src : Bitmap)
    (src_region : Rect) (transparent_color : Option Nat) (offset : Nat)
    (srcXi : Nat) (srcYi draw_x draw_y : Int) : Bitmap :=
  let pixel := src.pixels (src.ptr src_region.x (src_region.y + srcYi) + (srcXi : Int))
  if transparent_color = none ∨ transparent_color ≠ some pixel then
    let pixel2 := (pixel + offset) % 256
    (dest.set_pixel draw_x draw_y pixel2).set_pixel (draw_x + 1) draw_y pixel2
  else dest

/-- Rust `BlitMethod` (blit.rs lines 4-86): the closed set of 14 transfer modes.
The rotozoom angle/scale parameters are `f32` in Rust; they are carried here
as inert `Float` payloads (no theorem computes with them). -/
inductive BlitMethod where
  | Solid
  | SolidFlipped (horizontal_flip vertical_flip : Bool)
  | Transparent (transparent_color : Nat)
  | TransparentFlipped (transparent_color : Nat) (horizontal_flip vertical_flip : Bool)
  | TransparentSingle (transparent_color draw_color : Nat)
  | TransparentFlippedSingle (transparent_color : Nat)
      (horizontal_flip vertical_flip : Bool) (draw_color : Nat)
  | SolidOffset (offset : Nat)
  | SolidFlippedOffset (horizontal_flip vertical_flip : Bool) (offset : Nat)
  | TransparentOffset (transparent_color offset : Nat)
  | TransparentFlippedOffset (transparent_color : Nat)
      (horizontal_flip vertical_flip : Bool) (offset : Nat)
  | RotoZoom (angle scale_x scale_y : Float)
  | RotoZoomTransparent (angle scale_x scale_y : Float) (transparent_color : Nat)
  | RotoZoomOffset (angle scale_x scale_y : Float) (offset : Nat)
  | RotoZoomTransparentOffset (angle scale_x scale_y : Float)
      (transparent_color offset : Nat)

/-- Whether a method is one of the four rotozoom transfer modes. -/
def BlitMethod.isRotoZoom : BlitMethod → Bool
  | .RotoZoom _ _ _ => true
  | .RotoZoomTransparent _ _ _ _ => true
  | .RotoZoomOffset _ _ _ _ => true
  | .RotoZoomTransparentOffset _ _ _ _ _ => true
  | _ => false

/-- The branch selector of the `match method` in `blit_region` (blit.rs lines
633-651): exactly the methods matched by the arms `RotoZoom { .. } => {}` and
`RotoZoomTransparent { .. } => {}` skip the `clip_blit` call against the
destination clip region; every other method (the `_` arm), including
`RotoZoomOffset` and `RotoZoomTransparentOffset`, goes through `clip_blit`. -/
def BlitMethod.skipsDestClip : BlitMethod → Bool
  | .RotoZoom _ _ _ => true
  | .RotoZoomTransparent _ _ _ _ => true
  | _ => false

/-- Rust `blit_region_unchecked` (blit.rs lines 660-709): dispatch to the transfer
routine matching the method tag.  The four rotozoom transfer routines drive
their loops with `f32` arithmetic and are left unmodelled here (their arms
return the destination unchanged, and no theorem relies on those arms); the
per-pixel integer value path of the two offset rotozoom methods is embedded
separately as `Bitmap.rotozoom_palette_offset_body`. -/
def Bitmap.blit_region_unchecked (dest : Bitmap) (method : BlitMethod)
    (src : Bitmap) (src_region : Rect) (dest_x dest_y : Int) : Bitmap :=
  match method with
  | .Solid => dest.solid_blit src src_region dest_x dest_y
  | .SolidFlipped hf vf => dest.solid_flipped_blit src src_region dest_x dest_y hf vf
  | .SolidOffset offset => dest.solid_palette_offset_blit src src_region dest_x dest_y offset
  | .SolidFlippedOffset hf vf offset =>
    dest.solid_flipped_palette_offset_blit src src_region dest_x dest_y hf vf offset
  | .Transparent t => dest.transparent_blit src src_region dest_x dest_y t
  | .TransparentFlipped t hf vf =>
    dest.transparent_flipped_blit src src_region dest_x dest_y t hf vf
  | .TransparentSingle t draw =>
    dest.transparent_single_color_blit src src_region dest_x dest_y t draw
  | .TransparentFlippedSingle t hf vf draw =>
    dest.transparent_flipped_single_color_blit src src_region dest_x dest_y t hf vf draw
  | .TransparentOffset t offset =>
    dest.transparent_palette_offset_blit src src_region dest_x dest_y t offset
  | .TransparentFlippedOffset t hf vf offset =>
    dest.transparent_flipped_palette_offset_blit src src_region dest_x dest_y t hf vf offset
  | _ => dest

/-- Rust `blit_region` (blit.rs lines 618-656): clamp the source region to the
source bitmap's own clip region (abort on failure); for all methods except
those whose match arm skips it (`RotoZoom` and `RotoZoomTransparent`), run
`clip_blit` against the destination's clip region (abort on `false`); then
dispatch. -/
def Bitmap.blit_region (dest : Bitmap) (method : BlitMethod) (src : Bitmap)
    (src_region : Rect) (dest_x dest_y : Int) : Bitmap :=
  match src_region.clamp_to src.clip_region with
  | (false, _) => dest
  | (true, clamped) =>
    if method.skipsDestClip then
      dest.blit_region_unchecked method src clamped dest_x dest_y
    else
      match clip_blit dest.clip_region ⟨clamped, dest_x, dest_y⟩ with
      | (false, _) => dest
      | (true, s) => dest.blit_region_unchecked method src s.region s.dx s.dy

/-- The semantics of `ptr::write_bytes(color, count)` used by the horizontal
fills: set the `count` bytes starting at offset `p` to `color`. -/
def write_bytes (dstPx : Int → Nat) (p : Int) (color count : Nat) : Int → Nat :=
fun q => if p ≤ q ∧ q < p + (count : Int) then color else dstPx q

/-- Rust `horiz_line` (primitives.rs lines 236-244): build the one-row rect, clamp
it to the clip region, and fill it contiguously (no-op when the clamp fails). -/
def Bitmap.horiz_line (b : Bitmap) (x1 x2 y : Int) (color : Nat) : Bitmap :=
  match (Rect.from_coords x1 y x2 y).clamp_to b.clip_region with
  | (false, _) => b
  | (true, region) =>
    { b with pixels := write_bytes b.pixels (b.ptr region.x region.y) color region.width }

/-- The column loop of `vert_line` and of the vertical edges of `rect`:
write one byte, advance the pointer by the full bitmap width. -/
def vertLoop (dstPx : Int → Nat) (p : Int) (color : Nat) (pitch : Int) :
    Nat → (Int → Nat)
  | 0 => dstPx
  | n + 1 => vertLoop (upd dstPx p color) (p + pitch) color pitch n

/-- Rust `vert_line` (primitives.rs lines 265-276). -/
def Bitmap.vert_line (b : Bitmap) (x y1 y2 : Int) (color : Nat) : Bitmap :=
  match (Rect.from_coords x y1 x y2).clamp_to b.clip_region with
  | (false, _) => b
  | (true, region) =>
    { b with
      pixels := vertLoop b.pixels (b.ptr region.x region.y) color (b.width : Int)
        region.height }

/-- Rust `rect` (primitives.rs lines 299-356): swap the corners into order, clamp
the bounding rect, and draw each of the four edges only if clamping did not
move that edge. -/
def Bitmap.rect (b : Bitmap) (x1 y1 x2 y2 : Int) (color : Nat) : Bitmap :=
  let px := if x2 < x1 then (x2, x1) else (x1, x2)
  let py := if y2 < y1 then (y2, y1) else (y1, y2)
  let x1 := px.1
  let x2 := px.2
  let y1 := py.1
  let y2 := py.2
  let region0 : Rect :=
    { x := x1, y := y1, width := (x2 - x1 + 1).toNat, height := (y2 - y1 + 1).toNat }
  match region0.clamp_to b.clip_region with
  | (false, _) => b
  | (true, region) =>
    let p1 :=
      if y1 = region.y then
        write_bytes b.pixels (b.ptr region.x region.y) color region.width
      else b.pixels
    let p2 :=
      if y2 = region.bottom then
        write_bytes p1 (b.ptr region.x region.bottom) color region.width
      else p1
    let p3 :=
      if x1 = region.x then
        vertLoop p2 (b.ptr region.x region.y) color (b.width : Int) region.height
      else p2
    let p4 :=
      if x2 = region.right then
        vertLoop p3 (b.ptr region.right region.y) color (b.width : Int) region.height
      else p3
    { b with pixels := p4 }

/-- The row loop of `filled_rect`: fill `w` bytes, advance by the full bitmap
width. -/
def filledRows (dstPx : Int → Nat) (p : Int) (color w : Nat) (pitch : Int) :
    Nat → (Int → Nat)
  | 0 => dstPx
  | n + 1 => filledRows (write_bytes dstPx p color w) (p + pitch) color w pitch n

/-- Rust `filled_rect` (primitives.rs lines 438-449). -/
def Bitmap.filled_rect (b : Bitmap) (x1 y1 x2 y2 : Int) (color : Nat) : Bitmap :=
  match (Rect.from_coords x1 y1 x2 y2).clamp_to b.clip_region with
  | (false, _) => b
  | (true, region) =>
    { b with
      pixels := filledRows b.pixels (b.ptr region.x region.y) color region.width
        (b.width : Int) region.height }

/-- The x-major Bresenham loop of `line` (primitives.rs lines 129-145):
per iteration the error accumulator grows by `delta_y_abs`, stepping the
minor (y) axis when it reaches `delta_x_abs`; the pixel is written through
the raw pointer only after the `is_xy_visible` test. -/
def lineLoopX (b : Bitmap) (dstPx : Int → Nat) (dxC dyC : Int) (err : Nat)
    (dest : Int) (dxa dya : Nat) (sx sy offX offY : Int) (color : Nat) :
    Nat → (Int → Nat)
  | 0 => dstPx
  | n + 1 =>
    let e1 := err + dya
    let t : Nat × Int × Int :=
      if dxa ≤ e1 then (e1 - dxa, dyC + sy, dest + offY) else (e1, dyC, dest)
    let dxC' := dxC + sx
    let dest' := t.2.2 + offX
    let dstPx' := if b.is_xy_visible dxC' t.2.1 then upd dstPx dest' color else dstPx
    lineLoopX b dstPx' dxC' t.2.1 t.1 dest' dxa dya sx sy offX offY color n

/-- The y-major Bresenham loop of `line` (primitives.rs lines 147-162). -/
def lineLoopY (b : Bitmap) (dstPx : Int → Nat) (dxC dyC : Int) (err : Nat)
    (dest : Int) (dya dxa : Nat) (sx sy offX offY : Int) (color : Nat) :
    Nat → (Int → Nat)
  | 0 => dstPx
  | n + 1 =>
    let e1 := err + dxa
    let t : Nat × Int × Int :=
      if dya ≤ e1 then (e1 - dya, dxC + sx, dest + offX) else (e1, dxC, dest)
    let dyC' := dyC + sy
    let dest' := t.2.2 + offY
    let dstPx' := if b.is_xy_visible t.2.1 dyC' then upd dstPx dest' color else dstPx
    lineLoopY b dstPx' t.2.1 dyC' t.1 dest' dya dxa sx sy offX offY color n

/-- Rust `line` (primitives.rs lines 105-165): integer Bresenham; the first pixel
is written before the loop (if visible), then the major axis is iterated. -/
def Bitmap.line (b : Bitmap) (x1 y1 x2 y2 : Int) (color : Nat) : Bitmap :=
  let delta_x := x2 - x1
  let delta_y := y2 - y1
  let delta_x_abs := delta_x.natAbs
  let delta_y_abs := delta_y.natAbs
  let delta_x_sign := delta_x.sign
  let delta_y_sign := delta_y.sign
  let ex := delta_x_abs / 2
  let ey := delta_y_abs / 2
  let offset_x_inc := delta_x_sign
  let offset_y_inc := delta_y_sign * (b.width : Int)
  let dest := b.ptr x1 y1
  let px0 := if b.is_xy_visible x1 y1 then upd b.pixels dest color else b.pixels
  if delta_y_abs ≤ delta_x_abs then
    { b with
      pixels := lineLoopX b px0 x1 y1 ey dest delta_x_abs delta_y_abs
        delta_x_sign delta_y_sign offset_x_inc offset_y_inc color delta_x_abs }
  else
    { b with
      pixels := lineLoopY b px0 x1 y1 ex dest delta_y_abs delta_x_abs
        delta_x_sign delta_y_sign offset_x_inc offset_y_inc color delta_y_abs }

/-- The midpoint-circle loop of `circle` (primitives.rs lines 482-499):
8-way symmetric plotting through the bounds-checked `set_pixel`. -/
def circleLoop (b : Bitmap) (cx cy : Int) (color : Nat) (x y m : Int) : Bitmap :=
  if hxy : x ≤ y then
    let b1 := b.set_pixel (cx + x) (cy + y) color
    let b2 := b1.set_pixel (cx + x) (cy - y) color
    let b3 := b2.set_pixel (cx - x) (cy + y) color
    let b4 := b3.set_pixel (cx - x) (cy - y) color
    let b5 := b4.set_pixel (cx + y) (cy + x) color
    let b6 := b5.set_pixel (cx + y) (cy - x) color
    let b7 := b6.set_pixel (cx - y) (cy + x) color
    let b8 := b7.set_pixel (cx - y) (cy - x) color
    if 0 < m then
      circleLoop b8 cx cy color (x + 1) (y - 1) (m - 8 * (y - 1) + (8 * (x + 1) + 4))
    else
      circleLoop b8 cx cy color (x + 1) y (m + (8 * (x + 1) + 4))
  else b
termination_by (y + 1 - x).toNat
decreasing_by
  all_goals omega

/-- Rust `circle` (primitives.rs lines 476-500). -/
def Bitmap.circle (b : Bitmap) (center_x center_y : Int) (radius : Nat)
    (color : Nat) : Bitmap :=
  circleLoop b center_x center_y color 0 (radius : Int) (5 - 4 * (radius : Int))

/-- The loop of `filled_circle` (primitives.rs lines 509-522): paired
horizontal-span filling per scanline. -/
def filledCircleLoop (b : Bitmap) (cx cy : Int) (color : Nat) (x y m : Int) :
    Bitmap :=
  if hxy : x ≤ y then
    let b1 := b.horiz_line (cx - x) (cx + x) (cy - y) color
    let b2 := b1.horiz_line (cx - y) (cx + y) (cy - x) color
    let b3 := b2.horiz_line (cx - y) (cx + y) (cy + x) color
    let b4 := b3.horiz_line (cx - x) (cx + x) (cy + y) color
    if 0 < m then
      filledCircleLoop b4 cx cy color (x + 1) (y - 1) (m - 8 * (y - 1) + (8 * (x + 1) + 4))
    else
      filledCircleLoop b4 cx cy color (x + 1) y (m + (8 * (x + 1) + 4))
  else b
termination_by (y + 1 - x).toNat
decreasing_by
  all_goals omega

/-- Rust `filled_circle` (primitives.rs lines 503-523). -/
def Bitmap.filled_circle (b : Bitmap) (center_x center_y : Int) (radius : Nat)
    (color : Nat) : Bitmap :=
  filledCircleLoop b center_x center_y color 0 (radius : Int) (5 - 4 * (radius : Int))

/-- Whether the buffer offset `q` decodes (row-major, pitch `W`) to a
coordinate inside `region`. -/
def inRegionIdx (W : Int) (region : Rect) (q : Int) : Prop :=
region.x ≤ q % W ∧ q % W ≤ region.right ∧ region.y ≤ q / W ∧ q / W ≤ region.bottom

instance (W : Int) (region : Rect) (q : Int) : Decidable (inRegionIdx W region q) := by
  unfold inRegionIdx; infer_instance

/-- Following the spec's words for C8: the same source bitmap with the
contents of `region` reversed column-wise (mirrored about the region's
vertical center line); pixels outside the region are untouched. -/
def hFlipRegion (src : Bitmap) (region : Rect) : Bitmap :=
  { src with
    pixels := fun q =>
      let W : Int := (src.width : Int)
      if inRegionIdx W region q then
        src.pixels ((q / W) * W + (region.x + region.right - q % W))
      else src.pixels q }

/-- Following the spec's words for C8: the region's contents reversed
row-wise (mirrored about the horizontal center line). -/
def vFlipRegion (src : Bitmap) (region : Rect) : Bitmap :=
  { src with
    pixels := fun q =>
      let W : Int := (src.width : Int)
      if inRegionIdx W region q then
        src.pixels ((region.y + region.bottom - q / W) * W + q % W)
      else src.pixels q }

/-- Following the spec's words for C8: the region's contents rotated 180
degrees (both mirrorings combined). -/
def hvFlipRegion (src : Bitmap) (region : Rect) : Bitmap :=
  { src with
    pixels := fun q =>
      let W : Int := (src.width : Int)
      if inRegionIdx W region q then
        src.pixels ((region.y + region.bottom - q / W) * W + (region.x + region.right - q % W))
      else src.pixels q }

/-- The coordinates (row-major decode) of the buffer cell at offset `q` lie
inside the bitmap's current clip region. -/
def inClipIdx (b : Bitmap) (q : Int) : Prop :=
b.is_xy_visible (q % (b.width : Int)) (q / (b.width : Int))

instance (b : Bitmap) (q : Int) : Decidable (inClipIdx b q) := by
  unfold inClipIdx; infer_instance

/-- The data-model invariant that a bitmap's clip region is contained in
`[0, width) x [0, height)`, written without `Rect.right`/`Rect.bottom`. -/
def clipInBitmap (b : Bitmap) : Prop :=
0 ≤ b.clip_region.x ∧
  b.clip_region.x + (b.clip_region.width : Int) - 1 < (b.width : Int) ∧
  0 ≤ b.clip_region.y ∧
  b.clip_region.y + (b.clip_region.height : Int) - 1 < (b.height : Int)

instance (b : Bitmap) : Decidable (clipInBitmap b) := by
  unfold clipInBitmap; infer_instance

/-! ## Basic lemmas about the machine-integer casts -/

lemma u32_as_i32_small {n : Nat} (h : n < 2 ^ 31) : u32_as_i32 n = (n : Int) := by
  unfold u32_as_i32; rw [if_pos h]

lemma i32_as_u32_of_nonneg {z : Int} (h0 : 0 ≤ z) (h1 : z < 2 ^ 32) :
    i32_as_u32 z = z.toNat := by
  unfold i32_as_u32; rw [Int.emod_eq_of_lt h0 (by exact_mod_cast h1)]

/-! ## Lemmas about the four edge steps of `clip_blit` -/

lemma clipLeft_skip {clip : Rect} {s : ClipState} (h : clip.x ≤ s.dx) :
    clipLeft clip s = some s := by
  unfold clipLeft; rw [if_neg (by omega)]

lemma clipRight_skip {clip : Rect} {s : ClipState}
    (hw : s.region.width < 2 ^ 31) (hcw : clip.width < 2 ^ 31)
    (h : s.dx ≤ (clip.width : Int) - (s.region.width : Int)) :
    clipRight clip s = some s := by
  unfold clipRight
  rw [u32_as_i32_small hw, u32_as_i32_small hcw, if_neg (by omega)]

lemma clipTop_skip {clip : Rect} {s : ClipState} (h : clip.y ≤ s.dy) :
    clipTop clip s = some s := by
  unfold clipTop; rw [if_neg (by omega)]

lemma clipBottom_skip {clip : Rect} {s : ClipState}
    (hh : s.region.height < 2 ^ 31) (hch : clip.height < 2 ^ 31)
    (h : s.dy ≤ (clip.height : Int) - (s.region.height : Int)) :
    clipBottom clip s = some s := by
  unfold clipBottom
  rw [u32_as_i32_small hh, u32_as_i32_small hch, if_neg (by omega)]

lemma clipLeft_reject {clip : Rect} {s : ClipState}
    (hw : s.region.width < 2 ^ 31)
    (h1 : s.dx < clip.x) (h2 : s.dx + (s.region.width : Int) - 1 < clip.x) :
    clipLeft clip s = none := by
  unfold clipLeft
  rw [u32_as_i32_small hw, if_pos h1, if_pos h2]

lemma clipLeft_shift {clip : Rect} {s : ClipState}
    (hw : s.region.width < 2 ^ 31)
    (h1 : s.dx < clip.x) (h2 : ¬(s.dx + (s.region.width : Int) - 1 < clip.x)) :
    clipLeft clip s =
      some ⟨⟨s.region.x + (clip.x - s.dx), s.region.y,
             ((s.region.width : Int) - (clip.x - s.dx)).toNat, s.region.height⟩,
            clip.x, s.dy⟩ := by
  unfold clipLeft
  rw [u32_as_i32_small hw, if_pos h1, if_neg h2]
  have hnn : (0 : Int) ≤ (s.region.width : Int) - (clip.x - s.dx) := by omega
  have hlt : (s.region.width : Int) - (clip.x - s.dx) < 2 ^ 32 := by
    have : ((2 : Int) ^ 31) < 2 ^ 32 := by norm_num
    omega
  simp only [i32_as_u32_of_nonneg hnn hlt]

lemma clipRight_shrink {clip : Rect} {s : ClipState}
    (hw : s.region.width < 2 ^ 31) (hcw : clip.width < 2 ^ 31)
    (h1 : (clip.width : Int) - (s.region.width : Int) < s.dx)
    (h2 : ¬(clip.right < s.dx)) (h3 : s.dx ≤ (clip.width : Int)) :
    clipRight clip s =
      some ⟨⟨s.region.x, s.region.y,
             ((s.region.width : Int) -
               (s.dx + (s.region.width : Int) - (clip.width : Int))).toNat,
             s.region.height⟩,
            s.dx, s.dy⟩ := by
  unfold clipRight
  rw [u32_as_i32_small hw, u32_as_i32_small hcw, if_pos (by omega), if_neg (by omega)]
  have hnn : (0 : Int) ≤
      (s.region.width : Int) - (s.dx + (s.region.width : Int) - (clip.width : Int)) := by
    omega
  have hlt : (s.region.width : Int) -
      (s.dx + (s.region.width : Int) - (clip.width : Int)) < 2 ^ 32 := by
    have : ((2 : Int) ^ 31) < 2 ^ 32 := by norm_num
    omega
  simp only [i32_as_u32_of_nonneg hnn hlt]

lemma clipRight_reject {clip : Rect} {s : ClipState}
    (hw : s.region.width < 2 ^ 31) (hcw : clip.width < 2 ^ 31)
    (h1 : (clip.width : Int) - (s.region.width : Int) < s.dx)
    (h2 : clip.right < s.dx) :
    clipRight clip s = none := by
  unfold clipRight
  rw [u32_as_i32_small hw, u32_as_i32_small hcw, if_pos (by omega), if_pos h2]

/-- The shared fact behind C1 and C5: when the destination rectangle lies
fully inside a clip rectangle whose origin is not positive (and all sizes
are in `i32` range), `clip_blit` returns `true` without mutating anything. -/
lemma clip_blit_inside_noop {clip : Rect} {s : ClipState}
    (hx : clip.x ≤ 0) (hy : clip.y ≤ 0)
    (hw : s.region.width < 2 ^ 31) (hh : s.region.height < 2 ^ 31)
    (hcw : clip.width < 2 ^ 31) (hch : clip.height < 2 ^ 31)
    (h1 : clip.x ≤ s.dx) (h2 : s.dx + (s.region.width : Int) - 1 ≤ clip.right)
    (h3 : clip.y ≤ s.dy) (h4 : s.dy + (s.region.height : Int) - 1 ≤ clip.bottom) :
    clip_blit clip s = (true, s) := by
  have hr : s.dx ≤ (clip.width : Int) - (s.region.width : Int) := by
    unfold Rect.right at h2; omega
  have hb : s.dy ≤ (clip.height : Int) - (s.region.height : Int) := by
    unfold Rect.bottom at h4; omega
  simp only [clip_blit, clipLeft_skip h1, clipRight_skip hw hcw hr, clipTop_skip h3,
    clipBottom_skip hh hch hb]

/-! ## Claim C1 -/

/-- Claim C1, counterexample: with the clip rectangle `(10,0,5,5)` (positive
origin), the source region `(0,0,2,2)` and destination `(12,0)`, the
destination rectangle lies fully inside the clip rectangle, yet `clip_blit`
mutates the region: the right-edge test compares `dest_x` against
`clip.width` instead of `clip.right`, and the `u32` width subtraction wraps
to 4294967289. -/
theorem c1_counterexample :
    (let clip : Rect := ⟨10, 0, 5, 5⟩
     let s : ClipState := ⟨⟨0, 0, 2, 2⟩, 12, 0⟩
     (clip.x ≤ s.dx ∧ s.dx + (s.region.width : Int) - 1 ≤ clip.right ∧
       clip.y ≤ s.dy ∧ s.dy + (s.region.height : Int) - 1 ≤ clip.bottom) ∧
       (clip_blit clip s).1 = true ∧
       (clip_blit clip s).2 = ⟨⟨0, 0, 4294967289, 2⟩, 12, 0⟩ ∧
       ¬(clip_blit clip s).2 = s) := by
  decide

/-- Claim C1 (amended): for every clip rectangle with non-positive origin
(in particular origin `(0,0)`) and widths/heights below `2^31`, and every
source region whose destination rectangle lies fully inside the clip
rectangle, `clip_blit` returns `true` and leaves the region and the
destination coordinates unchanged. -/
theorem c1_clip_blit_fully_inside_noop (clip : Rect) (s : ClipState)
    (hx : clip.x ≤ 0) (hy : clip.y ≤ 0)
    (hw : s.region.width < 2 ^ 31) (hh : s.region.height < 2 ^ 31)
    (hcw : clip.width < 2 ^ 31) (hch : clip.height < 2 ^ 31)
    (h1 : clip.x ≤ s.dx) (h2 : s.dx + (s.region.width : Int) - 1 ≤ clip.right)
    (h3 : clip.y ≤ s.dy) (h4 : s.dy + (s.region.height : Int) - 1 ≤ clip.bottom) :
    clip_blit clip s = (true, s) :=
  clip_blit_inside_noop hx hy hw hh hcw hch h1 h2 h3 h4

/-- Claim C1, witness: a fully inside region at clip `(0,0,320,240)`. -/
theorem c1_witness :
    clip_blit ⟨0, 0, 320, 240⟩ ⟨⟨0, 0, 16, 16⟩, 10, 10⟩ =
      (true, ⟨⟨0, 0, 16, 16⟩, 10, 10⟩) :=
  c1_clip_blit_fully_inside_noop ⟨0, 0, 320, 240⟩ ⟨⟨0, 0, 16, 16⟩, 10, 10⟩
    (by decide) (by decide) (by decide) (by decide) (by decide) (by decide)
    (by decide) (by decide) (by decide) (by decide)

/-! ## Claim C3 -/

/-- Claim C3: for every call with `dest_x < clip.x`: if
`dest_x + width - 1 < clip.x` then `clip_blit` returns false (leaving the
state unchanged); otherwise the left-edge step shifts the source region's x
by `clip.x - dest_x`, shrinks its width by the same amount and snaps
`dest_x` to `clip.x`; and on the spec's concrete example
(clip `(0,0,320,240)`, src `(0,0,16,16)`, dest `(-5,10)`) the whole
`clip_blit` returns true with src `(5,0,11,16)` and dest `(0,10)`. -/
theorem c3_clip_blit_left_edge :
    (∀ (clip : Rect) (s : ClipState), s.region.width < 2 ^ 31 →
      s.dx < clip.x → s.dx + (s.region.width : Int) - 1 < clip.x →
      clip_blit clip s = (false, s)) ∧
    (∀ (clip : Rect) (s : ClipState), s.region.width < 2 ^ 31 →
      s.dx < clip.x → ¬(s.dx + (s.region.width : Int) - 1 < clip.x) →
      clipLeft clip s =
        some ⟨⟨s.region.x + (clip.x - s.dx), s.region.y,
               ((s.region.width : Int) - (clip.x - s.dx)).toNat, s.region.height⟩,
              clip.x, s.dy⟩) ∧
    clip_blit ⟨0, 0, 320, 240⟩ ⟨⟨0, 0, 16, 16⟩, -5, 10⟩ =
      (true, ⟨⟨5, 0, 11, 16⟩, 0, 10⟩) := by
  refine ⟨?_, ?_, by decide⟩
  · intro clip s hw h1 h2
    unfold clip_blit
    rw [clipLeft_reject hw h1 h2]
  · intro clip s hw h1 h2
    exact clipLeft_shift hw h1 h2

/-- Claim C3, witness: the rejection branch at `dest_x = -16` and the
left-edge mutation at `dest_x = -5` on clip `(0,0,320,240)`. -/
theorem c3_witness :
    clip_blit ⟨0, 0, 320, 240⟩ ⟨⟨0, 0, 16, 16⟩, -16, 10⟩ =
      (false, ⟨⟨0, 0, 16, 16⟩, -16, 10⟩) ∧
    clipLeft ⟨0, 0, 320, 240⟩ ⟨⟨0, 0, 16, 16⟩, -5, 10⟩ =
      some ⟨⟨0 + (0 - -5), 0, (((16 : Nat) : Int) - (0 - -5)).toNat, 16⟩, 0, 10⟩ :=
  ⟨c3_clip_blit_left_edge.1 ⟨0, 0, 320, 240⟩ ⟨⟨0, 0, 16, 16⟩, -16, 10⟩
      (by decide) (by decide) (by decide),
   c3_clip_blit_left_edge.2.1 ⟨0, 0, 320, 240⟩ ⟨⟨0, 0, 16, 16⟩, -5, 10⟩
      (by decide) (by decide) (by decide)⟩

/-! ## Claim C4 -/

/-- Claim C4, counterexample: with clip `(10,0,5,5)` (positive origin),
region width 2 and `dest_x = 12`, the right-edge guard fires
(`12 > 5 - 2`) and `12 ≤ clip.right = 14`, so by the claim the width should
shrink by the "overflow amount" `12 + 2 - 5 = 9`; but `2 - 9` is negative
and the `u32` cast wraps, so the resulting width is 4294967289, not a
width shrunk by 9. -/
theorem c4_counterexample :
    (let clip : Rect := ⟨10, 0, 5, 5⟩
     let s : ClipState := ⟨⟨0, 0, 2, 2⟩, 12, 0⟩
     ((clip.width : Int) - (s.region.width : Int) < s.dx ∧ ¬(clip.right < s.dx)) ∧
       clipRight clip s = some ⟨⟨0, 0, 4294967289, 2⟩, 12, 0⟩ ∧
       ¬(((4294967289 : Nat) : Int) =
          (s.region.width : Int) -
            (s.dx + (s.region.width : Int) - (clip.width : Int)))) := by
  decide

/-- Claim C4 (amended): in the right-edge step, if `dest_x > clip.right()`
the call is rejected; otherwise — provided `dest_x ≤ clip.width`, which
always holds when `clip.x ≤ 0` (if `dest_x > clip.width` the `u32` width
subtraction instead wraps modulo `2^32`) — the source region's width shrinks
by the overflow amount `dest_x + width - clip.width` and `dest_x` is left
unchanged; and on the spec's concrete example (clip `(0,0,320,240)`, src
`(0,0,16,16)`, dest `(310,10)`) the whole `clip_blit` returns true with src
`(0,0,10,16)` and `dest_x` still 310. -/
theorem c4_clip_blit_right_edge :
    (∀ (clip : Rect) (s : ClipState),
      s.region.width < 2 ^ 31 → clip.width < 2 ^ 31 →
      (clip.width : Int) - (s.region.width : Int) < s.dx →
      clip.right < s.dx →
      clipRight clip s = none) ∧
    (∀ (clip : Rect) (s : ClipState),
      s.region.width < 2 ^ 31 → clip.width < 2 ^ 31 →
      (clip.width : Int) - (s.region.width : Int) < s.dx →
      ¬(clip.right < s.dx) → s.dx ≤ (clip.width : Int) →
      clipRight clip s =
        some ⟨⟨s.region.x, s.region.y,
               ((s.region.width : Int) -
                 (s.dx + (s.region.width : Int) - (clip.width : Int))).toNat,
               s.region.height⟩,
              s.dx, s.dy⟩) ∧
    clip_blit ⟨0, 0, 320, 240⟩ ⟨⟨0, 0, 16, 16⟩, 310, 10⟩ =
      (true, ⟨⟨0, 0, 10, 16⟩, 310, 10⟩) := by
  refine ⟨?_, ?_, by decide⟩
  · intro clip s hw hcw h1 h2
    exact clipRight_reject hw hcw h1 h2
  · intro clip s hw hcw h1 h2 h3
    exact clipRight_shrink hw hcw h1 h2 h3

/-- Claim C4, witness: rejection at `dest_x = 320` and the right-edge
shrink at `dest_x = 310` on clip `(0,0,320,240)`. -/
theorem c4_witness :
    clipRight ⟨0, 0, 320, 240⟩ ⟨⟨0, 0, 16, 16⟩, 320, 10⟩ = none ∧
    clipRight ⟨0, 0, 320, 240⟩ ⟨⟨0, 0, 16, 16⟩, 310, 10⟩ =
      some ⟨⟨0, 0, (((16 : Nat) : Int) - (310 + ((16 : Nat) : Int) - ((320 : Nat) : Int))).toNat, 16⟩,
            310, 10⟩ :=
  ⟨c4_clip_blit_right_edge.1 ⟨0, 0, 320, 240⟩ ⟨⟨0, 0, 16, 16⟩, 320, 10⟩
      (by decide) (by decide) (by decide) (by decide),
   c4_clip_blit_right_edge.2.1 ⟨0, 0, 320, 240⟩ ⟨⟨0, 0, 16, 16⟩, 310, 10⟩
      (by decide) (by decide) (by decide) (by decide) (by decide)⟩

/-! ## Claim C10 -/

/-- Claim C10: `clip_blit` is not atomic on failure.  With clip
`(0,0,320,240)`, source region `(0,0,16,16)` and destination `(-5,300)`
(partially overlapping the left edge, entirely below the bottom edge), the
call returns `false`, yet the region's x and width and the destination x
were already adjusted by the left-edge step: the state comes back as
`((5,0,11,16), 0, 300)`, not as it was passed in. -/
theorem c10_clip_blit_not_atomic :
    (clip_blit ⟨0, 0, 320, 240⟩ ⟨⟨0, 0, 16, 16⟩, -5, 300⟩).1 = false ∧
    (clip_blit ⟨0, 0, 320, 240⟩ ⟨⟨0, 0, 16, 16⟩, -5, 300⟩).2 =
      ⟨⟨5, 0, 11, 16⟩, 0, 300⟩ ∧
    ¬(clip_blit ⟨0, 0, 320, 240⟩ ⟨⟨0, 0, 16, 16⟩, -5, 300⟩).2 =
      ⟨⟨0, 0, 16, 16⟩, -5, 300⟩ := by
  decide

/-! ## Claim C2 -/

/-- Claim C2: in `blit_region` only the `RotoZoom` and `RotoZoomTransparent`
match arms skip the `clip_blit` call against the destination clip region;
`RotoZoomOffset` and `RotoZoomTransparentOffset` fall into the `_` arm and
do run `clip_blit`, contrary to the claim (and to the code's own comment
that rotozoom blits clip per destination pixel and that `clip_blit` cannot
handle a rotozoom destination region). -/
theorem c2_rotozoom_offset_runs_clip_blit :
    (BlitMethod.RotoZoom 0 1 1).skipsDestClip = true ∧
    (BlitMethod.RotoZoomTransparent 0 1 1 0).skipsDestClip = true ∧
    (BlitMethod.RotoZoomOffset 0 1 1 5).skipsDestClip = false ∧
    (BlitMethod.RotoZoomTransparentOffset 0 1 1 0 5).skipsDestClip = false ∧
    (BlitMethod.RotoZoomOffset 0 1 1 5).isRotoZoom = true ∧
    (BlitMethod.RotoZoomTransparentOffset 0 1 1 0 5).isRotoZoom = true :=
  ⟨rfl, rfl, rfl, rfl, rfl, rfl⟩

/-! ## Buffer-update and row-loop lemmas -/

lemma upd_self (f : Int → Nat) (p : Int) (v : Nat) : upd f p v p = v := by
  simp [upd]

lemma upd_ne (f : Int → Nat) (p : Int) (v : Nat) {q : Int} (h : q ≠ p) :
    upd f p v q = f q := by
  simp [upd, h]

/-- Two row-major offsets with column parts in `[0, W)` coincide only when
row and column coincide. -/
lemma row_decomp_unique {W x1 x2 y1 y2 : Int} (hW : 0 < W)
    (h1 : 0 ≤ x1) (h2 : x1 < W) (h3 : 0 ≤ x2) (h4 : x2 < W)
    (heq : y1 * W + x1 = y2 * W + x2) : x1 = x2 ∧ y1 = y2 := by
  have hdvd : W ∣ (x1 - x2) := ⟨y2 - y1, by linarith [heq]⟩
  have habs : |x1 - x2| < W := abs_lt.mpr ⟨by omega, by omega⟩
  have hx : x1 - x2 = 0 := Int.eq_zero_of_abs_lt_dvd hdvd habs
  have hy : (y1 - y2) * W = 0 := by linarith [heq]
  rcases mul_eq_zero.mp hy with h | h
  · constructor <;> omega
  · omega

lemma copyBytes_untouched (d s : Int → Nat) (dp sp : Int) (n : Nat) (q : Int)
    (h : ∀ i : Nat, i < n → q ≠ dp + (i : Int)) :
    copyBytes d s dp sp n q = d q := by
  induction n with
  | zero => rfl
  | succ n ih =>
    unfold copyBytes
    rw [upd_ne _ _ _ (h n (by omega))]
    exact ih fun i hi => h i (by omega)

lemma copyBytes_at (d s : Int → Nat) (dp sp : Int) (n i : Nat) (h : i < n) :
    copyBytes d s dp sp n (dp + (i : Int)) = s (sp + (i : Int)) := by
  induction n with
  | zero => omega
  | succ n ih =>
    unfold copyBytes
    by_cases hi : i = n
    · subst hi
      rw [upd_self]
    · rw [upd_ne _ _ _ (by intro hc; apply hi; omega)]
      exact ih (by omega)

lemma solidRows_untouched (d s : Int → Nat) (dp sp : Int) (w dpitch spitch : Nat)
    (h : Nat) (q : Int)
    (hq : ∀ j i : Nat, j < h → i < w →
      q ≠ dp + (j : Int) * (dpitch : Int) + (i : Int)) :
    solidRows d s dp sp w dpitch spitch h q = d q := by
  induction h generalizing d dp sp with
  | zero => rfl
  | succ h ih =>
    unfold solidRows
    rw [ih _ _ _ fun j i hj hi => by
      have harr : (dp + (dpitch : Int)) + (j : Int) * (dpitch : Int) + (i : Int) =
          dp + ((j + 1 : Nat) : Int) * (dpitch : Int) + (i : Int) := by
        push_cast; ring
      rw [harr]
      exact hq (j + 1) i (by omega) hi]
    exact copyBytes_untouched _ _ _ _ _ _ fun i hi => by
      have harr : dp + (i : Int) =
          dp + ((0 : Nat) : Int) * (dpitch : Int) + (i : Int) := by
        push_cast; ring
      rw [harr]
      exact hq 0 i (by omega) hi

lemma solidRows_at (d s : Int → Nat) (dp sp : Int) (w dpitch spitch : Nat)
    (h : Nat) (hwp : w ≤ dpitch) (j i : Nat) (hj : j < h) (hi : i < w) :
    solidRows d s dp sp w dpitch spitch h
        (dp + (j : Int) * (dpitch : Int) + (i : Int)) =
      s (sp + (j : Int) * (spitch : Int) + (i : Int)) := by
  induction h generalizing d dp sp j with
  | zero => omega
  | succ h ih =>
    unfold solidRows
    cases j with
    | zero =>
      rw [show dp + ((0 : Nat) : Int) * (dpitch : Int) + (i : Int) = dp + (i : Int) by
        push_cast; ring]
      rw [solidRows_untouched _ _ _ _ _ _ _ _ _ fun j' i' hj' hi' => by
        have hpos : (0 : Int) ≤ (j' : Int) * (dpitch : Int) := by positivity
        have : ((i : Int)) < (dpitch : Int) + (j' : Int) * (dpitch : Int) + (i' : Int) := by
          have h1 : ((i : Int)) < (dpitch : Int) := by exact_mod_cast lt_of_lt_of_le hi hwp
          have h2 : (0 : Int) ≤ (i' : Int) := by positivity
          linarith
        intro hc
        omega]
      rw [copyBytes_at _ _ _ _ _ _ hi]
      congr 1
      push_cast; ring
    | succ j =>
      rw [show dp + ((j + 1 : Nat) : Int) * (dpitch : Int) + (i : Int) =
          (dp + (dpitch : Int)) + (j : Int) * (dpitch : Int) + (i : Int) by
        push_cast; ring]
      rw [ih _ _ _ _ (by omega)]
      congr 1
      push_cast; ring

/-! ## `clamp_to` lemmas -/

/-- A region already inside the bounds is returned unchanged by `clamp_to`. -/
lemma clamp_to_of_inside {r bounds : Rect} (hw : 1 ≤ r.width) (hh : 1 ≤ r.height)
    (h1 : bounds.x ≤ r.x) (h2 : r.right ≤ bounds.right)
    (h3 : bounds.y ≤ r.y) (h4 : r.bottom ≤ bounds.bottom) :
    r.clamp_to bounds = (true, r) := by
  unfold Rect.clamp_to
  rw [max_eq_left h1, max_eq_left h3, min_eq_left h2, min_eq_left h4]
  rw [if_pos ⟨by unfold Rect.right; omega, by unfold Rect.bottom; omega⟩]
  have hwn : (r.right - r.x + 1).toNat = r.width := by unfold Rect.right; omega
  have hhn : (r.bottom - r.y + 1).toNat = r.height := by unfold Rect.bottom; omega
  rw [hwn, hhn]

/-- Under the C5 hypotheses, `blit_region` reduces to a plain `solid_blit`:
the clamp to the source clip region is the identity and `clip_blit` against
the destination clip region (origin `(0,0)`) succeeds without mutation. -/
lemma blit_region_solid_reduce (dest src : Bitmap) (R : Rect) (dx dy : Int)
    (hw1 : 1 ≤ R.width) (hh1 : 1 ≤ R.height)
    (hs1 : src.clip_region.x ≤ R.x) (hs2 : R.right ≤ src.clip_region.right)
    (hs3 : src.clip_region.y ≤ R.y) (hs4 : R.bottom ≤ src.clip_region.bottom)
    (hc0x : dest.clip_region.x = 0) (hc0y : dest.clip_region.y = 0)
    (hcw : dest.clip_region.width < 2 ^ 31) (hch : dest.clip_region.height < 2 ^ 31)
    (hrw : R.width < 2 ^ 31) (hrh : R.height < 2 ^ 31)
    (hd1 : dest.clip_region.x ≤ dx)
    (hd2 : dx + (R.width : Int) - 1 ≤ dest.clip_region.right)
    (hd3 : dest.clip_region.y ≤ dy)
    (hd4 : dy + (R.height : Int) - 1 ≤ dest.clip_region.bottom) :
    dest.blit_region .Solid src R dx dy = dest.solid_blit src R dx dy := by
  have hclip : clip_blit dest.clip_region ⟨R, dx, dy⟩ = (true, ⟨R, dx, dy⟩) :=
    clip_blit_inside_noop (by omega) (by omega) hrw hrh hcw hch hd1 hd2 hd3 hd4
  simp only [Bitmap.blit_region, clamp_to_of_inside hw1 hh1 hs1 hs2 hs3 hs4, hclip,
    BlitMethod.skipsDestClip, Bitmap.blit_region_unchecked, Bool.false_eq_true,
    if_false]

/-! ## Claim C5 -/

/-- Claim C5, counterexample: destination bitmap 6x2 with the (legitimately
narrowed) clip region `(2,0,4,2)`, source 4x1 with bytes `1,2,3,4`, source
region `(0,0,4,1)` inside the source clip region, destination origin
`(2,0)` whose 4x1 destination rectangle lies fully inside the destination
clip region.  `clip_blit`'s right-edge test (`dest_x > clip.width - width`,
i.e. `2 > 0`) wrongly shrinks the region to width 2, so destination pixel
`(4,0)` keeps its old value 0 instead of receiving source byte 3. -/
theorem c5_counterexample :
    (let dest : Bitmap := ⟨6, 2, ⟨2, 0, 4, 2⟩, fun _ => 0⟩
     let src : Bitmap := ⟨4, 1, ⟨0, 0, 4, 1⟩,
       fun q => if q = 0 then 1 else if q = 1 then 2 else if q = 2 then 3 else
         if q = 3 then 4 else 0⟩
     let R : Rect := ⟨0, 0, 4, 1⟩
     (src.clip_region.x ≤ R.x ∧ R.right ≤ src.clip_region.right ∧
       src.clip_region.y ≤ R.y ∧ R.bottom ≤ src.clip_region.bottom ∧
       dest.clip_region.x ≤ 2 ∧ 2 + (R.width : Int) - 1 ≤ dest.clip_region.right ∧
       dest.clip_region.y ≤ 0 ∧ 0 + (R.height : Int) - 1 ≤ dest.clip_region.bottom) ∧
      ¬((dest.blit_region .Solid src R 2 0).pixels
          ((0 + ((0 : Nat) : Int)) * (dest.width : Int) + (2 + ((2 : Nat) : Int))) =
        src.pixels ((R.y + ((0 : Nat) : Int)) * (src.width : Int) +
          (R.x + ((2 : Nat) : Int))))) := by
  decide

/-- Claim C5 (amended): for every N x M source region inside the source
bitmap's clip region and every destination origin whose N x M destination
rectangle lies fully inside the destination's clip region, a Solid blit via
`blit_region` writes exactly the source bytes at the destination offset and
leaves every other destination pixel unchanged — provided the destination
clip region has origin `(0,0)` (with a clip region narrowed to a positive
origin, `clip_blit`'s right/bottom edge tests fire for fully visible
regions and drop trailing columns/rows). -/
theorem c5_solid_blit_exact (dest src : Bitmap) (R : Rect) (dx dy : Int)
    (hw1 : 1 ≤ R.width) (hh1 : 1 ≤ R.height)
    (hs1 : src.clip_region.x ≤ R.x) (hs2 : R.right ≤ src.clip_region.right)
    (hs3 : src.clip_region.y ≤ R.y) (hs4 : R.bottom ≤ src.clip_region.bottom)
    (hc0x : dest.clip_region.x = 0) (hc0y : dest.clip_region.y = 0)
    (hcw : dest.clip_region.width < 2 ^ 31) (hch : dest.clip_region.height < 2 ^ 31)
    (hrw : R.width < 2 ^ 31) (hrh : R.height < 2 ^ 31)
    (hcbw : dest.clip_region.width ≤ dest.width)
    (_hcbh : dest.clip_region.height ≤ dest.height)
    (hd1 : dest.clip_region.x ≤ dx)
    (hd2 : dx + (R.width : Int) - 1 ≤ dest.clip_region.right)
    (hd3 : dest.clip_region.y ≤ dy)
    (hd4 : dy + (R.height : Int) - 1 ≤ dest.clip_region.bottom) :
    (∀ r c : Nat, r < R.height → c < R.width →
      (dest.blit_region .Solid src R dx dy).pixels
          ((dy + (r : Int)) * (dest.width : Int) + (dx + (c : Int))) =
        src.pixels ((R.y + (r : Int)) * (src.width : Int) + (R.x + (c : Int)))) ∧
    (∀ x y : Int, 0 ≤ x → x < (dest.width : Int) → 0 ≤ y → y < (dest.height : Int) →
      ¬(dx ≤ x ∧ x < dx + (R.width : Int) ∧ dy ≤ y ∧ y < dy + (R.height : Int)) →
      (dest.blit_region .Solid src R dx dy).pixels (y * (dest.width : Int) + x) =
        dest.pixels (y * (dest.width : Int) + x)) := by
  have hred := blit_region_solid_reduce dest src R dx dy hw1 hh1 hs1 hs2 hs3 hs4
    hc0x hc0y hcw hch hrw hrh hd1 hd2 hd3 hd4
  have hwW : R.width ≤ dest.width := by
    unfold Rect.right at hd2; omega
  have hdx0 : 0 ≤ dx := by omega
  have hdxw : dx + (R.width : Int) ≤ (dest.width : Int) := by
    unfold Rect.right at hd2; omega
  have hW : (0 : Int) < (dest.width : Int) := by
    have : 1 ≤ dest.width := le_trans hw1 hwW
    exact_mod_cast this
  constructor
  · intro r c hr hc
    rw [hred]
    show solidRows dest.pixels src.pixels (dest.ptr dx dy) (src.ptr R.x R.y)
        R.width dest.width src.width R.height _ = _
    rw [show (dy + (r : Int)) * (dest.width : Int) + (dx + (c : Int)) =
        dest.ptr dx dy + (r : Int) * (dest.width : Int) + (c : Int) by
      unfold Bitmap.ptr; ring]
    rw [solidRows_at _ _ _ _ _ _ _ _ hwW r c hr hc]
    congr 1
    unfold Bitmap.ptr; ring
  · intro x y hx0 hxW hy0 hyH hout
    rw [hred]
    show solidRows dest.pixels src.pixels (dest.ptr dx dy) (src.ptr R.x R.y)
        R.width dest.width src.width R.height _ = _
    rw [solidRows_untouched _ _ _ _ _ _ _ _ _ ?_]
    intro j i hj hi heq
    have heq2 : y * (dest.width : Int) + x =
        (dy + (j : Int)) * (dest.width : Int) + (dx + (i : Int)) := by
      rw [heq]; unfold Bitmap.ptr; ring
    have hxi0 : (0 : Int) ≤ dx + (i : Int) := by positivity
    have hxiW : dx + (i : Int) < (dest.width : Int) := by
      have : ((i : Int)) < (R.width : Int) := by exact_mod_cast hi
      omega
    have := row_decomp_unique hW hx0 hxW hxi0 hxiW heq2
    have hjh : ((j : Int)) < (R.height : Int) := by exact_mod_cast hj
    exact hout (by omega)

/-- Claim C5, witness: 6x2 destination with full clip, source bytes
`1,2,3,4` blitted at `(1,0)`; byte correspondence at `(r,c) = (0,2)` and an
untouched pixel at `(5,1)`. -/
theorem c5_witness :
    (let dest : Bitmap := ⟨6, 2, ⟨0, 0, 6, 2⟩, fun _ => 7⟩
     let src : Bitmap := ⟨4, 1, ⟨0, 0, 4, 1⟩,
       fun q => if q = 0 then 1 else if q = 1 then 2 else if q = 2 then 3 else
         if q = 3 then 4 else 0⟩
     let R : Rect := ⟨0, 0, 4, 1⟩
     (dest.blit_region .Solid src R 1 0).pixels
         ((0 + ((0 : Nat) : Int)) * (dest.width : Int) + (1 + ((2 : Nat) : Int))) =
       src.pixels ((R.y + ((0 : Nat) : Int)) * (src.width : Int) +
         (R.x + ((2 : Nat) : Int))) ∧
     (dest.blit_region .Solid src R 1 0).pixels (1 * (dest.width : Int) + 5) =
       dest.pixels (1 * (dest.width : Int) + 5)) := by
  refine ⟨?_, ?_⟩
  · exact (c5_solid_blit_exact ⟨6, 2, ⟨0, 0, 6, 2⟩, fun _ => 7⟩
      ⟨4, 1, ⟨0, 0, 4, 1⟩, fun q => if q = 0 then 1 else if q = 1 then 2 else
        if q = 2 then 3 else if q = 3 then 4 else 0⟩ ⟨0, 0, 4, 1⟩ 1 0
      (by decide) (by decide) (by decide) (by decide) (by decide) (by decide)
      (by decide) (by decide) (by decide) (by decide) (by decide) (by decide)
      (by decide) (by decide) (by decide) (by decide) (by decide) (by decide)).1
      0 2 (by decide) (by decide)
  · exact (c5_solid_blit_exact ⟨6, 2, ⟨0, 0, 6, 2⟩, fun _ => 7⟩
      ⟨4, 1, ⟨0, 0, 4, 1⟩, fun q => if q = 0 then 1 else if q = 1 then 2 else
        if q = 2 then 3 else if q = 3 then 4 else 0⟩ ⟨0, 0, 4, 1⟩ 1 0
      (by decide) (by decide) (by decide) (by decide) (by decide) (by decide)
      (by decide) (by decide) (by decide) (by decide) (by decide) (by decide)
      (by decide) (by decide) (by decide) (by decide) (by decide) (by decide)).2
      5 1 (by decide) (by decide) (by decide) (by decide) (by decide)

/-! ## Row-loop lemmas for the transparent and palette-offset blits -/

lemma transparentRow_untouched (d s : Int → Nat) (dp sp : Int) (t : Nat) (n : Nat)
    (q : Int) (h : ∀ i : Nat, i < n → q ≠ dp + (i : Int)) :
    transparentRow d s dp sp t n q = d q := by
  induction n generalizing d dp sp with
  | zero => rfl
  | succ n ih =>
    unfold transparentRow
    rw [ih _ _ _ fun i hi => by
      rw [show (dp + 1) + (i : Int) = dp + ((i + 1 : Nat) : Int) by push_cast; ring]
      exact h (i + 1) (by omega)]
    split
    · exact upd_ne _ _ _ (by simpa using h 0 (by omega))
    · rfl

lemma transparentRow_at (d s : Int → Nat) (dp sp : Int) (t : Nat) (n k : Nat)
    (hk : k < n) :
    transparentRow d s dp sp t n (dp + (k : Int)) =
      if s (sp + (k : Int)) ≠ t then s (sp + (k : Int)) else d (dp + (k : Int)) := by
  induction n generalizing d dp sp k with
  | zero => omega
  | succ n ih =>
    unfold transparentRow
    cases k with
    | zero =>
      rw [transparentRow_untouched _ _ _ _ _ _ _ fun i hi => by
        intro hc
        have : (dp + ((0 : Nat) : Int)) = dp := by push_cast; ring
        rw [this] at hc
        omega]
      simp only [Nat.cast_zero, add_zero]
      by_cases hst : s sp ≠ t
      · rw [if_pos hst, if_pos hst, upd_self]
      · rw [if_neg hst, if_neg hst]
    | succ k =>
      rw [show dp + ((k + 1 : Nat) : Int) = (dp + 1) + (k : Int) by push_cast; ring]
      rw [ih _ _ _ _ (by omega)]
      rw [show (sp + 1) + (k : Int) = sp + ((k + 1 : Nat) : Int) by push_cast; ring]
      split
      · rfl
      · split
        · exact upd_ne _ _ _ (by
            intro hc
            have : (1 : Int) + (k : Int) = 0 := by linarith [hc]
            have hk0 : (0 : Int) ≤ (k : Int) := by positivity
            linarith)
        · rfl

lemma transparentRows_untouched (d s : Int → Nat) (dp sp : Int)
    (w : Nat) (dnext snext : Int) (t : Nat) (h : Nat) (q : Int)
    (hq : ∀ j i : Nat, j < h → i < w →
      q ≠ dp + (j : Int) * ((w : Int) + dnext) + (i : Int)) :
    transparentRows d s dp sp w dnext snext t h q = d q := by
  induction h generalizing d dp sp with
  | zero => rfl
  | succ h ih =>
    unfold transparentRows
    rw [ih _ _ _ fun j i hj hi => by
      rw [show (dp + (w : Int) + dnext) + (j : Int) * ((w : Int) + dnext) + (i : Int) =
          dp + ((j + 1 : Nat) : Int) * ((w : Int) + dnext) + (i : Int) by
        push_cast; ring]
      exact hq (j + 1) i (by omega) hi]
    exact transparentRow_untouched _ _ _ _ _ _ _ fun i hi => by
      rw [show dp + (i : Int) =
          dp + ((0 : Nat) : Int) * ((w : Int) + dnext) + (i : Int) by push_cast; ring]
      exact hq 0 i (by omega) hi

lemma transparentRows_at (d s : Int → Nat) (dp sp : Int)
    (w : Nat) (dnext snext : Int) (t : Nat) (h : Nat)
    (hd : 0 ≤ dnext) (j i : Nat) (hj : j < h) (hi : i < w) :
    transparentRows d s dp sp w dnext snext t h
        (dp + (j : Int) * ((w : Int) + dnext) + (i : Int)) =
      (if s (sp + (j : Int) * ((w : Int) + snext) + (i : Int)) ≠ t then
        s (sp + (j : Int) * ((w : Int) + snext) + (i : Int))
      else d (dp + (j : Int) * ((w : Int) + dnext) + (i : Int))) := by
  induction h generalizing d dp sp j with
  | zero => omega
  | succ h ih =>
    unfold transparentRows
    cases j with
    | zero =>
      rw [show dp + ((0 : Nat) : Int) * ((w : Int) + dnext) + (i : Int) =
          dp + (i : Int) by push_cast; ring]
      rw [transparentRows_untouched _ _ _ _ _ _ _ _ _ _ fun j' i' hj' hi' => by
        intro hc
        have hpos : (0 : Int) ≤ (j' : Int) * ((w : Int) + dnext) := by positivity
        have hiw : ((i : Int)) < (w : Int) := by exact_mod_cast hi
        have hi'0 : (0 : Int) ≤ (i' : Int) := by positivity
        have hle : ((w : Int)) ≤ (w : Int) + dnext := by linarith
        have : dp + (i : Int) <
            (dp + (w : Int) + dnext) + (j' : Int) * ((w : Int) + dnext) + (i' : Int) := by
          linarith
        omega]
      rw [transparentRow_at _ _ _ _ _ _ _ hi]
      rw [show sp + ((0 : Nat) : Int) * ((w : Int) + snext) + (i : Int) =
          sp + (i : Int) by push_cast; ring]
    | succ j =>
      rw [show dp + ((j + 1 : Nat) : Int) * ((w : Int) + dnext) + (i : Int) =
          (dp + (w : Int) + dnext) + (j : Int) * ((w : Int) + dnext) + (i : Int) by
        push_cast; ring]
      rw [ih _ _ _ _ (by omega)]
      rw [show (sp + (w : Int) + snext) + (j : Int) * ((w : Int) + snext) + (i : Int) =
          sp + ((j + 1 : Nat) : Int) * ((w : Int) + snext) + (i : Int) by
        push_cast; ring]
      split
      · rfl
      · exact transparentRow_untouched _ _ _ _ _ _ _ fun k hk => by
          intro hc
          have hkw : ((k : Int)) < (w : Int) := by exact_mod_cast hk
          have hpos : (0 : Int) ≤ (j : Int) * ((w : Int) + dnext) := by positivity
          have hi0 : (0 : Int) ≤ (i : Int) := by positivity
          have : dp + (k : Int) <
              (dp + (w : Int) + dnext) + (j : Int) * ((w : Int) + dnext) + (i : Int) := by
            linarith
          omega

/-! ## Claim C6 -/

/-- Claim C6: for a `Transparent(T)` blit of a region fully visible on the
destination, destination pixels under source pixels equal to `T` keep their
prior value, destination pixels under source pixels different from `T`
receive the source pixel, and destination pixels outside the covered region
are untouched. -/
theorem c6_transparent_blit (dest src : Bitmap) (R : Rect) (dx dy : Int) (t : Nat)
    (hw1 : 1 ≤ R.width)
    (hdx0 : 0 ≤ dx) (hdxw : dx + (R.width : Int) ≤ (dest.width : Int))
    (_hdy0 : 0 ≤ dy) (_hdyh : dy + (R.height : Int) ≤ (dest.height : Int)) :
    (∀ r c : Nat, r < R.height → c < R.width →
      src.pixels ((R.y + (r : Int)) * (src.width : Int) + (R.x + (c : Int))) = t →
      (dest.transparent_blit src R dx dy t).pixels
          ((dy + (r : Int)) * (dest.width : Int) + (dx + (c : Int))) =
        dest.pixels ((dy + (r : Int)) * (dest.width : Int) + (dx + (c : Int)))) ∧
    (∀ r c : Nat, r < R.height → c < R.width →
      src.pixels ((R.y + (r : Int)) * (src.width : Int) + (R.x + (c : Int))) ≠ t →
      (dest.transparent_blit src R dx dy t).pixels
          ((dy + (r : Int)) * (dest.width : Int) + (dx + (c : Int))) =
        src.pixels ((R.y + (r : Int)) * (src.width : Int) + (R.x + (c : Int)))) ∧
    (∀ x y : Int, 0 ≤ x → x < (dest.width : Int) → 0 ≤ y → y < (dest.height : Int) →
      ¬(dx ≤ x ∧ x < dx + (R.width : Int) ∧ dy ≤ y ∧ y < dy + (R.height : Int)) →
      (dest.transparent_blit src R dx dy t).pixels (y * (dest.width : Int) + x) =
        dest.pixels (y * (dest.width : Int) + x)) := by
  have hwW : (R.width : Int) ≤ (dest.width : Int) := by omega
  have hdn : (0 : Int) ≤ (dest.width : Int) - (R.width : Int) := by omega
  have hstride : (R.width : Int) + ((dest.width : Int) - (R.width : Int)) =
      (dest.width : Int) := by ring
  have hW : (0 : Int) < (dest.width : Int) := by
    have : (1 : Int) ≤ (R.width : Int) := by exact_mod_cast hw1
    omega
  have hcov : ∀ r c : Nat,
      (dy + (r : Int)) * (dest.width : Int) + (dx + (c : Int)) =
        dest.ptr dx dy +
          (r : Int) * ((R.width : Int) + ((dest.width : Int) - (R.width : Int))) +
          (c : Int) := by
    intro r c
    unfold Bitmap.ptr
    rw [hstride]; ring
  have hsrc : ∀ r c : Nat,
      src.ptr R.x R.y +
          (r : Int) * ((R.width : Int) + ((src.width : Int) - (R.width : Int))) +
          (c : Int) =
        (R.y + (r : Int)) * (src.width : Int) + (R.x + (c : Int)) := by
    intro r c
    unfold Bitmap.ptr
    rw [show (R.width : Int) + ((src.width : Int) - (R.width : Int)) =
      (src.width : Int) by ring]
    ring
  refine ⟨?_, ?_, ?_⟩
  · intro r c hr hc hteq
    show transparentRows dest.pixels src.pixels (dest.ptr dx dy) (src.ptr R.x R.y)
        R.width ((dest.width : Int) - (R.width : Int))
        ((src.width : Int) - (R.width : Int)) t R.height _ = _
    rw [hcov r c, transparentRows_at _ _ _ _ _ _ _ _ _ hdn r c hr hc, hsrc r c,
      if_neg (by simpa using hteq), ← hcov r c]
  · intro r c hr hc hteq
    show transparentRows dest.pixels src.pixels (dest.ptr dx dy) (src.ptr R.x R.y)
        R.width ((dest.width : Int) - (R.width : Int))
        ((src.width : Int) - (R.width : Int)) t R.height _ = _
    rw [hcov r c, transparentRows_at _ _ _ _ _ _ _ _ _ hdn r c hr hc, hsrc r c,
      if_pos hteq]
  · intro x y hx0 hxW hy0 hyH hout
    show transparentRows dest.pixels src.pixels (dest.ptr dx dy) (src.ptr R.x R.y)
        R.width ((dest.width : Int) - (R.width : Int))
        ((src.width : Int) - (R.width : Int)) t R.height _ = _
    rw [transparentRows_untouched _ _ _ _ _ _ _ _ _ _ ?_]
    intro j i hj hi heq
    have heq2 : y * (dest.width : Int) + x =
        (dy + (j : Int)) * (dest.width : Int) + (dx + (i : Int)) := by
      rw [heq, hcov j i]
    have hxi0 : (0 : Int) ≤ dx + (i : Int) := by positivity
    have hxiW : dx + (i : Int) < (dest.width : Int) := by
      have : ((i : Int)) < (R.width : Int) := by exact_mod_cast hi
      omega
    have := row_decomp_unique hW hx0 hxW hxi0 hxiW heq2
    have hjh : ((j : Int)) < (R.height : Int) := by exact_mod_cast hj
    exact hout (by omega)

/-- Claim C6, witness: 4x2 destination of 9s, 3x1 source `5,7,5` with
transparent color 5 blitted at `(1,1)`: the pixel under source byte 5 keeps
value 9, the pixel under source byte 7 becomes 7, and a pixel outside the
covered rectangle keeps value 9. -/
theorem c6_witness :
    (let dest : Bitmap := ⟨4, 2, ⟨0, 0, 4, 2⟩, fun _ => 9⟩
     let src : Bitmap := ⟨3, 1, ⟨0, 0, 3, 1⟩,
       fun q => if q = 0 then 5 else if q = 1 then 7 else if q = 2 then 5 else 0⟩
     let R : Rect := ⟨0, 0, 3, 1⟩
     (dest.transparent_blit src R 1 1 5).pixels
         ((1 + ((0 : Nat) : Int)) * (dest.width : Int) + (1 + ((0 : Nat) : Int))) =
       dest.pixels ((1 + ((0 : Nat) : Int)) * (dest.width : Int) + (1 + ((0 : Nat) : Int))) ∧
     (dest.transparent_blit src R 1 1 5).pixels
         ((1 + ((0 : Nat) : Int)) * (dest.width : Int) + (1 + ((1 : Nat) : Int))) =
       src.pixels ((R.y + ((0 : Nat) : Int)) * (src.width : Int) + (R.x + ((1 : Nat) : Int))) ∧
     (dest.transparent_blit src R 1 1 5).pixels (0 * (dest.width : Int) + 0) =
       dest.pixels (0 * (dest.width : Int) + 0)) := by
  refine ⟨?_, ?_, ?_⟩
  · exact (c6_transparent_blit ⟨4, 2, ⟨0, 0, 4, 2⟩, fun _ => 9⟩
      ⟨3, 1, ⟨0, 0, 3, 1⟩,
        fun q => if q = 0 then 5 else if q = 1 then 7 else if q = 2 then 5 else 0⟩
      ⟨0, 0, 3, 1⟩ 1 1 5 (by decide) (by decide) (by decide) (by decide)
      (by decide)).1 0 0 (by decide) (by decide) (by decide)
  · exact (c6_transparent_blit ⟨4, 2, ⟨0, 0, 4, 2⟩, fun _ => 9⟩
      ⟨3, 1, ⟨0, 0, 3, 1⟩,
        fun q => if q = 0 then 5 else if q = 1 then 7 else if q = 2 then 5 else 0⟩
      ⟨0, 0, 3, 1⟩ 1 1 5 (by decide) (by decide) (by decide) (by decide)
      (by decide)).2.1 0 1 (by decide) (by decide) (by decide)
  · exact (c6_transparent_blit ⟨4, 2, ⟨0, 0, 4, 2⟩, fun _ => 9⟩
      ⟨3, 1, ⟨0, 0, 3, 1⟩,
        fun q => if q = 0 then 5 else if q = 1 then 7 else if q = 2 then 5 else 0⟩
      ⟨0, 0, 3, 1⟩ 1 1 5 (by decide) (by decide) (by decide) (by decide)
      (by decide)).2.2 0 0 (by decide) (by decide) (by decide) (by decide) (by decide)

lemma solidOffsetRow_untouched (d s : Int → Nat) (dp sp : Int) (offset : Nat)
    (n : Nat) (q : Int) (h : ∀ i : Nat, i < n → q ≠ dp + (i : Int)) :
    solidOffsetRow d s dp sp offset n q = d q := by
  induction n generalizing d dp sp with
  | zero => rfl
  | succ n ih =>
    unfold solidOffsetRow
    rw [ih _ _ _ fun i hi => by
      rw [show (dp + 1) + (i : Int) = dp + ((i + 1 : Nat) : Int) by push_cast; ring]
      exact h (i + 1) (by omega)]
    exact upd_ne _ _ _ (by simpa using h 0 (by omega))

lemma solidOffsetRow_at (d s : Int → Nat) (dp sp : Int) (offset : Nat) (n k : Nat)
    (hk : k < n) :
    solidOffsetRow d s dp sp offset n (dp + (k : Int)) =
      (s (sp + (k : Int)) + offset) % 256 := by
  induction n generalizing d dp sp k with
  | zero => omega
  | succ n ih =>
    unfold solidOffsetRow
    cases k with
    | zero =>
      rw [solidOffsetRow_untouched _ _ _ _ _ _ _ fun i hi => by
        intro hc
        have : (dp + ((0 : Nat) : Int)) = dp := by push_cast; ring
        rw [this] at hc
        omega]
      simp only [Nat.cast_zero, add_zero]
      rw [upd_self]
    | succ k =>
      rw [show dp + ((k + 1 : Nat) : Int) = (dp + 1) + (k : Int) by push_cast; ring]
      rw [ih _ _ _ _ (by omega)]
      have he : sp + ((k + 1 : Nat) : Int) = (sp + 1) + (k : Int) := by push_cast; ring
      rw [he]

lemma solidOffsetRows_untouched (d s : Int → Nat) (dp sp : Int)
    (w : Nat) (dnext snext : Int) (offset : Nat) (h : Nat) (q : Int)
    (hq : ∀ j i : Nat, j < h → i < w →
      q ≠ dp + (j : Int) * ((w : Int) + dnext) + (i : Int)) :
    solidOffsetRows d s dp sp w dnext snext offset h q = d q := by
  induction h generalizing d dp sp with
  | zero => rfl
  | succ h ih =>
    unfold solidOffsetRows
    rw [ih _ _ _ fun j i hj hi => by
      rw [show (dp + (w : Int) + dnext) + (j : Int) * ((w : Int) + dnext) + (i : Int) =
          dp + ((j + 1 : Nat) : Int) * ((w : Int) + dnext) + (i : Int) by
        push_cast; ring]
      exact hq (j + 1) i (by omega) hi]
    exact solidOffsetRow_untouched _ _ _ _ _ _ _ fun i hi => by
      rw [show dp + (i : Int) =
          dp + ((0 : Nat) : Int) * ((w : Int) + dnext) + (i : Int) by push_cast; ring]
      exact hq 0 i (by omega) hi

lemma solidOffsetRows_at (d s : Int → Nat) (dp sp : Int)
    (w : Nat) (dnext snext : Int) (offset : Nat) (h : Nat)
    (hd : 0 ≤ dnext) (j i : Nat) (hj : j < h) (hi : i < w) :
    solidOffsetRows d s dp sp w dnext snext offset h
        (dp + (j : Int) * ((w : Int) + dnext) + (i : Int)) =
      (s (sp + (j : Int) * ((w : Int) + snext) + (i : Int)) + offset) % 256 := by
  induction h generalizing d dp sp j with
  | zero => omega
  | succ h ih =>
    unfold solidOffsetRows
    cases j with
    | zero =>
      rw [show dp + ((0 : Nat) : Int) * ((w : Int) + dnext) + (i : Int) =
          dp + (i : Int) by push_cast; ring]
      rw [solidOffsetRows_untouched _ _ _ _ _ _ _ _ _ _ fun j' i' hj' hi' => by
        intro hc
        have hpos : (0 : Int) ≤ (j' : Int) * ((w : Int) + dnext) := by positivity
        have hiw : ((i : Int)) < (w : Int) := by exact_mod_cast hi
        have hi'0 : (0 : Int) ≤ (i' : Int) := by positivity
        have : dp + (i : Int) <
            (dp + (w : Int) + dnext) + (j' : Int) * ((w : Int) + dnext) + (i' : Int) := by
          linarith
        omega]
      rw [solidOffsetRow_at _ _ _ _ _ _ _ hi]
      rw [show sp + ((0 : Nat) : Int) * ((w : Int) + snext) + (i : Int) =
          sp + (i : Int) by push_cast; ring]
    | succ j =>
      rw [show dp + ((j + 1 : Nat) : Int) * ((w : Int) + dnext) + (i : Int) =
          (dp + (w : Int) + dnext) + (j : Int) * ((w : Int) + dnext) + (i : Int) by
        push_cast; ring]
      rw [ih _ _ _ _ (by omega)]
      rw [show (sp + (w : Int) + snext) + (j : Int) * ((w : Int) + snext) + (i : Int) =
          sp + ((j + 1 : Nat) : Int) * ((w : Int) + snext) + (i : Int) by
        push_cast; ring]

lemma transparentOffsetRow_untouched (d s : Int → Nat) (dp sp : Int)
    (t offset : Nat) (n : Nat) (q : Int)
    (h : ∀ i : Nat, i < n → q ≠ dp + (i : Int)) :
    transparentOffsetRow d s dp sp t offset n q = d q := by
  induction n generalizing d dp sp with
  | zero => rfl
  | succ n ih =>
    unfold transparentOffsetRow
    rw [ih _ _ _ fun i hi => by
      rw [show (dp + 1) + (i : Int) = dp + ((i + 1 : Nat) : Int) by push_cast; ring]
      exact h (i + 1) (by omega)]
    split
    · exact upd_ne _ _ _ (by simpa using h 0 (by omega))
    · rfl

lemma transparentOffsetRow_at (d s : Int → Nat) (dp sp : Int) (t offset : Nat)
    (n k : Nat) (hk : k < n) :
    transparentOffsetRow d s dp sp t offset n (dp + (k : Int)) =
      if s (sp + (k : Int)) ≠ t then (s (sp + (k : Int)) + offset) % 256
      else d (dp + (k : Int)) := by
  induction n generalizing d dp sp k with
  | zero => omega
  | succ n ih =>
    unfold transparentOffsetRow
    cases k with
    | zero =>
      rw [transparentOffsetRow_untouched _ _ _ _ _ _ _ _ fun i hi => by
        intro hc
        have : (dp + ((0 : Nat) : Int)) = dp := by push_cast; ring
        rw [this] at hc
        omega]
      simp only [Nat.cast_zero, add_zero]
      by_cases hst : s sp ≠ t
      · rw [if_pos hst, if_pos hst, upd_self]
      · rw [if_neg hst, if_neg hst]
    | succ k =>
      rw [show dp + ((k + 1 : Nat) : Int) = (dp + 1) + (k : Int) by push_cast; ring]
      rw [ih _ _ _ _ (by omega)]
      rw [show (sp + 1) + (k : Int) = sp + ((k + 1 : Nat) : Int) by push_cast; ring]
      split
      · rfl
      · split
        · exact upd_ne _ _ _ (by
            intro hc
            have : (1 : Int) + (k : Int) = 0 := by linarith [hc]
            have hk0 : (0 : Int) ≤ (k : Int) := by positivity
            linarith)
        · rfl

lemma transparentOffsetRows_untouched (d s : Int → Nat) (dp sp : Int)
    (w : Nat) (dnext snext : Int) (t offset : Nat) (h : Nat) (q : Int)
    (hq : ∀ j i : Nat, j < h → i < w →
      q ≠ dp + (j : Int) * ((w : Int) + dnext) + (i : Int)) :
    transparentOffsetRows d s dp sp w dnext snext t offset h q = d q := by
  induction h generalizing d dp sp with
  | zero => rfl
  | succ h ih =>
    unfold transparentOffsetRows
    rw [ih _ _ _ fun j i hj hi => by
      rw [show (dp + (w : Int) + dnext) + (j : Int) * ((w : Int) + dnext) + (i : Int) =
          dp + ((j + 1 : Nat) : Int) * ((w : Int) + dnext) + (i : Int) by
        push_cast; ring]
      exact hq (j + 1) i (by omega) hi]
    exact transparentOffsetRow_untouched _ _ _ _ _ _ _ _ fun i hi => by
      rw [show dp + (i : Int) =
          dp + ((0 : Nat) : Int) * ((w : Int) + dnext) + (i : Int) by push_cast; ring]
      exact hq 0 i (by omega) hi

lemma transparentOffsetRows_at (d s : Int → Nat) (dp sp : Int)
    (w : Nat) (dnext snext : Int) (t offset : Nat) (h : Nat)
    (hd : 0 ≤ dnext) (j i : Nat) (hj : j < h) (hi : i < w) :
    transparentOffsetRows d s dp sp w dnext snext t offset h
        (dp + (j : Int) * ((w : Int) + dnext) + (i : Int)) =
      (if s (sp + (j : Int) * ((w : Int) + snext) + (i : Int)) ≠ t then
        (s (sp + (j : Int) * ((w : Int) + snext) + (i : Int)) + offset) % 256
      else d (dp + (j : Int) * ((w : Int) + dnext) + (i : Int))) := by
  induction h generalizing d dp sp j with
  | zero => omega
  | succ h ih =>
    unfold transparentOffsetRows
    cases j with
    | zero =>
      rw [show dp + ((0 : Nat) : Int) * ((w : Int) + dnext) + (i : Int) =
          dp + (i : Int) by push_cast; ring]
      rw [transparentOffsetRows_untouched _ _ _ _ _ _ _ _ _ _ _ fun j' i' hj' hi' => by
        intro hc
        have hpos : (0 : Int) ≤ (j' : Int) * ((w : Int) + dnext) := by positivity
        have hiw : ((i : Int)) < (w : Int) := by exact_mod_cast hi
        have hi'0 : (0 : Int) ≤ (i' : Int) := by positivity
        have : dp + (i : Int) <
            (dp + (w : Int) + dnext) + (j' : Int) * ((w : Int) + dnext) + (i' : Int) := by
          linarith
        omega]
      rw [transparentOffsetRow_at _ _ _ _ _ _ _ _ hi]
      rw [show sp + ((0 : Nat) : Int) * ((w : Int) + snext) + (i : Int) =
          sp + (i : Int) by push_cast; ring]
    | succ j =>
      rw [show dp + ((j + 1 : Nat) : Int) * ((w : Int) + dnext) + (i : Int) =
          (dp + (w : Int) + dnext) + (j : Int) * ((w : Int) + dnext) + (i : Int) by
        push_cast; ring]
      rw [ih _ _ _ _ (by omega)]
      rw [show (sp + (w : Int) + snext) + (j : Int) * ((w : Int) + snext) + (i : Int) =
          sp + ((j + 1 : Nat) : Int) * ((w : Int) + snext) + (i : Int) by
        push_cast; ring]
      split
      · rfl
      · exact transparentOffsetRow_untouched _ _ _ _ _ _ _ _ fun k hk => by
          intro hc
          have hkw : ((k : Int)) < (w : Int) := by exact_mod_cast hk
          have hpos : (0 : Int) ≤ (j : Int) * ((w : Int) + dnext) := by positivity
          have hi0 : (0 : Int) ≤ (i : Int) := by positivity
          have : dp + (k : Int) <
              (dp + (w : Int) + dnext) + (j : Int) * ((w : Int) + dnext) + (i : Int) := by
            linarith
          omega

lemma solidFlippedOffsetRow_untouched (d s : Int → Nat) (dp sp x_inc : Int)
    (offset : Nat) (n : Nat) (q : Int)
    (h : ∀ i : Nat, i < n → q ≠ dp + (i : Int)) :
    solidFlippedOffsetRow d s dp sp x_inc offset n q = d q := by
  induction n generalizing d dp sp with
  | zero => rfl
  | succ n ih =>
    unfold solidFlippedOffsetRow
    rw [ih _ _ _ fun i hi => by
      rw [show (dp + 1) + (i : Int) = dp + ((i + 1 : Nat) : Int) by push_cast; ring]
      exact h (i + 1) (by omega)]
    exact upd_ne _ _ _ (by simpa using h 0 (by omega))

lemma solidFlippedOffsetRow_at (d s : Int → Nat) (dp sp x_inc : Int)
    (offset : Nat) (n k : Nat) (hk : k < n) :
    solidFlippedOffsetRow d s dp sp x_inc offset n (dp + (k : Int)) =
      (s (sp + (k : Int) * x_inc) + offset) % 256 := by
  induction n generalizing d dp sp k with
  | zero => omega
  | succ n ih =>
    unfold solidFlippedOffsetRow
    cases k with
    | zero =>
      rw [solidFlippedOffsetRow_untouched _ _ _ _ _ _ _ _ fun i hi => by
        intro hc
        have : (dp + ((0 : Nat) : Int)) = dp := by push_cast; ring
        rw [this] at hc
        omega]
      simp only [Nat.cast_zero, add_zero, zero_mul]
      rw [upd_self]
    | succ k =>
      rw [show dp + ((k + 1 : Nat) : Int) = (dp + 1) + (k : Int) by push_cast; ring]
      rw [ih _ _ _ _ (by omega)]
      rw [show (sp + x_inc) + (k : Int) * x_inc =
          sp + ((k + 1 : Nat) : Int) * x_inc by push_cast; ring]

lemma solidFlippedOffsetRows_untouched (d s : Int → Nat) (dp sp x_inc : Int)
    (w : Nat) (dnext snext : Int) (offset : Nat) (h : Nat) (q : Int)
    (hq : ∀ j i : Nat, j < h → i < w →
      q ≠ dp + (j : Int) * ((w : Int) + dnext) + (i : Int)) :
    solidFlippedOffsetRows d s dp sp x_inc w dnext snext offset h q = d q := by
  induction h generalizing d dp sp with
  | zero => rfl
  | succ h ih =>
    unfold solidFlippedOffsetRows
    rw [ih _ _ _ fun j i hj hi => by
      rw [show (dp + (w : Int) + dnext) + (j : Int) * ((w : Int) + dnext) + (i : Int) =
          dp + ((j + 1 : Nat) : Int) * ((w : Int) + dnext) + (i : Int) by
        push_cast; ring]
      exact hq (j + 1) i (by omega) hi]
    exact solidFlippedOffsetRow_untouched _ _ _ _ _ _ _ _ fun i hi => by
      rw [show dp + (i : Int) =
          dp + ((0 : Nat) : Int) * ((w : Int) + dnext) + (i : Int) by push_cast; ring]
      exact hq 0 i (by omega) hi

lemma solidFlippedOffsetRows_at (d s : Int → Nat) (dp sp x_inc : Int)
    (w : Nat) (dnext snext : Int) (offset : Nat) (h : Nat)
    (hd : 0 ≤ dnext) (j i : Nat) (hj : j < h) (hi : i < w) :
    solidFlippedOffsetRows d s dp sp x_inc w dnext snext offset h
        (dp + (j : Int) * ((w : Int) + dnext) + (i : Int)) =
      (s (sp + (j : Int) * ((w : Int) * x_inc + snext) + (i : Int) * x_inc) +
        offset) % 256 := by
  induction h generalizing d dp sp j with
  | zero => omega
  | succ h ih =>
    unfold solidFlippedOffsetRows
    cases j with
    | zero =>
      rw [show dp + ((0 : Nat) : Int) * ((w : Int) + dnext) + (i : Int) =
          dp + (i : Int) by push_cast; ring]
      rw [solidFlippedOffsetRows_untouched _ _ _ _ _ _ _ _ _ _ _ fun j' i' hj' hi' => by
        intro hc
        have hpos : (0 : Int) ≤ (j' : Int) * ((w : Int) + dnext) := by positivity
        have hiw : ((i : Int)) < (w : Int) := by exact_mod_cast hi
        have hi'0 : (0 : Int) ≤ (i' : Int) := by positivity
        have : dp + (i : Int) <
            (dp + (w : Int) + dnext) + (j' : Int) * ((w : Int) + dnext) + (i' : Int) := by
          linarith
        omega]
      rw [solidFlippedOffsetRow_at _ _ _ _ _ _ _ _ hi]
      rw [show sp + ((0 : Nat) : Int) * ((w : Int) * x_inc + snext) + (i : Int) * x_inc =
          sp + (i : Int) * x_inc by push_cast; ring]
    | succ j =>
      rw [show dp + ((j + 1 : Nat) : Int) * ((w : Int) + dnext) + (i : Int) =
          (dp + (w : Int) + dnext) + (j : Int) * ((w : Int) + dnext) + (i : Int) by
        push_cast; ring]
      rw [ih _ _ _ _ (by omega)]
      rw [show (sp + (w : Int) * x_inc + snext) + (j : Int) * ((w : Int) * x_inc + snext) +
            (i : Int) * x_inc =
          sp + ((j + 1 : Nat) : Int) * ((w : Int) * x_inc + snext) + (i : Int) * x_inc by
        push_cast; ring]

lemma transparentFlippedOffsetRow_untouched (d s : Int → Nat) (dp sp x_inc : Int)
    (t offset : Nat) (n : Nat) (q : Int)
    (h : ∀ i : Nat, i < n → q ≠ dp + (i : Int)) :
    transparentFlippedOffsetRow d s dp sp x_inc t offset n q = d q := by
  induction n generalizing d dp sp with
  | zero => rfl
  | succ n ih =>
    unfold transparentFlippedOffsetRow
    rw [ih _ _ _ fun i hi => by
      rw [show (dp + 1) + (i : Int) = dp + ((i + 1 : Nat) : Int) by push_cast; ring]
      exact h (i + 1) (by omega)]
    split
    · exact upd_ne _ _ _ (by simpa using h 0 (by omega))
    · rfl

lemma transparentFlippedOffsetRow_at (d s : Int → Nat) (dp sp x_inc : Int)
    (t offset : Nat) (n k : Nat) (hk : k < n) :
    transparentFlippedOffsetRow d s dp sp x_inc t offset n (dp + (k : Int)) =
      if s (sp + (k : Int) * x_inc) ≠ t then
        (s (sp + (k : Int) * x_inc) + offset) % 256
      else d (dp + (k : Int)) := by
  induction n generalizing d dp sp k with
  | zero => omega
  | succ n ih =>
    unfold transparentFlippedOffsetRow
    cases k with
    | zero =>
      rw [transparentFlippedOffsetRow_untouched _ _ _ _ _ _ _ _ _ fun i hi => by
        intro hc
        have : (dp + ((0 : Nat) : Int)) = dp := by push_cast; ring
        rw [this] at hc
        omega]
      simp only [Nat.cast_zero, add_zero, zero_mul]
      by_cases hst : s sp ≠ t
      · rw [if_pos hst, if_pos hst, upd_self]
      · rw [if_neg hst, if_neg hst]
    | succ k =>
      rw [show dp + ((k + 1 : Nat) : Int) = (dp + 1) + (k : Int) by push_cast; ring]
      rw [ih _ _ _ _ (by omega)]
      rw [show (sp + x_inc) + (k : Int) * x_inc =
          sp + ((k + 1 : Nat) : Int) * x_inc by push_cast; ring]
      split
      · rfl
      · split
        · exact upd_ne _ _ _ (by
            intro hc
            have : (1 : Int) + (k : Int) = 0 := by linarith [hc]
            have hk0 : (0 : Int) ≤ (k : Int) := by positivity
            linarith)
        · rfl

lemma transparentFlippedOffsetRows_untouched (d s : Int → Nat) (dp sp x_inc : Int)
    (w : Nat) (dnext snext : Int) (t offset : Nat) (h : Nat) (q : Int)
    (hq : ∀ j i : Nat, j < h → i < w →
      q ≠ dp + (j : Int) * ((w : Int) + dnext) + (i : Int)) :
    transparentFlippedOffsetRows d s dp sp x_inc w dnext snext t offset h q = d q := by
  induction h generalizing d dp sp with
  | zero => rfl
  | succ h ih =>
    unfold transparentFlippedOffsetRows
    rw [ih _ _ _ fun j i hj hi => by
      rw [show (dp + (w : Int) + dnext) + (j : Int) * ((w : Int) + dnext) + (i : Int) =
          dp + ((j + 1 : Nat) : Int) * ((w : Int) + dnext) + (i : Int) by
        push_cast; ring]
      exact hq (j + 1) i (by omega) hi]
    exact transparentFlippedOffsetRow_untouched _ _ _ _ _ _ _ _ _ fun i hi => by
      rw [show dp + (i : Int) =
          dp + ((0 : Nat) : Int) * ((w : Int) + dnext) + (i : Int) by push_cast; ring]
      exact hq 0 i (by omega) hi

lemma transparentFlippedOffsetRows_at (d s : Int → Nat) (dp sp x_inc : Int)
    (w : Nat) (dnext snext : Int) (t offset : Nat) (h : Nat)
    (hd : 0 ≤ dnext) (j i : Nat) (hj : j < h) (hi : i < w) :
    transparentFlippedOffsetRows d s dp sp x_inc w dnext snext t offset h
        (dp + (j : Int) * ((w : Int) + dnext) + (i : Int)) =
      (if s (sp + (j : Int) * ((w : Int) * x_inc + snext) + (i : Int) * x_inc) ≠ t then
        (s (sp + (j : Int) * ((w : Int) * x_inc + snext) + (i : Int) * x_inc) +
          offset) % 256
      else d (dp + (j : Int) * ((w : Int) + dnext) + (i : Int))) := by
  induction h generalizing d dp sp j with
  | zero => omega
  | succ h ih =>
    unfold transparentFlippedOffsetRows
    cases j with
    | zero =>
      rw [show dp + ((0 : Nat) : Int) * ((w : Int) + dnext) + (i : Int) =
          dp + (i : Int) by push_cast; ring]
      rw [transparentFlippedOffsetRows_untouched _ _ _ _ _ _ _ _ _ _ _ _
          fun j' i' hj' hi' => by
        intro hc
        have hpos : (0 : Int) ≤ (j' : Int) * ((w : Int) + dnext) := by positivity
        have hiw : ((i : Int)) < (w : Int) := by exact_mod_cast hi
        have hi'0 : (0 : Int) ≤ (i' : Int) := by positivity
        have : dp + (i : Int) <
            (dp + (w : Int) + dnext) + (j' : Int) * ((w : Int) + dnext) + (i' : Int) := by
          linarith
        omega]
      rw [transparentFlippedOffsetRow_at _ _ _ _ _ _ _ _ _ hi]
      rw [show sp + ((0 : Nat) : Int) * ((w : Int) * x_inc + snext) + (i : Int) * x_inc =
          sp + (i : Int) * x_inc by push_cast; ring]
    | succ j =>
      rw [show dp + ((j + 1 : Nat) : Int) * ((w : Int) + dnext) + (i : Int) =
          (dp + (w : Int) + dnext) + (j : Int) * ((w : Int) + dnext) + (i : Int) by
        push_cast; ring]
      rw [ih _ _ _ _ (by omega)]
      rw [show (sp + (w : Int) * x_inc + snext) + (j : Int) * ((w : Int) * x_inc + snext) +
            (i : Int) * x_inc =
          sp + ((j + 1 : Nat) : Int) * ((w : Int) * x_inc + snext) + (i : Int) * x_inc by
        push_cast; ring]
      split
      · rfl
      · exact transparentFlippedOffsetRow_untouched _ _ _ _ _ _ _ _ _ fun k hk => by
          intro hc
          have hkw : ((k : Int)) < (w : Int) := by exact_mod_cast hk
          have hpos : (0 : Int) ≤ (j : Int) * ((w : Int) + dnext) := by positivity
          have hi0 : (0 : Int) ≤ (i : Int) := by positivity
          have : dp + (k : Int) <
              (dp + (w : Int) + dnext) + (j : Int) * ((w : Int) + dnext) + (i : Int) := by
            linarith
          omega

/-- A bounds-checked single-pixel write either leaves a cell unchanged or
stores exactly the given byte there. -/
lemma set_pixel_pixels_cases (b : Bitmap) (x y : Int) (color : Nat) (q : Int) :
    (b.set_pixel x y color).pixels q = b.pixels q ∨
      (b.set_pixel x y color).pixels q = color := by
  unfold Bitmap.set_pixel
  by_cases hv : b.is_xy_visible x y
  · rw [if_pos hv]
    show upd b.pixels (b.ptr x y) color q = b.pixels q ∨
      upd b.pixels (b.ptr x y) color q = color
    unfold upd
    by_cases hq : q = b.ptr x y
    · exact Or.inr (by rw [if_pos hq])
    · exact Or.inl (by rw [if_neg hq])
  · rw [if_neg hv]
    exact Or.inl rfl

/-- Two bounds-checked writes of the same byte: any cell they changed holds
that byte. -/
lemma double_set_pixel_cases (b : Bitmap) (x1 y1 x2 y2 : Int) (v : Nat) (q : Int)
    (h : ((b.set_pixel x1 y1 v).set_pixel x2 y2 v).pixels q ≠ b.pixels q) :
    ((b.set_pixel x1 y1 v).set_pixel x2 y2 v).pixels q = v := by
  rcases set_pixel_pixels_cases (b.set_pixel x1 y1 v) x2 y2 v q with h2 | h2
  · rcases set_pixel_pixels_cases b x1 y1 v q with h1 | h1
    · exact absurd (h2.trans h1) h
    · exact h2.trans h1
  · exact h2

/-! ## Claim C7 -/

/-- Claim C7: every pixel copied by a palette-offset blit satisfies
`dest = (src + offset) mod 256` (wrapping `u8` addition); in the
transparent+offset combinations the offset is applied only to source pixels
different from the transparent color, and destination pixels under
transparent source pixels stay unchanged.  Covers all six palette-offset
methods: `solid_palette_offset_blit` and `transparent_palette_offset_blit`
(behind `SolidOffset` and `TransparentOffset`),
`solid_flipped_palette_offset_blit` and
`transparent_flipped_palette_offset_blit` for every flip combination
(behind `SolidFlippedOffset` and `TransparentFlippedOffset`), and the
per-pixel integer body of `rotozoom_palette_offset_blit` shared by
`RotoZoomOffset` (`tc = none`) and `RotoZoomTransparentOffset`
(`tc = some t`): every buffer cell that body changes holds the wrapped sum
of the sampled source pixel and the offset, and a sample equal to the
transparent color leaves the destination bitmap entirely unchanged. -/
theorem c7_palette_offset_mod256 (dest src : Bitmap) (R : Rect) (dx dy : Int)
    (t offset : Nat)
    (_hw1 : 1 ≤ R.width)
    (hdx0 : 0 ≤ dx) (hdxw : dx + (R.width : Int) ≤ (dest.width : Int)) :
    (∀ r c : Nat, r < R.height → c < R.width →
      (dest.solid_palette_offset_blit src R dx dy offset).pixels
          ((dy + (r : Int)) * (dest.width : Int) + (dx + (c : Int))) =
        (src.pixels ((R.y + (r : Int)) * (src.width : Int) + (R.x + (c : Int))) +
          offset) % 256) ∧
    (∀ r c : Nat, r < R.height → c < R.width →
      src.pixels ((R.y + (r : Int)) * (src.width : Int) + (R.x + (c : Int))) ≠ t →
      (dest.transparent_palette_offset_blit src R dx dy t offset).pixels
          ((dy + (r : Int)) * (dest.width : Int) + (dx + (c : Int))) =
        (src.pixels ((R.y + (r : Int)) * (src.width : Int) + (R.x + (c : Int))) +
          offset) % 256) ∧
    (∀ r c : Nat, r < R.height → c < R.width →
      src.pixels ((R.y + (r : Int)) * (src.width : Int) + (R.x + (c : Int))) = t →
      (dest.transparent_palette_offset_blit src R dx dy t offset).pixels
          ((dy + (r : Int)) * (dest.width : Int) + (dx + (c : Int))) =
        dest.pixels ((dy + (r : Int)) * (dest.width : Int) + (dx + (c : Int)))) ∧
    (∀ (hf vf : Bool) (r c : Nat), r < R.height → c < R.width →
      (dest.solid_flipped_palette_offset_blit src R dx dy hf vf offset).pixels
          ((dy + (r : Int)) * (dest.width : Int) + (dx + (c : Int))) =
        (src.pixels
            ((if vf then R.bottom - (r : Int) else R.y + (r : Int)) *
                (src.width : Int) +
              (if hf then R.right - (c : Int) else R.x + (c : Int))) +
          offset) % 256) ∧
    (∀ (hf vf : Bool) (r c : Nat), r < R.height → c < R.width →
      src.pixels
          ((if vf then R.bottom - (r : Int) else R.y + (r : Int)) *
              (src.width : Int) +
            (if hf then R.right - (c : Int) else R.x + (c : Int))) ≠ t →
      (dest.transparent_flipped_palette_offset_blit src R dx dy t hf vf offset).pixels
          ((dy + (r : Int)) * (dest.width : Int) + (dx + (c : Int))) =
        (src.pixels
            ((if vf then R.bottom - (r : Int) else R.y + (r : Int)) *
                (src.width : Int) +
              (if hf then R.right - (c : Int) else R.x + (c : Int))) +
          offset) % 256) ∧
    (∀ (hf vf : Bool) (r c : Nat), r < R.height → c < R.width →
      src.pixels
          ((if vf then R.bottom - (r : Int) else R.y + (r : Int)) *
              (src.width : Int) +
            (if hf then R.right - (c : Int) else R.x + (c : Int))) = t →
      (dest.transparent_flipped_palette_offset_blit src R dx dy t hf vf offset).pixels
          ((dy + (r : Int)) * (dest.width : Int) + (dx + (c : Int))) =
        dest.pixels ((dy + (r : Int)) * (dest.width : Int) + (dx + (c : Int)))) ∧
    (∀ (tc : Option Nat) (sxi : Nat) (syi dwx dwy q : Int),
      (dest.rotozoom_palette_offset_body src R tc offset sxi syi dwx dwy).pixels q ≠
          dest.pixels q →
      (dest.rotozoom_palette_offset_body src R tc offset sxi syi dwx dwy).pixels q =
        (src.pixels (src.ptr R.x (R.y + syi) + (sxi : Int)) + offset) % 256) ∧
    (∀ (sxi : Nat) (syi dwx dwy : Int),
      dest.rotozoom_palette_offset_body src R
          (some (src.pixels (src.ptr R.x (R.y + syi) + (sxi : Int)))) offset
          sxi syi dwx dwy =
        dest) := by
  have hdn : (0 : Int) ≤ (dest.width : Int) - (R.width : Int) := by omega
  have hcov : ∀ r c : Nat,
      (dy + (r : Int)) * (dest.width : Int) + (dx + (c : Int)) =
        dest.ptr dx dy +
          (r : Int) * ((R.width : Int) + ((dest.width : Int) - (R.width : Int))) +
          (c : Int) := by
    intro r c
    unfold Bitmap.ptr; ring
  have hsrc : ∀ r c : Nat,
      src.ptr R.x R.y +
          (r : Int) * ((R.width : Int) + ((src.width : Int) - (R.width : Int))) +
          (c : Int) =
        (R.y + (r : Int)) * (src.width : Int) + (R.x + (c : Int)) := by
    intro r c
    unfold Bitmap.ptr; ring
  refine ⟨?_, ?_, ?_, ?_, ?_, ?_, ?_, ?_⟩
  · intro r c hr hc
    show solidOffsetRows dest.pixels src.pixels (dest.ptr dx dy) (src.ptr R.x R.y)
        R.width ((dest.width : Int) - (R.width : Int))
        ((src.width : Int) - (R.width : Int)) offset R.height _ = _
    rw [hcov r c, solidOffsetRows_at _ _ _ _ _ _ _ _ _ hdn r c hr hc, hsrc r c]
  · intro r c hr hc hteq
    show transparentOffsetRows dest.pixels src.pixels (dest.ptr dx dy)
        (src.ptr R.x R.y) R.width ((dest.width : Int) - (R.width : Int))
        ((src.width : Int) - (R.width : Int)) t offset R.height _ = _
    rw [hcov r c, transparentOffsetRows_at _ _ _ _ _ _ _ _ _ _ hdn r c hr hc,
      hsrc r c, if_pos hteq]
  · intro r c hr hc hteq
    show transparentOffsetRows dest.pixels src.pixels (dest.ptr dx dy)
        (src.ptr R.x R.y) R.width ((dest.width : Int) - (R.width : Int))
        ((src.width : Int) - (R.width : Int)) t offset R.height _ = _
    rw [hcov r c, transparentOffsetRows_at _ _ _ _ _ _ _ _ _ _ hdn r c hr hc,
      hsrc r c, if_neg (by simpa using hteq), ← hcov r c]
  · intro hf vf r c hr hc
    cases hf <;> cases vf
    · show solidFlippedOffsetRows dest.pixels src.pixels (dest.ptr dx dy)
          (src.ptr R.x R.y) 1 R.width ((dest.width : Int) - (R.width : Int))
          ((src.width : Int) - (R.width : Int)) offset R.height
          ((dy + (r : Int)) * (dest.width : Int) + (dx + (c : Int))) =
        (src.pixels ((R.y + (r : Int)) * (src.width : Int) + (R.x + (c : Int))) +
          offset) % 256
      rw [hcov r c, solidFlippedOffsetRows_at _ _ _ _ _ _ _ _ _ _ hdn r c hr hc]
      rw [show src.ptr R.x R.y + (r : Int) * ((R.width : Int) * 1 +
            ((src.width : Int) - (R.width : Int))) + (c : Int) * 1 =
          (R.y + (r : Int)) * (src.width : Int) + (R.x + (c : Int)) by
        unfold Bitmap.ptr; ring]
    · show solidFlippedOffsetRows dest.pixels src.pixels (dest.ptr dx dy)
          (src.ptr R.x R.bottom) 1 R.width ((dest.width : Int) - (R.width : Int))
          (-((src.width : Int) + (R.width : Int))) offset R.height
          ((dy + (r : Int)) * (dest.width : Int) + (dx + (c : Int))) =
        (src.pixels ((R.bottom - (r : Int)) * (src.width : Int) + (R.x + (c : Int))) +
          offset) % 256
      rw [hcov r c, solidFlippedOffsetRows_at _ _ _ _ _ _ _ _ _ _ hdn r c hr hc]
      rw [show src.ptr R.x R.bottom + (r : Int) * ((R.width : Int) * 1 +
            -((src.width : Int) + (R.width : Int))) + (c : Int) * 1 =
          (R.bottom - (r : Int)) * (src.width : Int) + (R.x + (c : Int)) by
        unfold Bitmap.ptr; ring]
    · show solidFlippedOffsetRows dest.pixels src.pixels (dest.ptr dx dy)
          (src.ptr R.right R.y) (-1) R.width ((dest.width : Int) - (R.width : Int))
          ((src.width : Int) + (R.width : Int)) offset R.height
          ((dy + (r : Int)) * (dest.width : Int) + (dx + (c : Int))) =
        (src.pixels ((R.y + (r : Int)) * (src.width : Int) + (R.right - (c : Int))) +
          offset) % 256
      rw [hcov r c, solidFlippedOffsetRows_at _ _ _ _ _ _ _ _ _ _ hdn r c hr hc]
      rw [show src.ptr R.right R.y + (r : Int) * ((R.width : Int) * (-1) +
            ((src.width : Int) + (R.width : Int))) + (c : Int) * (-1) =
          (R.y + (r : Int)) * (src.width : Int) + (R.right - (c : Int)) by
        unfold Bitmap.ptr; ring]
    · show solidFlippedOffsetRows dest.pixels src.pixels (dest.ptr dx dy)
          (src.ptr R.right R.bottom) (-1) R.width
          ((dest.width : Int) - (R.width : Int))
          (-((src.width : Int) - (R.width : Int))) offset R.height
          ((dy + (r : Int)) * (dest.width : Int) + (dx + (c : Int))) =
        (src.pixels ((R.bottom - (r : Int)) * (src.width : Int) +
          (R.right - (c : Int))) + offset) % 256
      rw [hcov r c, solidFlippedOffsetRows_at _ _ _ _ _ _ _ _ _ _ hdn r c hr hc]
      rw [show src.ptr R.right R.bottom + (r : Int) * ((R.width : Int) * (-1) +
            -((src.width : Int) - (R.width : Int))) + (c : Int) * (-1) =
          (R.bottom - (r : Int)) * (src.width : Int) + (R.right - (c : Int)) by
        unfold Bitmap.ptr; ring]
  · intro hf vf r c hr hc hne
    cases hf <;> cases vf
    · have hne2 : src.pixels ((R.y + (r : Int)) * (src.width : Int) +
          (R.x + (c : Int))) ≠ t := hne
      show transparentFlippedOffsetRows dest.pixels src.pixels (dest.ptr dx dy)
          (src.ptr R.x R.y) 1 R.width ((dest.width : Int) - (R.width : Int))
          ((src.width : Int) - (R.width : Int)) t offset R.height
          ((dy + (r : Int)) * (dest.width : Int) + (dx + (c : Int))) =
        (src.pixels ((R.y + (r : Int)) * (src.width : Int) + (R.x + (c : Int))) +
          offset) % 256
      rw [hcov r c, transparentFlippedOffsetRows_at _ _ _ _ _ _ _ _ _ _ _ hdn r c hr hc]
      rw [show src.ptr R.x R.y + (r : Int) * ((R.width : Int) * 1 +
            ((src.width : Int) - (R.width : Int))) + (c : Int) * 1 =
          (R.y + (r : Int)) * (src.width : Int) + (R.x + (c : Int)) by
        unfold Bitmap.ptr; ring]
      rw [if_pos hne2]
    · have hne2 : src.pixels ((R.bottom - (r : Int)) * (src.width : Int) +
          (R.x + (c : Int))) ≠ t := hne
      show transparentFlippedOffsetRows dest.pixels src.pixels (dest.ptr dx dy)
          (src.ptr R.x R.bottom) 1 R.width ((dest.width : Int) - (R.width : Int))
          (-((src.width : Int) + (R.width : Int))) t offset R.height
          ((dy + (r : Int)) * (dest.width : Int) + (dx + (c : Int))) =
        (src.pixels ((R.bottom - (r : Int)) * (src.width : Int) + (R.x + (c : Int))) +
          offset) % 256
      rw [hcov r c, transparentFlippedOffsetRows_at _ _ _ _ _ _ _ _ _ _ _ hdn r c hr hc]
      rw [show src.ptr R.x R.bottom + (r : Int) * ((R.width : Int) * 1 +
            -((src.width : Int) + (R.width : Int))) + (c : Int) * 1 =
          (R.bottom - (r : Int)) * (src.width : Int) + (R.x + (c : Int)) by
        unfold Bitmap.ptr; ring]
      rw [if_pos hne2]
    · have hne2 : src.pixels ((R.y + (r : Int)) * (src.width : Int) +
          (R.right - (c : Int))) ≠ t := hne
      show transparentFlippedOffsetRows dest.pixels src.pixels (dest.ptr dx dy)
          (src.ptr R.right R.y) (-1) R.width ((dest.width : Int) - (R.width : Int))
          ((src.width : Int) + (R.width : Int)) t offset R.height
          ((dy + (r : Int)) * (dest.width : Int) + (dx + (c : Int))) =
        (src.pixels ((R.y + (r : Int)) * (src.width : Int) + (R.right - (c : Int))) +
          offset) % 256
      rw [hcov r c, transparentFlippedOffsetRows_at _ _ _ _ _ _ _ _ _ _ _ hdn r c hr hc]
      rw [show src.ptr R.right R.y + (r : Int) * ((R.width : Int) * (-1) +
            ((src.width : Int) + (R.width : Int))) + (c : Int) * (-1) =
          (R.y + (r : Int)) * (src.width : Int) + (R.right - (c : Int)) by
        unfold Bitmap.ptr; ring]
      rw [if_pos hne2]
    · have hne2 : src.pixels ((R.bottom - (r : Int)) * (src.width : Int) +
          (R.right - (c : Int))) ≠ t := hne
      show transparentFlippedOffsetRows dest.pixels src.pixels (dest.ptr dx dy)
          (src.ptr R.right R.bottom) (-1) R.width
          ((dest.width : Int) - (R.width : Int))
          (-((src.width : Int) - (R.width : Int))) t offset R.height
          ((dy + (r : Int)) * (dest.width : Int) + (dx + (c : Int))) =
        (src.pixels ((R.bottom - (r : Int)) * (src.width : Int) +
          (R.right - (c : Int))) + offset) % 256
      rw [hcov r c, transparentFlippedOffsetRows_at _ _ _ _ _ _ _ _ _ _ _ hdn r c hr hc]
      rw [show src.ptr R.right R.bottom + (r : Int) * ((R.width : Int) * (-1) +
            -((src.width : Int) - (R.width : Int))) + (c : Int) * (-1) =
          (R.bottom - (r : Int)) * (src.width : Int) + (R.right - (c : Int)) by
        unfold Bitmap.ptr; ring]
      rw [if_pos hne2]
  · intro hf vf r c hr hc hte
    cases hf <;> cases vf
    · have hte2 : src.pixels ((R.y + (r : Int)) * (src.width : Int) +
          (R.x + (c : Int))) = t := hte
      show transparentFlippedOffsetRows dest.pixels src.pixels (dest.ptr dx dy)
          (src.ptr R.x R.y) 1 R.width ((dest.width : Int) - (R.width : Int))
          ((src.width : Int) - (R.width : Int)) t offset R.height
          ((dy + (r : Int)) * (dest.width : Int) + (dx + (c : Int))) =
        dest.pixels ((dy + (r : Int)) * (dest.width : Int) + (dx + (c : Int)))
      rw [hcov r c, transparentFlippedOffsetRows_at _ _ _ _ _ _ _ _ _ _ _ hdn r c hr hc]
      rw [show src.ptr R.x R.y + (r : Int) * ((R.width : Int) * 1 +
            ((src.width : Int) - (R.width : Int))) + (c : Int) * 1 =
          (R.y + (r : Int)) * (src.width : Int) + (R.x + (c : Int)) by
        unfold Bitmap.ptr; ring]
      rw [if_neg (by simpa using hte2)]
    · have hte2 : src.pixels ((R.bottom - (r : Int)) * (src.width : Int) +
          (R.x + (c : Int))) = t := hte
      show transparentFlippedOffsetRows dest.pixels src.pixels (dest.ptr dx dy)
          (src.ptr R.x R.bottom) 1 R.width ((dest.width : Int) - (R.width : Int))
          (-((src.width : Int) + (R.width : Int))) t offset R.height
          ((dy + (r : Int)) * (dest.width : Int) + (dx + (c : Int))) =
        dest.pixels ((dy + (r : Int)) * (dest.width : Int) + (dx + (c : Int)))
      rw [hcov r c, transparentFlippedOffsetRows_at _ _ _ _ _ _ _ _ _ _ _ hdn r c hr hc]
      rw [show src.ptr R.x R.bottom + (r : Int) * ((R.width : Int) * 1 +
            -((src.width : Int) + (R.width : Int))) + (c : Int) * 1 =
          (R.bottom - (r : Int)) * (src.width : Int) + (R.x + (c : Int)) by
        unfold Bitmap.ptr; ring]
      rw [if_neg (by simpa using hte2)]
    · have hte2 : src.pixels ((R.y + (r : Int)) * (src.width : Int) +
          (R.right - (c : Int))) = t := hte
      show transparentFlippedOffsetRows dest.pixels src.pixels (dest.ptr dx dy)
          (src.ptr R.right R.y) (-1) R.width ((dest.width : Int) - (R.width : Int))
          ((src.width : Int) + (R.width : Int)) t offset R.height
          ((dy + (r : Int)) * (dest.width : Int) + (dx + (c : Int))) =
        dest.pixels ((dy + (r : Int)) * (dest.width : Int) + (dx + (c : Int)))
      rw [hcov r c, transparentFlippedOffsetRows_at _ _ _ _ _ _ _ _ _ _ _ hdn r c hr hc]
      rw [show src.ptr R.right R.y + (r : Int) * ((R.width : Int) * (-1) +
            ((src.width : Int) + (R.width : Int))) + (c : Int) * (-1) =
          (R.y + (r : Int)) * (src.width : Int) + (R.right - (c : Int)) by
        unfold Bitmap.ptr; ring]
      rw [if_neg (by simpa using hte2)]
    · have hte2 : src.pixels ((R.bottom - (r : Int)) * (src.width : Int) +
          (R.right - (c : Int))) = t := hte
      show transparentFlippedOffsetRows dest.pixels src.pixels (dest.ptr dx dy)
          (src.ptr R.right R.bottom) (-1) R.width
          ((dest.width : Int) - (R.width : Int))
          (-((src.width : Int) - (R.width : Int))) t offset R.height
          ((dy + (r : Int)) * (dest.width : Int) + (dx + (c : Int))) =
        dest.pixels ((dy + (r : Int)) * (dest.width : Int) + (dx + (c : Int)))
      rw [hcov r c, transparentFlippedOffsetRows_at _ _ _ _ _ _ _ _ _ _ _ hdn r c hr hc]
      rw [show src.ptr R.right R.bottom + (r : Int) * ((R.width : Int) * (-1) +
            -((src.width : Int) - (R.width : Int))) + (c : Int) * (-1) =
          (R.bottom - (r : Int)) * (src.width : Int) + (R.right - (c : Int)) by
        unfold Bitmap.ptr; ring]
      rw [if_neg (by simpa using hte2)]
  · intro tc sxi syi dwx dwy q hch
    simp only [Bitmap.rotozoom_palette_offset_body] at hch ⊢
    by_cases hg : tc = none ∨
        tc ≠ some (src.pixels (src.ptr R.x (R.y + syi) + (sxi : Int)))
    · rw [if_pos hg] at hch ⊢
      exact double_set_pixel_cases _ _ _ _ _ _ _ hch
    · rw [if_neg hg] at hch
      exact absurd rfl hch
  · intro sxi syi dwx dwy
    simp only [Bitmap.rotozoom_palette_offset_body]
    rw [if_neg (by simp)]

/-- Claim C7, witness: source bytes `250,3` with offset 10 at `(0,0)` of a
3x1 destination: `250+10 = 260` wraps to 4; with transparent color 3 the
pixel under the source byte 3 keeps its old value 9 while the one under 250
becomes 4, for the plain, the horizontally flipped, and the rotozoom-body
palette-offset routines. -/
theorem c7_witness :
    (let dest : Bitmap := ⟨3, 1, ⟨0, 0, 3, 1⟩, fun _ => 9⟩
     let src : Bitmap := ⟨2, 1, ⟨0, 0, 2, 1⟩, fun q => if q = 0 then 250 else 3⟩
     let R : Rect := ⟨0, 0, 2, 1⟩
     (dest.solid_palette_offset_blit src R 0 0 10).pixels
         ((0 + ((0 : Nat) : Int)) * (dest.width : Int) + (0 + ((0 : Nat) : Int))) =
       (src.pixels ((R.y + ((0 : Nat) : Int)) * (src.width : Int) +
         (R.x + ((0 : Nat) : Int))) + 10) % 256 ∧
     (dest.transparent_palette_offset_blit src R 0 0 3 10).pixels
         ((0 + ((0 : Nat) : Int)) * (dest.width : Int) + (0 + ((0 : Nat) : Int))) =
       (src.pixels ((R.y + ((0 : Nat) : Int)) * (src.width : Int) +
         (R.x + ((0 : Nat) : Int))) + 10) % 256 ∧
     (dest.transparent_palette_offset_blit src R 0 0 3 10).pixels
         ((0 + ((0 : Nat) : Int)) * (dest.width : Int) + (0 + ((1 : Nat) : Int))) =
       dest.pixels ((0 + ((0 : Nat) : Int)) * (dest.width : Int) +
         (0 + ((1 : Nat) : Int))) ∧
     (dest.solid_flipped_palette_offset_blit src R 0 0 true false 10).pixels
         ((0 + ((0 : Nat) : Int)) * (dest.width : Int) + (0 + ((0 : Nat) : Int))) =
       (src.pixels
           ((if false then R.bottom - ((0 : Nat) : Int)
             else R.y + ((0 : Nat) : Int)) * (src.width : Int) +
             (if true then R.right - ((0 : Nat) : Int)
              else R.x + ((0 : Nat) : Int))) + 10) % 256 ∧
     (dest.transparent_flipped_palette_offset_blit src R 0 0 3 true false 10).pixels
         ((0 + ((0 : Nat) : Int)) * (dest.width : Int) + (0 + ((1 : Nat) : Int))) =
       (src.pixels
           ((if false then R.bottom - ((0 : Nat) : Int)
             else R.y + ((0 : Nat) : Int)) * (src.width : Int) +
             (if true then R.right - ((1 : Nat) : Int)
              else R.x + ((1 : Nat) : Int))) + 10) % 256 ∧
     (dest.transparent_flipped_palette_offset_blit src R 0 0 3 true false 10).pixels
         ((0 + ((0 : Nat) : Int)) * (dest.width : Int) + (0 + ((0 : Nat) : Int))) =
       dest.pixels ((0 + ((0 : Nat) : Int)) * (dest.width : Int) +
         (0 + ((0 : Nat) : Int))) ∧
     (dest.rotozoom_palette_offset_body src R none 10 0 0 0 0).pixels 0 =
       (src.pixels (src.ptr R.x (R.y + 0) + ((0 : Nat) : Int)) + 10) % 256 ∧
     dest.rotozoom_palette_offset_body src R
         (some (src.pixels (src.ptr R.x (R.y + 0) + ((0 : Nat) : Int)))) 10
         0 0 0 0 =
       dest) := by
  have H := c7_palette_offset_mod256 ⟨3, 1, ⟨0, 0, 3, 1⟩, fun _ => 9⟩
    ⟨2, 1, ⟨0, 0, 2, 1⟩, fun q => if q = 0 then 250 else 3⟩ ⟨0, 0, 2, 1⟩ 0 0 3 10
    (by decide) (by decide) (by decide)
  refine ⟨?_, ?_, ?_, ?_, ?_, ?_, ?_, ?_⟩
  · exact H.1 0 0 (by decide) (by decide)
  · exact H.2.1 0 0 (by decide) (by decide) (by decide)
  · exact H.2.2.1 0 1 (by decide) (by decide) (by decide)
  · exact H.2.2.2.1 true false 0 0 (by decide) (by decide)
  · exact H.2.2.2.2.1 true false 0 1 (by decide) (by decide) (by decide)
  · exact H.2.2.2.2.2.1 true false 0 0 (by decide) (by decide) (by decide)
  · exact H.2.2.2.2.2.2.1 none 0 0 0 0 0 (by decide)
  · exact H.2.2.2.2.2.2.2 0 0 0 0

/-! ## Row-loop lemmas for the flipped blits and index decoding -/

lemma flippedRow_untouched (d s : Int → Nat) (dp sp x_inc : Int) (n : Nat)
    (q : Int) (h : ∀ i : Nat, i < n → q ≠ dp + (i : Int)) :
    flippedRow d s dp sp x_inc n q = d q := by
  induction n generalizing d dp sp with
  | zero => rfl
  | succ n ih =>
    unfold flippedRow
    rw [ih _ _ _ fun i hi => by
      rw [show (dp + 1) + (i : Int) = dp + ((i + 1 : Nat) : Int) by push_cast; ring]
      exact h (i + 1) (by omega)]
    exact upd_ne _ _ _ (by simpa using h 0 (by omega))

lemma flippedRow_at (d s : Int → Nat) (dp sp x_inc : Int) (n k : Nat)
    (hk : k < n) :
    flippedRow d s dp sp x_inc n (dp + (k : Int)) = s (sp + (k : Int) * x_inc) := by
  induction n generalizing d dp sp k with
  | zero => omega
  | succ n ih =>
    unfold flippedRow
    cases k with
    | zero =>
      rw [flippedRow_untouched _ _ _ _ _ _ _ fun i hi => by
        intro hc
        have : (dp + ((0 : Nat) : Int)) = dp := by push_cast; ring
        rw [this] at hc
        omega]
      simp only [Nat.cast_zero, add_zero, zero_mul]
      rw [upd_self]
    | succ k =>
      rw [show dp + ((k + 1 : Nat) : Int) = (dp + 1) + (k : Int) by push_cast; ring]
      rw [ih _ _ _ _ (by omega)]
      congr 1
      push_cast; ring

lemma flippedRows_untouched (d s : Int → Nat) (dp sp x_inc : Int) (w : Nat)
    (dnext snext : Int) (h : Nat) (q : Int)
    (hq : ∀ j i : Nat, j < h → i < w →
      q ≠ dp + (j : Int) * ((w : Int) + dnext) + (i : Int)) :
    flippedRows d s dp sp x_inc w dnext snext h q = d q := by
  induction h generalizing d dp sp with
  | zero => rfl
  | succ h ih =>
    unfold flippedRows
    rw [ih _ _ _ fun j i hj hi => by
      rw [show (dp + (w : Int) + dnext) + (j : Int) * ((w : Int) + dnext) + (i : Int) =
          dp + ((j + 1 : Nat) : Int) * ((w : Int) + dnext) + (i : Int) by
        push_cast; ring]
      exact hq (j + 1) i (by omega) hi]
    exact flippedRow_untouched _ _ _ _ _ _ _ fun i hi => by
      rw [show dp + (i : Int) =
          dp + ((0 : Nat) : Int) * ((w : Int) + dnext) + (i : Int) by push_cast; ring]
      exact hq 0 i (by omega) hi

lemma flippedRows_at (d s : Int → Nat) (dp sp x_inc : Int) (w : Nat)
    (dnext snext : Int) (h : Nat) (hd : 0 ≤ dnext) (j i : Nat)
    (hj : j < h) (hi : i < w) :
    flippedRows d s dp sp x_inc w dnext snext h
        (dp + (j : Int) * ((w : Int) + dnext) + (i : Int)) =
      s (sp + (j : Int) * ((w : Int) * x_inc + snext) + (i : Int) * x_inc) := by
  induction h generalizing d dp sp j with
  | zero => omega
  | succ h ih =>
    unfold flippedRows
    cases j with
    | zero =>
      rw [show dp + ((0 : Nat) : Int) * ((w : Int) + dnext) + (i : Int) =
          dp + (i : Int) by push_cast; ring]
      rw [flippedRows_untouched _ _ _ _ _ _ _ _ _ _ fun j' i' hj' hi' => by
        intro hc
        have hpos : (0 : Int) ≤ (j' : Int) * ((w : Int) + dnext) := by positivity
        have hiw : ((i : Int)) < (w : Int) := by exact_mod_cast hi
        have hi'0 : (0 : Int) ≤ (i' : Int) := by positivity
        have : dp + (i : Int) <
            (dp + (w : Int) + dnext) + (j' : Int) * ((w : Int) + dnext) + (i' : Int) := by
          linarith
        omega]
      rw [flippedRow_at _ _ _ _ _ _ _ hi]
      congr 1
      push_cast; ring
    | succ j =>
      rw [show dp + ((j + 1 : Nat) : Int) * ((w : Int) + dnext) + (i : Int) =
          (dp + (w : Int) + dnext) + (j : Int) * ((w : Int) + dnext) + (i : Int) by
        push_cast; ring]
      rw [ih _ _ _ _ (by omega)]
      congr 1
      push_cast; ring

/-- Decoding a row-major offset with in-range column part. -/
lemma idx_decode {W x y : Int} (hx0 : 0 ≤ x) (hxW : x < W) :
    (y * W + x) % W = x ∧ (y * W + x) / W = y := by
  constructor
  · rw [add_comm, mul_comm y W, Int.add_mul_emod_self_left,
      Int.emod_eq_of_lt hx0 hxW]
  · rw [add_comm, mul_comm y W,
      Int.add_mul_ediv_left _ _ (by omega : W ≠ 0),
      Int.ediv_eq_zero_of_lt hx0 hxW, zero_add]

lemma hFlipRegion_pixels_at (src : Bitmap) (R : Rect) (hx0 : 0 ≤ R.x)
    (hxW : R.x + (R.width : Int) ≤ (src.width : Int)) (j i : Nat)
    (hj : j < R.height) (hi : i < R.width) :
    (hFlipRegion src R).pixels
        ((R.y + (j : Int)) * (src.width : Int) + (R.x + (i : Int))) =
      src.pixels ((R.y + (j : Int)) * (src.width : Int) + (R.right - (i : Int))) := by
  have hiw : ((i : Int)) < (R.width : Int) := by exact_mod_cast hi
  have hjh : ((j : Int)) < (R.height : Int) := by exact_mod_cast hj
  have hi0 : (0 : Int) ≤ (i : Int) := by positivity
  have hj0 : (0 : Int) ≤ (j : Int) := by positivity
  have hdec := idx_decode (W := (src.width : Int)) (x := R.x + (i : Int))
    (y := R.y + (j : Int)) (by omega) (by omega)
  simp only [hFlipRegion]
  rw [if_pos (by
    unfold inRegionIdx Rect.right Rect.bottom
    rw [hdec.1, hdec.2]
    refine ⟨by omega, by omega, by omega, by omega⟩)]
  rw [hdec.1, hdec.2]
  congr 1
  unfold Rect.right; ring

lemma vFlipRegion_pixels_at (src : Bitmap) (R : Rect) (hx0 : 0 ≤ R.x)
    (hxW : R.x + (R.width : Int) ≤ (src.width : Int)) (j i : Nat)
    (hj : j < R.height) (hi : i < R.width) :
    (vFlipRegion src R).pixels
        ((R.y + (j : Int)) * (src.width : Int) + (R.x + (i : Int))) =
      src.pixels ((R.bottom - (j : Int)) * (src.width : Int) + (R.x + (i : Int))) := by
  have hiw : ((i : Int)) < (R.width : Int) := by exact_mod_cast hi
  have hjh : ((j : Int)) < (R.height : Int) := by exact_mod_cast hj
  have hi0 : (0 : Int) ≤ (i : Int) := by positivity
  have hj0 : (0 : Int) ≤ (j : Int) := by positivity
  have hdec := idx_decode (W := (src.width : Int)) (x := R.x + (i : Int))
    (y := R.y + (j : Int)) (by omega) (by omega)
  simp only [vFlipRegion]
  rw [if_pos (by
    unfold inRegionIdx Rect.right Rect.bottom
    rw [hdec.1, hdec.2]
    refine ⟨by omega, by omega, by omega, by omega⟩)]
  rw [hdec.1, hdec.2]
  congr 2
  unfold Rect.bottom; ring

lemma hvFlipRegion_pixels_at (src : Bitmap) (R : Rect) (hx0 : 0 ≤ R.x)
    (hxW : R.x + (R.width : Int) ≤ (src.width : Int)) (j i : Nat)
    (hj : j < R.height) (hi : i < R.width) :
    (hvFlipRegion src R).pixels
        ((R.y + (j : Int)) * (src.width : Int) + (R.x + (i : Int))) =
      src.pixels ((R.bottom - (j : Int)) * (src.width : Int) + (R.right - (i : Int))) := by
  have hiw : ((i : Int)) < (R.width : Int) := by exact_mod_cast hi
  have hjh : ((j : Int)) < (R.height : Int) := by exact_mod_cast hj
  have hi0 : (0 : Int) ≤ (i : Int) := by positivity
  have hj0 : (0 : Int) ≤ (j : Int) := by positivity
  have hdec := idx_decode (W := (src.width : Int)) (x := R.x + (i : Int))
    (y := R.y + (j : Int)) (by omega) (by omega)
  simp only [hvFlipRegion]
  rw [if_pos (by
    unfold inRegionIdx Rect.right Rect.bottom
    rw [hdec.1, hdec.2]
    refine ⟨by omega, by omega, by omega, by omega⟩)]
  rw [hdec.1, hdec.2]
  congr 1
  unfold Rect.right Rect.bottom; ring

/-! ## Claim C8 -/

/-- Claim C8: for a source region fully visible on the destination, a
`SolidFlipped` blit with `horizontal_flip` equals a Solid blit of the
column-reversed source region, with `vertical_flip` it equals a Solid blit
of the row-reversed region, and with both flips it equals a Solid blit of
the 180-degree-rotated source block. -/
theorem c8_flipped_blit_equals_reversed_solid (dest src : Bitmap) (R : Rect)
    (dx dy : Int)
    (hsx0 : 0 ≤ R.x) (hsxW : R.x + (R.width : Int) ≤ (src.width : Int))
    (hdx0 : 0 ≤ dx) (hdxw : dx + (R.width : Int) ≤ (dest.width : Int))
    (_hdy0 : 0 ≤ dy) (_hdyh : dy + (R.height : Int) ≤ (dest.height : Int)) :
    dest.solid_flipped_blit src R dx dy true false =
      dest.solid_blit (hFlipRegion src R) R dx dy ∧
    dest.solid_flipped_blit src R dx dy false true =
      dest.solid_blit (vFlipRegion src R) R dx dy ∧
    dest.solid_flipped_blit src R dx dy true true =
      dest.solid_blit (hvFlipRegion src R) R dx dy := by
  have hdn : (0 : Int) ≤ (dest.width : Int) - (R.width : Int) := by omega
  have hwW : R.width ≤ dest.width := by
    exact_mod_cast (by omega : ((R.width : Int)) ≤ ((dest.width : Int)))
  refine ⟨?_, ?_, ?_⟩
  · show ({ dest with
        pixels := flippedRows dest.pixels src.pixels (dest.ptr dx dy)
          (src.ptr R.right R.y) (-1) R.width
          ((dest.width : Int) - (R.width : Int))
          ((src.width : Int) + (R.width : Int)) R.height } : Bitmap) =
      { dest with
        pixels := solidRows dest.pixels (hFlipRegion src R).pixels
          (dest.ptr dx dy) (src.ptr R.x R.y) R.width dest.width src.width
          R.height }
    congr 1
    funext q
    by_cases hcov : ∃ j i : Nat, j < R.height ∧ i < R.width ∧
        q = dest.ptr dx dy + (j : Int) * (dest.width : Int) + (i : Int)
    · obtain ⟨j, i, hj, hi, rfl⟩ := hcov
      have hL : flippedRows dest.pixels src.pixels (dest.ptr dx dy)
          (src.ptr R.right R.y) (-1) R.width
          ((dest.width : Int) - (R.width : Int))
          ((src.width : Int) + (R.width : Int)) R.height
          (dest.ptr dx dy + (j : Int) * (dest.width : Int) + (i : Int)) =
          src.pixels ((R.y + (j : Int)) * (src.width : Int) + (R.right - (i : Int))) := by
        rw [show dest.ptr dx dy + (j : Int) * (dest.width : Int) + (i : Int) =
            dest.ptr dx dy +
              (j : Int) * ((R.width : Int) + ((dest.width : Int) - (R.width : Int))) +
              (i : Int) by ring]
        rw [flippedRows_at _ _ _ _ _ _ _ _ _ hdn j i hj hi]
        congr 1
        unfold Bitmap.ptr Rect.right
        ring
      have hR : solidRows dest.pixels (hFlipRegion src R).pixels
          (dest.ptr dx dy) (src.ptr R.x R.y) R.width dest.width src.width
          R.height
          (dest.ptr dx dy + (j : Int) * (dest.width : Int) + (i : Int)) =
          src.pixels ((R.y + (j : Int)) * (src.width : Int) + (R.right - (i : Int))) := by
        rw [solidRows_at _ _ _ _ _ _ _ _ hwW j i hj hi]
        rw [show src.ptr R.x R.y + (j : Int) * (src.width : Int) + (i : Int) =
            (R.y + (j : Int)) * (src.width : Int) + (R.x + (i : Int)) by
          unfold Bitmap.ptr; ring]
        exact hFlipRegion_pixels_at src R hsx0 hsxW j i hj hi
      rw [hL, hR]
    · push_neg at hcov
      rw [flippedRows_untouched _ _ _ _ _ _ _ _ _ _ fun j i hj hi => by
          rw [show dest.ptr dx dy +
              (j : Int) * ((R.width : Int) + ((dest.width : Int) - (R.width : Int))) +
              (i : Int) =
              dest.ptr dx dy + (j : Int) * (dest.width : Int) + (i : Int) by ring]
          exact hcov j i hj hi,
        solidRows_untouched _ _ _ _ _ _ _ _ _ fun j i hj hi => hcov j i hj hi]
  · show ({ dest with
        pixels := flippedRows dest.pixels src.pixels (dest.ptr dx dy)
          (src.ptr R.x R.bottom) 1 R.width
          ((dest.width : Int) - (R.width : Int))
          (-((src.width : Int) + (R.width : Int))) R.height } : Bitmap) =
      { dest with
        pixels := solidRows dest.pixels (vFlipRegion src R).pixels
          (dest.ptr dx dy) (src.ptr R.x R.y) R.width dest.width src.width
          R.height }
    congr 1
    funext q
    by_cases hcov : ∃ j i : Nat, j < R.height ∧ i < R.width ∧
        q = dest.ptr dx dy + (j : Int) * (dest.width : Int) + (i : Int)
    · obtain ⟨j, i, hj, hi, rfl⟩ := hcov
      have hL : flippedRows dest.pixels src.pixels (dest.ptr dx dy)
          (src.ptr R.x R.bottom) 1 R.width
          ((dest.width : Int) - (R.width : Int))
          (-((src.width : Int) + (R.width : Int))) R.height
          (dest.ptr dx dy + (j : Int) * (dest.width : Int) + (i : Int)) =
          src.pixels ((R.bottom - (j : Int)) * (src.width : Int) + (R.x + (i : Int))) := by
        rw [show dest.ptr dx dy + (j : Int) * (dest.width : Int) + (i : Int) =
            dest.ptr dx dy +
              (j : Int) * ((R.width : Int) + ((dest.width : Int) - (R.width : Int))) +
              (i : Int) by ring]
        rw [flippedRows_at _ _ _ _ _ _ _ _ _ hdn j i hj hi]
        congr 1
        unfold Bitmap.ptr Rect.bottom
        ring
      have hR : solidRows dest.pixels (vFlipRegion src R).pixels
          (dest.ptr dx dy) (src.ptr R.x R.y) R.width dest.width src.width
          R.height
          (dest.ptr dx dy + (j : Int) * (dest.width : Int) + (i : Int)) =
          src.pixels ((R.bottom - (j : Int)) * (src.width : Int) + (R.x + (i : Int))) := by
        rw [solidRows_at _ _ _ _ _ _ _ _ hwW j i hj hi]
        rw [show src.ptr R.x R.y + (j : Int) * (src.width : Int) + (i : Int) =
            (R.y + (j : Int)) * (src.width : Int) + (R.x + (i : Int)) by
          unfold Bitmap.ptr; ring]
        exact vFlipRegion_pixels_at src R hsx0 hsxW j i hj hi
      rw [hL, hR]
    · push_neg at hcov
      rw [flippedRows_untouched _ _ _ _ _ _ _ _ _ _ fun j i hj hi => by
          rw [show dest.ptr dx dy +
              (j : Int) * ((R.width : Int) + ((dest.width : Int) - (R.width : Int))) +
              (i : Int) =
              dest.ptr dx dy + (j : Int) * (dest.width : Int) + (i : Int) by ring]
          exact hcov j i hj hi,
        solidRows_untouched _ _ _ _ _ _ _ _ _ fun j i hj hi => hcov j i hj hi]
  · show ({ dest with
        pixels := flippedRows dest.pixels src.pixels (dest.ptr dx dy)
          (src.ptr R.right R.bottom) (-1) R.width
          ((dest.width : Int) - (R.width : Int))
          (-((src.width : Int) - (R.width : Int))) R.height } : Bitmap) =
      { dest with
        pixels := solidRows dest.pixels (hvFlipRegion src R).pixels
          (dest.ptr dx dy) (src.ptr R.x R.y) R.width dest.width src.width
          R.height }
    congr 1
    funext q
    by_cases hcov : ∃ j i : Nat, j < R.height ∧ i < R.width ∧
        q = dest.ptr dx dy + (j : Int) * (dest.width : Int) + (i : Int)
    · obtain ⟨j, i, hj, hi, rfl⟩ := hcov
      have hL : flippedRows dest.pixels src.pixels (dest.ptr dx dy)
          (src.ptr R.right R.bottom) (-1) R.width
          ((dest.width : Int) - (R.width : Int))
          (-((src.width : Int) - (R.width : Int))) R.height
          (dest.ptr dx dy + (j : Int) * (dest.width : Int) + (i : Int)) =
          src.pixels ((R.bottom - (j : Int)) * (src.width : Int) + (R.right - (i : Int))) := by
        rw [show dest.ptr dx dy + (j : Int) * (dest.width : Int) + (i : Int) =
            dest.ptr dx dy +
              (j : Int) * ((R.width : Int) + ((dest.width : Int) - (R.width : Int))) +
              (i : Int) by ring]
        rw [flippedRows_at _ _ _ _ _ _ _ _ _ hdn j i hj hi]
        congr 1
        unfold Bitmap.ptr Rect.right Rect.bottom
        ring
      have hR : solidRows dest.pixels (hvFlipRegion src R).pixels
          (dest.ptr dx dy) (src.ptr R.x R.y) R.width dest.width src.width
          R.height
          (dest.ptr dx dy + (j : Int) * (dest.width : Int) + (i : Int)) =
          src.pixels ((R.bottom - (j : Int)) * (src.width : Int) + (R.right - (i : Int))) := by
        rw [solidRows_at _ _ _ _ _ _ _ _ hwW j i hj hi]
        rw [show src.ptr R.x R.y + (j : Int) * (src.width : Int) + (i : Int) =
            (R.y + (j : Int)) * (src.width : Int) + (R.x + (i : Int)) by
          unfold Bitmap.ptr; ring]
        exact hvFlipRegion_pixels_at src R hsx0 hsxW j i hj hi
      rw [hL, hR]
    · push_neg at hcov
      rw [flippedRows_untouched _ _ _ _ _ _ _ _ _ _ fun j i hj hi => by
          rw [show dest.ptr dx dy +
              (j : Int) * ((R.width : Int) + ((dest.width : Int) - (R.width : Int))) +
              (i : Int) =
              dest.ptr dx dy + (j : Int) * (dest.width : Int) + (i : Int) by ring]
          exact hcov j i hj hi,
        solidRows_untouched _ _ _ _ _ _ _ _ _ fun j i hj hi => hcov j i hj hi]

/-- Claim C8, witness: a 3x2 source block blitted flipped at `(0,0)` of a
4x3 destination equals the corresponding solid blit of the reversed block. -/
theorem c8_witness :
    (let dest : Bitmap := ⟨4, 3, ⟨0, 0, 4, 3⟩, fun _ => 0⟩
     let src : Bitmap := ⟨3, 2, ⟨0, 0, 3, 2⟩,
       fun q => if q = 0 then 1 else if q = 1 then 2 else if q = 2 then 3 else
         if q = 3 then 4 else if q = 4 then 5 else if q = 5 then 6 else 0⟩
     let R : Rect := ⟨0, 0, 3, 2⟩
     dest.solid_flipped_blit src R 0 0 true false =
       dest.solid_blit (hFlipRegion src R) R 0 0 ∧
     dest.solid_flipped_blit src R 0 0 false true =
       dest.solid_blit (vFlipRegion src R) R 0 0 ∧
     dest.solid_flipped_blit src R 0 0 true true =
       dest.solid_blit (hvFlipRegion src R) R 0 0) :=
  c8_flipped_blit_equals_reversed_solid ⟨4, 3, ⟨0, 0, 4, 3⟩, fun _ => 0⟩
    ⟨3, 2, ⟨0, 0, 3, 2⟩,
      fun q => if q = 0 then 1 else if q = 1 then 2 else if q = 2 then 3 else
        if q = 3 then 4 else if q = 4 then 5 else if q = 5 then 6 else 0⟩
    ⟨0, 0, 3, 2⟩ 0 0 (by decide) (by decide) (by decide) (by decide) (by decide)
    (by decide)

/-! ## Frame lemmas for the drawing primitives (claim C9) -/

lemma inClipIdx_of_visible {b : Bitmap} (hc : clipInBitmap b) {x y : Int}
    (hv : b.is_xy_visible x y) : inClipIdx b (b.ptr x y) := by
  unfold clipInBitmap at hc
  unfold Bitmap.is_xy_visible Rect.right Rect.bottom at hv
  have hdec := idx_decode (W := (b.width : Int)) (x := x) (y := y)
    (by omega) (by omega)
  unfold inClipIdx Bitmap.ptr
  unfold Bitmap.ptr at hdec
  unfold Bitmap.is_xy_visible
  rw [hdec.1, hdec.2]
  exact hv

lemma set_pixel_width (b : Bitmap) (x y : Int) (c : Nat) :
    (b.set_pixel x y c).width = b.width := by
  unfold Bitmap.set_pixel; split <;> rfl

lemma set_pixel_clip (b : Bitmap) (x y : Int) (c : Nat) :
    (b.set_pixel x y c).clip_region = b.clip_region := by
  unfold Bitmap.set_pixel; split <;> rfl

lemma set_pixel_inClipIdx (b : Bitmap) (x y : Int) (c : Nat) (q : Int) :
    inClipIdx (b.set_pixel x y c) q ↔ inClipIdx b q := by
  unfold Bitmap.set_pixel; split <;> exact Iff.rfl

lemma set_pixel_clipInBitmap (b : Bitmap) (x y : Int) (c : Nat) :
    clipInBitmap (b.set_pixel x y c) ↔ clipInBitmap b := by
  unfold Bitmap.set_pixel; split <;> exact Iff.rfl

lemma set_pixel_pixels_frame {b : Bitmap} (hc : clipInBitmap b) (x y : Int)
    (c : Nat) {q : Int} (hq : ¬ inClipIdx b q) :
    (b.set_pixel x y c).pixels q = b.pixels q := by
  unfold Bitmap.set_pixel
  split
  · exact upd_ne _ _ _ (by
      intro hcon
      exact hq (hcon ▸ inClipIdx_of_visible hc (by assumption)))
  · rfl

lemma set_pixel_not_visible (b : Bitmap) (x y : Int) (c : Nat)
    (h : ¬ b.is_xy_visible x y) : b.set_pixel x y c = b := by
  unfold Bitmap.set_pixel
  rw [if_neg h]

lemma write_bytes_frame {b : Bitmap} (hc : clipInBitmap b) (px : Int → Nat)
    {rx ry : Int} {n : Nat} (c : Nat)
    (hrow : b.clip_region.y ≤ ry ∧
      ry ≤ b.clip_region.y + (b.clip_region.height : Int) - 1)
    (hcols : b.clip_region.x ≤ rx ∧
      rx + (n : Int) - 1 ≤ b.clip_region.x + (b.clip_region.width : Int) - 1)
    {q : Int} (hq : ¬ inClipIdx b q) :
    write_bytes px (b.ptr rx ry) c n q = px q := by
  unfold write_bytes
  rw [if_neg ?_]
  rintro ⟨hq1, hq2⟩
  apply hq
  have hqe : q = b.ptr (rx + (q - b.ptr rx ry)) ry := by unfold Bitmap.ptr; ring
  rw [hqe]
  refine inClipIdx_of_visible hc ?_
  unfold Bitmap.is_xy_visible Rect.right Rect.bottom
  refine ⟨by omega, by omega, by omega, by omega⟩

lemma vertLoop_frame {b : Bitmap} (hc : clipInBitmap b) (px : Int → Nat)
    (rx ry : Int) (c : Nat) (n : Nat)
    (hcol : b.clip_region.x ≤ rx ∧
      rx ≤ b.clip_region.x + (b.clip_region.width : Int) - 1)
    (hrows : b.clip_region.y ≤ ry ∧
      ry + (n : Int) - 1 ≤ b.clip_region.y + (b.clip_region.height : Int) - 1)
    {q : Int} (hq : ¬ inClipIdx b q) :
    vertLoop px (b.ptr rx ry) c (b.width : Int) n q = px q := by
  induction n generalizing px ry with
  | zero => rfl
  | succ n ih =>
    unfold vertLoop
    rw [show b.ptr rx ry + (b.width : Int) = b.ptr rx (ry + 1) by
      unfold Bitmap.ptr; ring]
    rw [ih _ _ ⟨by omega, by omega⟩]
    refine upd_ne _ _ _ ?_
    intro hcon
    apply hq
    rw [hcon]
    refine inClipIdx_of_visible hc ?_
    unfold Bitmap.is_xy_visible Rect.right Rect.bottom
    refine ⟨by omega, by omega, by omega, by omega⟩

lemma filledRows_frame {b : Bitmap} (hc : clipInBitmap b) (px : Int → Nat)
    (rx ry : Int) (c w : Nat) (n : Nat)
    (hcols : b.clip_region.x ≤ rx ∧
      rx + (w : Int) - 1 ≤ b.clip_region.x + (b.clip_region.width : Int) - 1)
    (hrows : b.clip_region.y ≤ ry ∧
      ry + (n : Int) - 1 ≤ b.clip_region.y + (b.clip_region.height : Int) - 1)
    {q : Int} (hq : ¬ inClipIdx b q) :
    filledRows px (b.ptr rx ry) c w (b.width : Int) n q = px q := by
  induction n generalizing px ry with
  | zero => rfl
  | succ n ih =>
    unfold filledRows
    rw [show b.ptr rx ry + (b.width : Int) = b.ptr rx (ry + 1) by
      unfold Bitmap.ptr; ring]
    rw [ih _ _ ⟨by omega, by omega⟩]
    exact write_bytes_frame hc _ _ ⟨by omega, by omega⟩ ⟨by omega, by omega⟩ hq

/-- Characterization of a successful `clamp_to`, with all bounds written out
in raw field arithmetic. -/
lemma clamp_to_true_sub {r bounds rg : Rect}
    (h : r.clamp_to bounds = (true, rg)) :
    bounds.x ≤ rg.x ∧
    rg.x + (rg.width : Int) - 1 ≤ bounds.x + (bounds.width : Int) - 1 ∧
    bounds.y ≤ rg.y ∧
    rg.y + (rg.height : Int) - 1 ≤ bounds.y + (bounds.height : Int) - 1 ∧
    r.x ≤ rg.x ∧
    rg.x + (rg.width : Int) - 1 ≤ r.x + (r.width : Int) - 1 ∧
    r.y ≤ rg.y ∧
    rg.y + (rg.height : Int) - 1 ≤ r.y + (r.height : Int) - 1 ∧
    1 ≤ rg.width ∧ 1 ≤ rg.height := by
  unfold Rect.clamp_to Rect.right Rect.bottom at h
  dsimp only at h
  split at h
  · rename_i hcond
    obtain ⟨hc1, hc2⟩ := hcond
    have h2 := (Prod.mk.injEq _ _ _ _).mp h
    obtain ⟨-, hrg⟩ := h2
    subst hrg
    simp only
    have hx1 : r.x ≤ max r.x bounds.x := le_max_left _ _
    have hx2 : bounds.x ≤ max r.x bounds.x := le_max_right _ _
    have hx3 : min (r.x + (r.width : Int) - 1) (bounds.x + (bounds.width : Int) - 1) ≤
        r.x + (r.width : Int) - 1 := min_le_left _ _
    have hx4 : min (r.x + (r.width : Int) - 1) (bounds.x + (bounds.width : Int) - 1) ≤
        bounds.x + (bounds.width : Int) - 1 := min_le_right _ _
    have hy1 : r.y ≤ max r.y bounds.y := le_max_left _ _
    have hy2 : bounds.y ≤ max r.y bounds.y := le_max_right _ _
    have hy3 : min (r.y + (r.height : Int) - 1) (bounds.y + (bounds.height : Int) - 1) ≤
        r.y + (r.height : Int) - 1 := min_le_left _ _
    have hy4 : min (r.y + (r.height : Int) - 1) (bounds.y + (bounds.height : Int) - 1) ≤
        bounds.y + (bounds.height : Int) - 1 := min_le_right _ _
    refine ⟨by omega, by omega, by omega, by omega, by omega, by omega, by omega,
      by omega, by omega, by omega⟩
  · exact absurd ((Prod.mk.injEq _ _ _ _).mp h).1 (by simp)

/-- Rust `from_coords` produces the bounding box of the two corner points
(raw-field characterization). -/
lemma from_coords_char (x1 y1 x2 y2 : Int) :
    (Rect.from_coords x1 y1 x2 y2).x = min x1 x2 ∧
    (Rect.from_coords x1 y1 x2 y2).x +
      ((Rect.from_coords x1 y1 x2 y2).width : Int) - 1 = max x1 x2 ∧
    (Rect.from_coords x1 y1 x2 y2).y = min y1 y2 ∧
    (Rect.from_coords x1 y1 x2 y2).y +
      ((Rect.from_coords x1 y1 x2 y2).height : Int) - 1 = max y1 y2 := by
  have hx : (Rect.from_coords x1 y1 x2 y2).x = min x1 x2 := rfl
  have hy : (Rect.from_coords x1 y1 x2 y2).y = min y1 y2 := rfl
  have hw : (Rect.from_coords x1 y1 x2 y2).width = (max x1 x2 - min x1 x2 + 1).toNat := rfl
  have hh : (Rect.from_coords x1 y1 x2 y2).height = (max y1 y2 - min y1 y2 + 1).toNat := rfl
  have h1 : min x1 x2 ≤ max x1 x2 := min_le_max
  have h2 : min y1 y2 ≤ max y1 y2 := min_le_max
  rw [hx, hy, hw, hh]
  refine ⟨rfl, by omega, rfl, by omega⟩

lemma horiz_line_pixels_frame {b : Bitmap} (hc : clipInBitmap b)
    (x1 x2 y : Int) (c : Nat) {q : Int} (hq : ¬ inClipIdx b q) :
    (b.horiz_line x1 x2 y c).pixels q = b.pixels q := by
  rcases hcl : (Rect.from_coords x1 y x2 y).clamp_to b.clip_region with ⟨ok, rg⟩
  cases ok
  · simp only [Bitmap.horiz_line, hcl]
  · simp only [Bitmap.horiz_line, hcl]
    obtain ⟨s1, s2, s3, s4, _, _, _, _, hw1, hh1⟩ := clamp_to_true_sub hcl
    exact write_bytes_frame hc _ _ ⟨by omega, by omega⟩ ⟨by omega, by omega⟩ hq

lemma vert_line_pixels_frame {b : Bitmap} (hc : clipInBitmap b)
    (x y1 y2 : Int) (c : Nat) {q : Int} (hq : ¬ inClipIdx b q) :
    (b.vert_line x y1 y2 c).pixels q = b.pixels q := by
  rcases hcl : (Rect.from_coords x y1 x y2).clamp_to b.clip_region with ⟨ok, rg⟩
  cases ok
  · simp only [Bitmap.vert_line, hcl]
  · simp only [Bitmap.vert_line, hcl]
    obtain ⟨s1, s2, s3, s4, _, _, _, _, hw1, hh1⟩ := clamp_to_true_sub hcl
    exact vertLoop_frame hc _ _ _ _ _ ⟨by omega, by omega⟩ ⟨by omega, by omega⟩ hq

lemma filled_rect_pixels_frame {b : Bitmap} (hc : clipInBitmap b)
    (x1 y1 x2 y2 : Int) (c : Nat) {q : Int} (hq : ¬ inClipIdx b q) :
    (b.filled_rect x1 y1 x2 y2 c).pixels q = b.pixels q := by
  rcases hcl : (Rect.from_coords x1 y1 x2 y2).clamp_to b.clip_region with ⟨ok, rg⟩
  cases ok
  · simp only [Bitmap.filled_rect, hcl]
  · simp only [Bitmap.filled_rect, hcl]
    obtain ⟨s1, s2, s3, s4, _, _, _, _, hw1, hh1⟩ := clamp_to_true_sub hcl
    exact filledRows_frame hc _ _ _ _ _ _ ⟨by omega, by omega⟩ ⟨by omega, by omega⟩ hq

lemma rect_pixels_frame {b : Bitmap} (hc : clipInBitmap b)
    (x1 y1 x2 y2 : Int) (c : Nat) {q : Int} (hq : ¬ inClipIdx b q) :
    (b.rect x1 y1 x2 y2 c).pixels q = b.pixels q := by
  unfold Bitmap.rect
  generalize (if x2 < x1 then (x2, x1) else (x1, x2)) = p
  generalize (if y2 < y1 then (y2, y1) else (y1, y2)) = p2
  rcases hcl : (Rect.mk p.1 p2.1 (p.2 - p.1 + 1).toNat
      (p2.2 - p2.1 + 1).toNat).clamp_to b.clip_region with ⟨ok, rg⟩
  cases ok
  · simp only [hcl]
  · simp only [hcl]
    obtain ⟨s1, s2, s3, s4, _, _, _, _, hw1, hh1⟩ := clamp_to_true_sub hcl
    have hrr : rg.right = rg.x + (rg.width : Int) - 1 := rfl
    have hrb : rg.bottom = rg.y + (rg.height : Int) - 1 := rfl
    split_ifs <;>
      (repeat
        first
        | rw [vertLoop_frame hc _ _ _ _ _ ⟨by omega, by omega⟩
            ⟨by omega, by omega⟩ hq]
        | rw [write_bytes_frame hc _ _ ⟨by omega, by omega⟩
            ⟨by omega, by omega⟩ hq])
    all_goals rfl

lemma lineLoopX_pixels_frame {b : Bitmap} (hc : clipInBitmap b)
    (px : Int → Nat) (dxC dyC : Int) (err : Nat) (dest : Int)
    (dxa dya : Nat) (sx sy : Int) (c : Nat) (n : Nat)
    (hdest : dest = dyC * (b.width : Int) + dxC)
    {q : Int} (hq : ¬ inClipIdx b q) :
    lineLoopX b px dxC dyC err dest dxa dya sx sy sx (sy * (b.width : Int)) c n q =
      px q := by
  induction n generalizing px dxC dyC err dest with
  | zero => rfl
  | succ n ih =>
    unfold lineLoopX
    by_cases hstep : dxa ≤ err + dya
    · simp only [if_pos hstep]
      rw [ih _ _ _ _ _ (by rw [hdest]; ring)]
      split
      · refine upd_ne _ _ _ ?_
        intro hcon
        apply hq
        rw [hcon, show dest + sy * (b.width : Int) + sx =
          b.ptr (dxC + sx) (dyC + sy) by unfold Bitmap.ptr; rw [hdest]; ring]
        exact inClipIdx_of_visible hc (by assumption)
      · rfl
    · simp only [if_neg hstep]
      rw [ih _ _ _ _ _ (by rw [hdest]; ring)]
      split
      · refine upd_ne _ _ _ ?_
        intro hcon
        apply hq
        rw [hcon, show dest + sx = b.ptr (dxC + sx) dyC by
          unfold Bitmap.ptr; rw [hdest]; ring]
        exact inClipIdx_of_visible hc (by assumption)
      · rfl

lemma lineLoopY_pixels_frame {b : Bitmap} (hc : clipInBitmap b)
    (px : Int → Nat) (dxC dyC : Int) (err : Nat) (dest : Int)
    (dya dxa : Nat) (sx sy : Int) (c : Nat) (n : Nat)
    (hdest : dest = dyC * (b.width : Int) + dxC)
    {q : Int} (hq : ¬ inClipIdx b q) :
    lineLoopY b px dxC dyC err dest dya dxa sx sy sx (sy * (b.width : Int)) c n q =
      px q := by
  induction n generalizing px dxC dyC err dest with
  | zero => rfl
  | succ n ih =>
    unfold lineLoopY
    by_cases hstep : dya ≤ err + dxa
    · simp only [if_pos hstep]
      rw [ih _ _ _ _ _ (by rw [hdest]; ring)]
      split
      · refine upd_ne _ _ _ ?_
        intro hcon
        apply hq
        rw [hcon, show dest + sx + sy * (b.width : Int) =
          b.ptr (dxC + sx) (dyC + sy) by unfold Bitmap.ptr; rw [hdest]; ring]
        exact inClipIdx_of_visible hc (by assumption)
      · rfl
    · simp only [if_neg hstep]
      rw [ih _ _ _ _ _ (by rw [hdest]; ring)]
      split
      · refine upd_ne _ _ _ ?_
        intro hcon
        apply hq
        rw [hcon, show dest + sy * (b.width : Int) = b.ptr dxC (dyC + sy) by
          unfold Bitmap.ptr; rw [hdest]; ring]
        exact inClipIdx_of_visible hc (by assumption)
      · rfl

lemma line_pixels_frame {b : Bitmap} (hc : clipInBitmap b)
    (x1 y1 x2 y2 : Int) (c : Nat) {q : Int} (hq : ¬ inClipIdx b q) :
    (b.line x1 y1 x2 y2 c).pixels q = b.pixels q := by
  have hfirst : ∀ px0 : Int → Nat,
      (if b.is_xy_visible x1 y1 then upd px0 (b.ptr x1 y1) c else px0) q = px0 q := by
    intro px0
    split
    · refine upd_ne _ _ _ ?_
      intro hcon
      exact hq (hcon ▸ inClipIdx_of_visible hc (by assumption))
    · rfl
  unfold Bitmap.line
  by_cases hmaj : (y2 - y1).natAbs ≤ (x2 - x1).natAbs
  · simp only [if_pos hmaj]
    rw [lineLoopX_pixels_frame hc _ _ _ _ _ _ _ _ _ _ _
      (by unfold Bitmap.ptr; ring) hq]
    exact hfirst _
  · simp only [if_neg hmaj]
    rw [lineLoopY_pixels_frame hc _ _ _ _ _ _ _ _ _ _ _
      (by unfold Bitmap.ptr; ring) hq]
    exact hfirst _

lemma circleLoop_pixels_frame :
    ∀ (b : Bitmap) (cx cy : Int) (c : Nat) (x y m : Int),
    clipInBitmap b → ∀ q : Int, ¬ inClipIdx b q →
    (circleLoop b cx cy c x y m).pixels q = b.pixels q := by
  intro b0 cx0 cy0 c0 x0 y0 m0
  induction b0, cx0, cy0, c0, x0, y0, m0 using circleLoop.induct with
  | case1 b cx cy color x y m hxy b1 b2 b3 b4 b5 b6 b7 b8 hm ih =>
    intro hc q hq
    rw [circleLoop]
    simp only [dif_pos hxy, if_pos hm]
    have hstep : ∀ (b' : Bitmap) (x' y' : Int), clipInBitmap b' → ¬ inClipIdx b' q →
        ((b'.set_pixel x' y' color).pixels q = b'.pixels q ∧
          clipInBitmap (b'.set_pixel x' y' color) ∧
          ¬ inClipIdx (b'.set_pixel x' y' color) q) :=
      fun b' x' y' hcb hqb =>
        ⟨set_pixel_pixels_frame hcb x' y' color hqb,
         (set_pixel_clipInBitmap b' x' y' color).mpr hcb,
         fun hcon => hqb ((set_pixel_inClipIdx b' x' y' color q).mp hcon)⟩
    obtain ⟨e1, hc1, hq1⟩ := hstep b (cx + x) (cy + y) hc hq
    obtain ⟨e2, hc2, hq2⟩ := hstep _ (cx + x) (cy - y) hc1 hq1
    obtain ⟨e3, hc3, hq3⟩ := hstep _ (cx - x) (cy + y) hc2 hq2
    obtain ⟨e4, hc4, hq4⟩ := hstep _ (cx - x) (cy - y) hc3 hq3
    obtain ⟨e5, hc5, hq5⟩ := hstep _ (cx + y) (cy + x) hc4 hq4
    obtain ⟨e6, hc6, hq6⟩ := hstep _ (cx + y) (cy - x) hc5 hq5
    obtain ⟨e7, hc7, hq7⟩ := hstep _ (cx - y) (cy + x) hc6 hq6
    obtain ⟨e8, hc8, hq8⟩ := hstep _ (cx - y) (cy - x) hc7 hq7
    rw [ih hc8 q hq8]
    exact e8.trans (e7.trans (e6.trans (e5.trans (e4.trans (e3.trans (e2.trans e1))))))
  | case2 b cx cy color x y m hxy b1 b2 b3 b4 b5 b6 b7 b8 hm ih =>
    intro hc q hq
    rw [circleLoop]
    simp only [dif_pos hxy, if_neg hm]
    have hstep : ∀ (b' : Bitmap) (x' y' : Int), clipInBitmap b' → ¬ inClipIdx b' q →
        ((b'.set_pixel x' y' color).pixels q = b'.pixels q ∧
          clipInBitmap (b'.set_pixel x' y' color) ∧
          ¬ inClipIdx (b'.set_pixel x' y' color) q) :=
      fun b' x' y' hcb hqb =>
        ⟨set_pixel_pixels_frame hcb x' y' color hqb,
         (set_pixel_clipInBitmap b' x' y' color).mpr hcb,
         fun hcon => hqb ((set_pixel_inClipIdx b' x' y' color q).mp hcon)⟩
    obtain ⟨e1, hc1, hq1⟩ := hstep b (cx + x) (cy + y) hc hq
    obtain ⟨e2, hc2, hq2⟩ := hstep _ (cx + x) (cy - y) hc1 hq1
    obtain ⟨e3, hc3, hq3⟩ := hstep _ (cx - x) (cy + y) hc2 hq2
    obtain ⟨e4, hc4, hq4⟩ := hstep _ (cx - x) (cy - y) hc3 hq3
    obtain ⟨e5, hc5, hq5⟩ := hstep _ (cx + y) (cy + x) hc4 hq4
    obtain ⟨e6, hc6, hq6⟩ := hstep _ (cx + y) (cy - x) hc5 hq5
    obtain ⟨e7, hc7, hq7⟩ := hstep _ (cx - y) (cy + x) hc6 hq6
    obtain ⟨e8, hc8, hq8⟩ := hstep _ (cx - y) (cy - x) hc7 hq7
    rw [ih hc8 q hq8]
    exact e8.trans (e7.trans (e6.trans (e5.trans (e4.trans (e3.trans (e2.trans e1))))))
  | case3 b cx cy color x y m hxy =>
    intro hc q hq
    rw [circleLoop]
    simp only [dif_neg hxy]

lemma circle_pixels_frame {b : Bitmap} (hc : clipInBitmap b)
    (cx cy : Int) (radius : Nat) (c : Nat) {q : Int} (hq : ¬ inClipIdx b q) :
    (b.circle cx cy radius c).pixels q = b.pixels q :=
  circleLoop_pixels_frame b cx cy c 0 (radius : Int) (5 - 4 * (radius : Int)) hc q hq

lemma horiz_line_meta (b : Bitmap) (x1 x2 y : Int) (c : Nat) :
    (b.horiz_line x1 x2 y c).width = b.width ∧
    (b.horiz_line x1 x2 y c).height = b.height ∧
    (b.horiz_line x1 x2 y c).clip_region = b.clip_region := by
  rcases hcl : (Rect.from_coords x1 y x2 y).clamp_to b.clip_region with ⟨ok, rg⟩
  cases ok <;> simp [Bitmap.horiz_line, hcl]

lemma horiz_line_inClipIdx (b : Bitmap) (x1 x2 y : Int) (c : Nat) (q : Int) :
    inClipIdx (b.horiz_line x1 x2 y c) q ↔ inClipIdx b q := by
  rcases hcl : (Rect.from_coords x1 y x2 y).clamp_to b.clip_region with ⟨ok, rg⟩
  cases ok <;> simp only [Bitmap.horiz_line, hcl]
  all_goals exact Iff.rfl

lemma horiz_line_clipInBitmap (b : Bitmap) (x1 x2 y : Int) (c : Nat) :
    clipInBitmap (b.horiz_line x1 x2 y c) ↔ clipInBitmap b := by
  rcases hcl : (Rect.from_coords x1 y x2 y).clamp_to b.clip_region with ⟨ok, rg⟩
  cases ok <;> simp only [Bitmap.horiz_line, hcl]
  all_goals exact Iff.rfl

lemma filledCircleLoop_pixels_frame :
    ∀ (b : Bitmap) (cx cy : Int) (c : Nat) (x y m : Int),
    clipInBitmap b → ∀ q : Int, ¬ inClipIdx b q →
    (filledCircleLoop b cx cy c x y m).pixels q = b.pixels q := by
  intro b0 cx0 cy0 c0 x0 y0 m0
  induction b0, cx0, cy0, c0, x0, y0, m0 using filledCircleLoop.induct with
  | case1 b cx cy color x y m hxy b1 b2 b3 b4 hm ih =>
    intro hc q hq
    rw [filledCircleLoop]
    simp only [dif_pos hxy, if_pos hm]
    have hstep : ∀ (b' : Bitmap) (u1 u2 v : Int), clipInBitmap b' → ¬ inClipIdx b' q →
        ((b'.horiz_line u1 u2 v color).pixels q = b'.pixels q ∧
          clipInBitmap (b'.horiz_line u1 u2 v color) ∧
          ¬ inClipIdx (b'.horiz_line u1 u2 v color) q) :=
      fun b' u1 u2 v hcb hqb =>
        ⟨horiz_line_pixels_frame hcb _ _ _ _ hqb,
         (horiz_line_clipInBitmap b' u1 u2 v color).mpr hcb,
         fun hcon => hqb ((horiz_line_inClipIdx b' u1 u2 v color q).mp hcon)⟩
    obtain ⟨e1, hc1, hq1⟩ := hstep b (cx - x) (cx + x) (cy - y) hc hq
    obtain ⟨e2, hc2, hq2⟩ := hstep _ (cx - y) (cx + y) (cy - x) hc1 hq1
    obtain ⟨e3, hc3, hq3⟩ := hstep _ (cx - y) (cx + y) (cy + x) hc2 hq2
    obtain ⟨e4, hc4, hq4⟩ := hstep _ (cx - x) (cx + x) (cy + y) hc3 hq3
    rw [ih hc4 q hq4]
    exact e4.trans (e3.trans (e2.trans e1))
  | case2 b cx cy color x y m hxy b1 b2 b3 b4 hm ih =>
    intro hc q hq
    rw [filledCircleLoop]
    simp only [dif_pos hxy, if_neg hm]
    have hstep : ∀ (b' : Bitmap) (u1 u2 v : Int), clipInBitmap b' → ¬ inClipIdx b' q →
        ((b'.horiz_line u1 u2 v color).pixels q = b'.pixels q ∧
          clipInBitmap (b'.horiz_line u1 u2 v color) ∧
          ¬ inClipIdx (b'.horiz_line u1 u2 v color) q) :=
      fun b' u1 u2 v hcb hqb =>
        ⟨horiz_line_pixels_frame hcb _ _ _ _ hqb,
         (horiz_line_clipInBitmap b' u1 u2 v color).mpr hcb,
         fun hcon => hqb ((horiz_line_inClipIdx b' u1 u2 v color q).mp hcon)⟩
    obtain ⟨e1, hc1, hq1⟩ := hstep b (cx - x) (cx + x) (cy - y) hc hq
    obtain ⟨e2, hc2, hq2⟩ := hstep _ (cx - y) (cx + y) (cy - x) hc1 hq1
    obtain ⟨e3, hc3, hq3⟩ := hstep _ (cx - y) (cx + y) (cy + x) hc2 hq2
    obtain ⟨e4, hc4, hq4⟩ := hstep _ (cx - x) (cx + x) (cy + y) hc3 hq3
    rw [ih hc4 q hq4]
    exact e4.trans (e3.trans (e2.trans e1))
  | case3 b cx cy color x y m hxy =>
    intro hc q hq
    rw [filledCircleLoop]
    simp only [dif_neg hxy]

lemma filled_circle_pixels_frame {b : Bitmap} (hc : clipInBitmap b)
    (cx cy : Int) (radius : Nat) (c : Nat) {q : Int} (hq : ¬ inClipIdx b q) :
    (b.filled_circle cx cy radius c).pixels q = b.pixels q :=
  filledCircleLoop_pixels_frame b cx cy c 0 (radius : Int) (5 - 4 * (radius : Int))
    hc q hq

/-- A successful clamp of `r` against the clip region yields a point
(`rg.x`, `rg.y`) that is both inside `r` and visible. -/
lemma clamp_to_true_witness_point {b : Bitmap} {r rg : Rect}
    (h : r.clamp_to b.clip_region = (true, rg)) :
    r.x ≤ rg.x ∧ rg.x ≤ r.x + (r.width : Int) - 1 ∧
    r.y ≤ rg.y ∧ rg.y ≤ r.y + (r.height : Int) - 1 ∧
    b.is_xy_visible rg.x rg.y := by
  obtain ⟨s1, s2, s3, s4, t1, t2, t3, t4, hw1, hh1⟩ := clamp_to_true_sub h
  unfold Bitmap.is_xy_visible Rect.right Rect.bottom
  refine ⟨by omega, by omega, by omega, by omega, by omega, by omega, by omega,
    by omega⟩

lemma horiz_line_nop {b : Bitmap} (x1 x2 y : Int) (c : Nat)
    (hvis : ∀ p1 p2 : Int, min x1 x2 ≤ p1 → p1 ≤ max x1 x2 → y ≤ p2 → p2 ≤ y →
      ¬ b.is_xy_visible p1 p2) :
    b.horiz_line x1 x2 y c = b := by
  rcases hcl : (Rect.from_coords x1 y x2 y).clamp_to b.clip_region with ⟨ok, rg⟩
  cases ok
  · simp only [Bitmap.horiz_line, hcl]
  · exfalso
    obtain ⟨w1, w2, w3, w4, hv⟩ := clamp_to_true_witness_point hcl
    obtain ⟨f1, f2, f3, f4⟩ := from_coords_char x1 y x2 y
    have hyy : min y y = y := by omega
    have hyy2 : max y y = y := by omega
    exact hvis rg.x rg.y (by omega) (by omega) (by omega) (by omega) hv

lemma vert_line_nop {b : Bitmap} (x y1 y2 : Int) (c : Nat)
    (hvis : ∀ p1 p2 : Int, x ≤ p1 → p1 ≤ x → min y1 y2 ≤ p2 → p2 ≤ max y1 y2 →
      ¬ b.is_xy_visible p1 p2) :
    b.vert_line x y1 y2 c = b := by
  rcases hcl : (Rect.from_coords x y1 x y2).clamp_to b.clip_region with ⟨ok, rg⟩
  cases ok
  · simp only [Bitmap.vert_line, hcl]
  · exfalso
    obtain ⟨w1, w2, w3, w4, hv⟩ := clamp_to_true_witness_point hcl
    obtain ⟨f1, f2, f3, f4⟩ := from_coords_char x y1 x y2
    have hxx : min x x = x := by omega
    have hxx2 : max x x = x := by omega
    exact hvis rg.x rg.y (by omega) (by omega) (by omega) (by omega) hv

lemma filled_rect_nop {b : Bitmap} (x1 y1 x2 y2 : Int) (c : Nat)
    (hvis : ∀ p1 p2 : Int, min x1 x2 ≤ p1 → p1 ≤ max x1 x2 →
      min y1 y2 ≤ p2 → p2 ≤ max y1 y2 → ¬ b.is_xy_visible p1 p2) :
    b.filled_rect x1 y1 x2 y2 c = b := by
  rcases hcl : (Rect.from_coords x1 y1 x2 y2).clamp_to b.clip_region with ⟨ok, rg⟩
  cases ok
  · simp only [Bitmap.filled_rect, hcl]
  · exfalso
    obtain ⟨w1, w2, w3, w4, hv⟩ := clamp_to_true_witness_point hcl
    obtain ⟨f1, f2, f3, f4⟩ := from_coords_char x1 y1 x2 y2
    exact hvis rg.x rg.y (by omega) (by omega) (by omega) (by omega) hv

lemma rect_nop {b : Bitmap} (x1 y1 x2 y2 : Int) (c : Nat)
    (hvis : ∀ p1 p2 : Int, min x1 x2 ≤ p1 → p1 ≤ max x1 x2 →
      min y1 y2 ≤ p2 → p2 ≤ max y1 y2 → ¬ b.is_xy_visible p1 p2) :
    b.rect x1 y1 x2 y2 c = b := by
  unfold Bitmap.rect
  generalize hp : (if x2 < x1 then (x2, x1) else (x1, x2)) = p
  generalize hp2 : (if y2 < y1 then (y2, y1) else (y1, y2)) = p2
  have hpx : p.1 = min x1 x2 ∧ p.2 = max x1 x2 := by
    rw [← hp]; split_ifs <;> constructor <;> simp <;> omega
  have hpy : p2.1 = min y1 y2 ∧ p2.2 = max y1 y2 := by
    rw [← hp2]; split_ifs <;> constructor <;> simp <;> omega
  rcases hcl : (Rect.mk p.1 p2.1 (p.2 - p.1 + 1).toNat
      (p2.2 - p2.1 + 1).toNat).clamp_to b.clip_region with ⟨ok, rg⟩
  cases ok
  · simp only [hcl]
  · exfalso
    obtain ⟨w1, w2, w3, w4, hv⟩ := clamp_to_true_witness_point hcl
    have hxm : min x1 x2 ≤ max x1 x2 := min_le_max
    have hym : min y1 y2 ≤ max y1 y2 := min_le_max
    dsimp only at w1 w2 w3 w4
    exact hvis rg.x rg.y (by omega) (by omega) (by omega) (by omega) hv

lemma circleLoop_outside (b : Bitmap) (cx cy : Int) (c : Nat) (r : Int)
    (hvis : ∀ p1 p2 : Int, cx - r ≤ p1 → p1 ≤ cx + r → cy - r ≤ p2 → p2 ≤ cy + r →
      ¬ b.is_xy_visible p1 p2) :
    ∀ (n : Nat) (x y m : Int), (y + 1 - x).toNat ≤ n → 0 ≤ x → y ≤ r →
    circleLoop b cx cy c x y m = b := by
  intro n
  induction n with
  | zero =>
    intro x y m hn hx0 hyr
    rw [circleLoop]
    rw [dif_neg (by omega)]
  | succ n ih =>
    intro x y m hn hx0 hyr
    by_cases hxy : x ≤ y
    · rw [circleLoop]
      simp only [dif_pos hxy]
      have hb1 : b.set_pixel (cx + x) (cy + y) c = b :=
        set_pixel_not_visible _ _ _ _
          (hvis _ _ (by omega) (by omega) (by omega) (by omega))
      have hb2 : b.set_pixel (cx + x) (cy - y) c = b :=
        set_pixel_not_visible _ _ _ _
          (hvis _ _ (by omega) (by omega) (by omega) (by omega))
      have hb3 : b.set_pixel (cx - x) (cy + y) c = b :=
        set_pixel_not_visible _ _ _ _
          (hvis _ _ (by omega) (by omega) (by omega) (by omega))
      have hb4 : b.set_pixel (cx - x) (cy - y) c = b :=
        set_pixel_not_visible _ _ _ _
          (hvis _ _ (by omega) (by omega) (by omega) (by omega))
      have hb5 : b.set_pixel (cx + y) (cy + x) c = b :=
        set_pixel_not_visible _ _ _ _
          (hvis _ _ (by omega) (by omega) (by omega) (by omega))
      have hb6 : b.set_pixel (cx + y) (cy - x) c = b :=
        set_pixel_not_visible _ _ _ _
          (hvis _ _ (by omega) (by omega) (by omega) (by omega))
      have hb7 : b.set_pixel (cx - y) (cy + x) c = b :=
        set_pixel_not_visible _ _ _ _
          (hvis _ _ (by omega) (by omega) (by omega) (by omega))
      have hb8 : b.set_pixel (cx - y) (cy - x) c = b :=
        set_pixel_not_visible _ _ _ _
          (hvis _ _ (by omega) (by omega) (by omega) (by omega))
      rw [hb1, hb2, hb3, hb4, hb5, hb6, hb7, hb8]
      split_ifs with hm
      · exact ih (x + 1) (y - 1) _ (by omega) (by omega) (by omega)
      · exact ih (x + 1) y _ (by omega) (by omega) hyr
    · rw [circleLoop]
      rw [dif_neg hxy]

lemma circle_outside {b : Bitmap} (cx cy : Int) (radius : Nat) (c : Nat)
    (hvis : ∀ p1 p2 : Int, cx - (radius : Int) ≤ p1 → p1 ≤ cx + (radius : Int) →
      cy - (radius : Int) ≤ p2 → p2 ≤ cy + (radius : Int) →
      ¬ b.is_xy_visible p1 p2) :
    b.circle cx cy radius c = b :=
  circleLoop_outside b cx cy c (radius : Int) hvis
    ((radius : Int) + 1 - 0).toNat 0 (radius : Int) (5 - 4 * (radius : Int))
    (by omega) (by omega) (by omega)

lemma filledCircleLoop_outside (b : Bitmap) (cx cy : Int) (c : Nat) (r : Int)
    (hvis : ∀ p1 p2 : Int, cx - r ≤ p1 → p1 ≤ cx + r → cy - r ≤ p2 → p2 ≤ cy + r →
      ¬ b.is_xy_visible p1 p2) :
    ∀ (n : Nat) (x y m : Int), (y + 1 - x).toNat ≤ n → 0 ≤ x → y ≤ r →
    filledCircleLoop b cx cy c x y m = b := by
  intro n
  induction n with
  | zero =>
    intro x y m hn hx0 hyr
    rw [filledCircleLoop]
    rw [dif_neg (by omega)]
  | succ n ih =>
    intro x y m hn hx0 hyr
    by_cases hxy : x ≤ y
    · rw [filledCircleLoop]
      simp only [dif_pos hxy]
      have hb1 : b.horiz_line (cx - x) (cx + x) (cy - y) c = b :=
        horiz_line_nop _ _ _ _ fun p1 p2 u1 u2 u3 u4 =>
          hvis p1 p2 (by omega) (by omega) (by omega) (by omega)
      have hb2 : b.horiz_line (cx - y) (cx + y) (cy - x) c = b :=
        horiz_line_nop _ _ _ _ fun p1 p2 u1 u2 u3 u4 =>
          hvis p1 p2 (by omega) (by omega) (by omega) (by omega)
      have hb3 : b.horiz_line (cx - y) (cx + y) (cy + x) c = b :=
        horiz_line_nop _ _ _ _ fun p1 p2 u1 u2 u3 u4 =>
          hvis p1 p2 (by omega) (by omega) (by omega) (by omega)
      have hb4 : b.horiz_line (cx - x) (cx + x) (cy + y) c = b :=
        horiz_line_nop _ _ _ _ fun p1 p2 u1 u2 u3 u4 =>
          hvis p1 p2 (by omega) (by omega) (by omega) (by omega)
      rw [hb1, hb2, hb3, hb4]
      split_ifs with hm
      · exact ih (x + 1) (y - 1) _ (by omega) (by omega) (by omega)
      · exact ih (x + 1) y _ (by omega) (by omega) hyr
    · rw [filledCircleLoop]
      rw [dif_neg hxy]

lemma filled_circle_outside {b : Bitmap} (cx cy : Int) (radius : Nat) (c : Nat)
    (hvis : ∀ p1 p2 : Int, cx - (radius : Int) ≤ p1 → p1 ≤ cx + (radius : Int) →
      cy - (radius : Int) ≤ p2 → p2 ≤ cy + (radius : Int) →
      ¬ b.is_xy_visible p1 p2) :
    b.filled_circle cx cy radius c = b :=
  filledCircleLoop_outside b cx cy c (radius : Int) hvis
    ((radius : Int) + 1 - 0).toNat 0 (radius : Int) (5 - 4 * (radius : Int))
    (by omega) (by omega) (by omega)

/-- If every point the x-major Bresenham loop can visit is invisible, the
loop never writes: the x positions visited are `dxC + k*sx` for
`1 <= k <= n`, and the y positions are `dyC + t*sy` where the number `t` of
minor-axis steps taken is bounded through the error accumulator by
`t * dxa <= err + n * dya`. -/
lemma lineLoopX_nowrite {b : Bitmap} (px : Int → Nat)
    {xlo xhi ylo yhi : Int}
    (hvis : ∀ p1 p2 : Int, xlo ≤ p1 → p1 ≤ xhi → ylo ≤ p2 → p2 ≤ yhi →
      ¬ b.is_xy_visible p1 p2)
    (dxC dyC : Int) (err : Nat) (dest : Int) (dxa dya : Nat) (sx sy offX offY : Int)
    (c : Nat) (n : Nat)
    (hx : ∀ k : Nat, 1 ≤ k → k ≤ n → xlo ≤ dxC + (k : Int) * sx ∧
      dxC + (k : Int) * sx ≤ xhi)
    (hy : ∀ t : Nat, (t : Int) * (dxa : Int) ≤ (err : Int) + (n : Int) * (dya : Int) →
      ylo ≤ dyC + (t : Int) * sy ∧ dyC + (t : Int) * sy ≤ yhi) :
    lineLoopX b px dxC dyC err dest dxa dya sx sy offX offY c n = px := by
  induction n generalizing px dxC dyC err dest with
  | zero => rfl
  | succ n ih =>
    unfold lineLoopX
    have hx1 := hx 1 (by omega) (by omega)
    simp only [Nat.cast_one, one_mul] at hx1
    have hnn : (0 : Int) ≤ (n : Int) * (dya : Int) := by positivity
    by_cases hstep : dxa ≤ err + dya
    · simp only [if_pos hstep]
      have hstep2 : ((dxa : Int)) ≤ (err : Int) + (dya : Int) := by exact_mod_cast hstep
      have hy1 := hy 1 (by push_cast; nlinarith [hstep2, hnn])
      simp only [Nat.cast_one, one_mul] at hy1
      rw [if_neg (hvis _ _ hx1.1 hx1.2 hy1.1 hy1.2)]
      refine ih px (dxC + sx) (dyC + sy) (err + dya - dxa) _ ?_ ?_
      · intro k hk1 hk2
        have h2 := hx (k + 1) (by omega) (by omega)
        have he : dxC + sx + (k : Int) * sx = dxC + ((k + 1 : Nat) : Int) * sx := by
          push_cast; ring
        rw [he]
        exact h2
      · intro t ht
        have hcast : ((err + dya - dxa : Nat) : Int) =
            (err : Int) + (dya : Int) - (dxa : Int) := by omega
        have h2 := hy (t + 1) (by
          rw [hcast] at ht
          push_cast at ht ⊢
          nlinarith [ht])
        have he : dyC + sy + (t : Int) * sy = dyC + ((t + 1 : Nat) : Int) * sy := by
          push_cast; ring
        rw [he]
        exact h2
    · simp only [if_neg hstep]
      have hy0 := hy 0 (by push_cast; rw [zero_mul]; positivity)
      simp only [Nat.cast_zero, zero_mul, add_zero] at hy0
      rw [if_neg (hvis _ _ hx1.1 hx1.2 hy0.1 hy0.2)]
      refine ih px (dxC + sx) dyC (err + dya) _ ?_ ?_
      · intro k hk1 hk2
        have h2 := hx (k + 1) (by omega) (by omega)
        have he : dxC + sx + (k : Int) * sx = dxC + ((k + 1 : Nat) : Int) * sx := by
          push_cast; ring
        rw [he]
        exact h2
      · intro t ht
        refine hy t ?_
        push_cast at ht ⊢
        nlinarith [ht]

/-- The y-major analogue of `lineLoopX_nowrite`. -/
lemma lineLoopY_nowrite {b : Bitmap} (px : Int → Nat)
    {xlo xhi ylo yhi : Int}
    (hvis : ∀ p1 p2 : Int, xlo ≤ p1 → p1 ≤ xhi → ylo ≤ p2 → p2 ≤ yhi →
      ¬ b.is_xy_visible p1 p2)
    (dxC dyC : Int) (err : Nat) (dest : Int) (dya dxa : Nat) (sx sy offX offY : Int)
    (c : Nat) (n : Nat)
    (hyb : ∀ k : Nat, 1 ≤ k → k ≤ n → ylo ≤ dyC + (k : Int) * sy ∧
      dyC + (k : Int) * sy ≤ yhi)
    (hxb : ∀ t : Nat, (t : Int) * (dya : Int) ≤ (err : Int) + (n : Int) * (dxa : Int) →
      xlo ≤ dxC + (t : Int) * sx ∧ dxC + (t : Int) * sx ≤ xhi) :
    lineLoopY b px dxC dyC err dest dya dxa sx sy offX offY c n = px := by
  induction n generalizing px dxC dyC err dest with
  | zero => rfl
  | succ n ih =>
    unfold lineLoopY
    have hy1 := hyb 1 (by omega) (by omega)
    simp only [Nat.cast_one, one_mul] at hy1
    have hnn : (0 : Int) ≤ (n : Int) * (dxa : Int) := by positivity
    by_cases hstep : dya ≤ err + dxa
    · simp only [if_pos hstep]
      have hstep2 : ((dya : Int)) ≤ (err : Int) + (dxa : Int) := by exact_mod_cast hstep
      have hx1 := hxb 1 (by push_cast; nlinarith [hstep2, hnn])
      simp only [Nat.cast_one, one_mul] at hx1
      rw [if_neg (hvis _ _ hx1.1 hx1.2 hy1.1 hy1.2)]
      refine ih px (dxC + sx) (dyC + sy) (err + dxa - dya) _ ?_ ?_
      · intro k hk1 hk2
        have h2 := hyb (k + 1) (by omega) (by omega)
        have he : dyC + sy + (k : Int) * sy = dyC + ((k + 1 : Nat) : Int) * sy := by
          push_cast; ring
        rw [he]
        exact h2
      · intro t ht
        have hcast : ((err + dxa - dya : Nat) : Int) =
            (err : Int) + (dxa : Int) - (dya : Int) := by omega
        have h2 := hxb (t + 1) (by
          rw [hcast] at ht
          push_cast at ht ⊢
          nlinarith [ht])
        have he : dxC + sx + (t : Int) * sx = dxC + ((t + 1 : Nat) : Int) * sx := by
          push_cast; ring
        rw [he]
        exact h2
    · simp only [if_neg hstep]
      have hx0 := hxb 0 (by push_cast; rw [zero_mul]; positivity)
      simp only [Nat.cast_zero, zero_mul, add_zero] at hx0
      rw [if_neg (hvis _ _ hx0.1 hx0.2 hy1.1 hy1.2)]
      refine ih px dxC (dyC + sy) (err + dxa) _ ?_ ?_
      · intro k hk1 hk2
        have h2 := hyb (k + 1) (by omega) (by omega)
        have he : dyC + sy + (k : Int) * sy = dyC + ((k + 1 : Nat) : Int) * sy := by
          push_cast; ring
        rw [he]
        exact h2
      · intro t ht
        refine hxb t ?_
        push_cast at ht ⊢
        nlinarith [ht]

/-- The `k`-th Bresenham major-axis position `k * a.sign` stays between 0
and `a` while `k ≤ |a|`. -/
lemma sign_step_bounds (a : Int) (k : Nat) (hk : (k : Int) ≤ (a.natAbs : Int)) :
    min 0 a ≤ (k : Int) * a.sign ∧ (k : Int) * a.sign ≤ max 0 a := by
  rcases lt_trichotomy a 0 with h | h | h
  · rw [Int.sign_eq_neg_one_of_neg h]
    omega
  · rw [h, Int.sign_zero]
    omega
  · rw [Int.sign_eq_one_of_pos h]
    omega

lemma line_outside {b : Bitmap} (x1 y1 x2 y2 : Int) (c : Nat)
    (hvis : ∀ p1 p2 : Int, min x1 x2 ≤ p1 → p1 ≤ max x1 x2 →
      min y1 y2 ≤ p2 → p2 ≤ max y1 y2 → ¬ b.is_xy_visible p1 p2) :
    b.line x1 y1 x2 y2 c = b := by
  have hinit : ¬ b.is_xy_visible x1 y1 :=
    hvis x1 y1 (by omega) (by omega) (by omega) (by omega)
  have hxk : ∀ k : Nat, 1 ≤ k → k ≤ (x2 - x1).natAbs →
      min x1 x2 ≤ x1 + (k : Int) * (x2 - x1).sign ∧
      x1 + (k : Int) * (x2 - x1).sign ≤ max x1 x2 := by
    intro k _ hk2
    have := sign_step_bounds (x2 - x1) k (by exact_mod_cast hk2)
    omega
  have hyk : ∀ k : Nat, 1 ≤ k → k ≤ (y2 - y1).natAbs →
      min y1 y2 ≤ y1 + (k : Int) * (y2 - y1).sign ∧
      y1 + (k : Int) * (y2 - y1).sign ≤ max y1 y2 := by
    intro k _ hk2
    have := sign_step_bounds (y2 - y1) k (by exact_mod_cast hk2)
    omega
  have hxt : ∀ t : Nat, t ≤ (x2 - x1).natAbs →
      min x1 x2 ≤ x1 + (t : Int) * (x2 - x1).sign ∧
      x1 + (t : Int) * (x2 - x1).sign ≤ max x1 x2 := by
    intro t ht
    have := sign_step_bounds (x2 - x1) t (by exact_mod_cast ht)
    omega
  have hyt : ∀ t : Nat, t ≤ (y2 - y1).natAbs →
      min y1 y2 ≤ y1 + (t : Int) * (y2 - y1).sign ∧
      y1 + (t : Int) * (y2 - y1).sign ≤ max y1 y2 := by
    intro t ht
    have := sign_step_bounds (y2 - y1) t (by exact_mod_cast ht)
    omega
  unfold Bitmap.line
  by_cases hmaj : (y2 - y1).natAbs ≤ (x2 - x1).natAbs
  · simp only [if_pos hmaj]
    rw [lineLoopX_nowrite _ hvis _ _ _ _ _ _ _ _ _ _ _ _ hxk ?_]
    · rw [if_neg hinit]
    · intro t ht
      by_cases hdxa0 : (x2 - x1).natAbs = 0
      · have hdya0 : (y2 - y1).natAbs = 0 := by omega
        have hy0 : y2 - y1 = 0 := by omega
        rw [hy0, Int.sign_zero, mul_zero]
        constructor <;> omega
      · have ht2 : t ≤ (y2 - y1).natAbs := by
          by_contra hcon
          have h1 : (((y2 - y1).natAbs : Int) + 1) * ((x2 - x1).natAbs : Int) ≤
              (t : Int) * ((x2 - x1).natAbs : Int) :=
            mul_le_mul_of_nonneg_right (by omega) (by positivity)
          have h2 : ((x2 - x1).natAbs : Int) ≤ (((y2 - y1).natAbs / 2 : Nat) : Int) := by
            nlinarith [h1, ht]
          omega
        exact hyt t ht2
  · simp only [if_neg hmaj]
    rw [lineLoopY_nowrite _ hvis _ _ _ _ _ _ _ _ _ _ _ _ hyk ?_]
    · rw [if_neg hinit]
    · intro t ht
      have ht2 : t ≤ (x2 - x1).natAbs := by
        by_contra hcon
        have h1 : (((x2 - x1).natAbs : Int) + 1) * ((y2 - y1).natAbs : Int) ≤
            (t : Int) * ((y2 - y1).natAbs : Int) :=
          mul_le_mul_of_nonneg_right (by omega) (by positivity)
        have h2 : ((y2 - y1).natAbs : Int) ≤ (((x2 - x1).natAbs / 2 : Nat) : Int) := by
          nlinarith [h1, ht]
        omega
      exact hxt t ht2

/-! ## Claim C9 -/

/-- Claim C9: every drawing primitive (`line`, `horiz_line`, `vert_line`,
`rect`, `filled_rect`, `circle`, `filled_circle`) modifies only buffer
cells whose coordinates lie inside the destination bitmap's current clip
region (first seven conjuncts, for a bitmap whose clip region satisfies the
data-model invariant of being contained in the bitmap); and a primitive
whose geometry lies entirely outside the clip region leaves the bitmap
completely unmodified (last seven conjuncts, with "entirely outside"
expressed as disjointness of the primitive's bounding box from the clip
region). -/
theorem c9_primitives_confined_to_clip :
    (∀ (b : Bitmap) (x1 y1 x2 y2 : Int) (c : Nat) (q : Int),
      clipInBitmap b → ¬ inClipIdx b q →
      (b.line x1 y1 x2 y2 c).pixels q = b.pixels q) ∧
    (∀ (b : Bitmap) (x1 x2 y : Int) (c : Nat) (q : Int),
      clipInBitmap b → ¬ inClipIdx b q →
      (b.horiz_line x1 x2 y c).pixels q = b.pixels q) ∧
    (∀ (b : Bitmap) (x y1 y2 : Int) (c : Nat) (q : Int),
      clipInBitmap b → ¬ inClipIdx b q →
      (b.vert_line x y1 y2 c).pixels q = b.pixels q) ∧
    (∀ (b : Bitmap) (x1 y1 x2 y2 : Int) (c : Nat) (q : Int),
      clipInBitmap b → ¬ inClipIdx b q →
      (b.rect x1 y1 x2 y2 c).pixels q = b.pixels q) ∧
    (∀ (b : Bitmap) (x1 y1 x2 y2 : Int) (c : Nat) (q : Int),
      clipInBitmap b → ¬ inClipIdx b q →
      (b.filled_rect x1 y1 x2 y2 c).pixels q = b.pixels q) ∧
    (∀ (b : Bitmap) (cx cy : Int) (radius : Nat) (c : Nat) (q : Int),
      clipInBitmap b → ¬ inClipIdx b q →
      (b.circle cx cy radius c).pixels q = b.pixels q) ∧
    (∀ (b : Bitmap) (cx cy : Int) (radius : Nat) (c : Nat) (q : Int),
      clipInBitmap b → ¬ inClipIdx b q →
      (b.filled_circle cx cy radius c).pixels q = b.pixels q) ∧
    (∀ (b : Bitmap) (x1 y1 x2 y2 : Int) (c : Nat),
      ((x1 < b.clip_region.x ∧ x2 < b.clip_region.x) ∨
       (b.clip_region.x + (b.clip_region.width : Int) - 1 < x1 ∧
        b.clip_region.x + (b.clip_region.width : Int) - 1 < x2) ∨
       (y1 < b.clip_region.y ∧ y2 < b.clip_region.y) ∨
       (b.clip_region.y + (b.clip_region.height : Int) - 1 < y1 ∧
        b.clip_region.y + (b.clip_region.height : Int) - 1 < y2)) →
      b.line x1 y1 x2 y2 c = b) ∧
    (∀ (b : Bitmap) (x1 x2 y : Int) (c : Nat),
      ((x1 < b.clip_region.x ∧ x2 < b.clip_region.x) ∨
       (b.clip_region.x + (b.clip_region.width : Int) - 1 < x1 ∧
        b.clip_region.x + (b.clip_region.width : Int) - 1 < x2) ∨
       y < b.clip_region.y ∨
       b.clip_region.y + (b.clip_region.height : Int) - 1 < y) →
      b.horiz_line x1 x2 y c = b) ∧
    (∀ (b : Bitmap) (x y1 y2 : Int) (c : Nat),
      (x < b.clip_region.x ∨
       b.clip_region.x + (b.clip_region.width : Int) - 1 < x ∨
       (y1 < b.clip_region.y ∧ y2 < b.clip_region.y) ∨
       (b.clip_region.y + (b.clip_region.height : Int) - 1 < y1 ∧
        b.clip_region.y + (b.clip_region.height : Int) - 1 < y2)) →
      b.vert_line x y1 y2 c = b) ∧
    (∀ (b : Bitmap) (x1 y1 x2 y2 : Int) (c : Nat),
      ((x1 < b.clip_region.x ∧ x2 < b.clip_region.x) ∨
       (b.clip_region.x + (b.clip_region.width : Int) - 1 < x1 ∧
        b.clip_region.x + (b.clip_region.width : Int) - 1 < x2) ∨
       (y1 < b.clip_region.y ∧ y2 < b.clip_region.y) ∨
       (b.clip_region.y + (b.clip_region.height : Int) - 1 < y1 ∧
        b.clip_region.y + (b.clip_region.height : Int) - 1 < y2)) →
      b.rect x1 y1 x2 y2 c = b) ∧
    (∀ (b : Bitmap) (x1 y1 x2 y2 : Int) (c : Nat),
      ((x1 < b.clip_region.x ∧ x2 < b.clip_region.x) ∨
       (b.clip_region.x + (b.clip_region.width : Int) - 1 < x1 ∧
        b.clip_region.x + (b.clip_region.width : Int) - 1 < x2) ∨
       (y1 < b.clip_region.y ∧ y2 < b.clip_region.y) ∨
       (b.clip_region.y + (b.clip_region.height : Int) - 1 < y1 ∧
        b.clip_region.y + (b.clip_region.height : Int) - 1 < y2)) →
      b.filled_rect x1 y1 x2 y2 c = b) ∧
    (∀ (b : Bitmap) (cx cy : Int) (radius : Nat) (c : Nat),
      (cx + (radius : Int) < b.clip_region.x ∨
       b.clip_region.x + (b.clip_region.width : Int) - 1 < cx - (radius : Int) ∨
       cy + (radius : Int) < b.clip_region.y ∨
       b.clip_region.y + (b.clip_region.height : Int) - 1 < cy - (radius : Int)) →
      b.circle cx cy radius c = b) ∧
    (∀ (b : Bitmap) (cx cy : Int) (radius : Nat) (c : Nat),
      (cx + (radius : Int) < b.clip_region.x ∨
       b.clip_region.x + (b.clip_region.width : Int) - 1 < cx - (radius : Int) ∨
       cy + (radius : Int) < b.clip_region.y ∨
       b.clip_region.y + (b.clip_region.height : Int) - 1 < cy - (radius : Int)) →
      b.filled_circle cx cy radius c = b) := by
  refine ⟨?_, ?_, ?_, ?_, ?_, ?_, ?_, ?_, ?_, ?_, ?_, ?_, ?_, ?_⟩
  · intro b x1 y1 x2 y2 c q hc hq
    exact line_pixels_frame hc x1 y1 x2 y2 c hq
  · intro b x1 x2 y c q hc hq
    exact horiz_line_pixels_frame hc x1 x2 y c hq
  · intro b x y1 y2 c q hc hq
    exact vert_line_pixels_frame hc x y1 y2 c hq
  · intro b x1 y1 x2 y2 c q hc hq
    exact rect_pixels_frame hc x1 y1 x2 y2 c hq
  · intro b x1 y1 x2 y2 c q hc hq
    exact filled_rect_pixels_frame hc x1 y1 x2 y2 c hq
  · intro b cx cy radius c q hc hq
    exact circle_pixels_frame hc cx cy radius c hq
  · intro b cx cy radius c q hc hq
    exact filled_circle_pixels_frame hc cx cy radius c hq
  · intro b x1 y1 x2 y2 c hdisj
    refine line_outside x1 y1 x2 y2 c ?_
    intro p1 p2 h1 h2 h3 h4 hv
    unfold Bitmap.is_xy_visible Rect.right Rect.bottom at hv
    omega
  · intro b x1 x2 y c hdisj
    refine horiz_line_nop x1 x2 y c ?_
    intro p1 p2 h1 h2 h3 h4 hv
    unfold Bitmap.is_xy_visible Rect.right Rect.bottom at hv
    omega
  · intro b x y1 y2 c hdisj
    refine vert_line_nop x y1 y2 c ?_
    intro p1 p2 h1 h2 h3 h4 hv
    unfold Bitmap.is_xy_visible Rect.right Rect.bottom at hv
    omega
  · intro b x1 y1 x2 y2 c hdisj
    refine rect_nop x1 y1 x2 y2 c ?_
    intro p1 p2 h1 h2 h3 h4 hv
    unfold Bitmap.is_xy_visible Rect.right Rect.bottom at hv
    omega
  · intro b x1 y1 x2 y2 c hdisj
    refine filled_rect_nop x1 y1 x2 y2 c ?_
    intro p1 p2 h1 h2 h3 h4 hv
    unfold Bitmap.is_xy_visible Rect.right Rect.bottom at hv
    omega
  · intro b cx cy radius c hdisj
    refine circle_outside cx cy radius c ?_
    intro p1 p2 h1 h2 h3 h4 hv
    unfold Bitmap.is_xy_visible Rect.right Rect.bottom at hv
    omega
  · intro b cx cy radius c hdisj
    refine filled_circle_outside cx cy radius c ?_
    intro p1 p2 h1 h2 h3 h4 hv
    unfold Bitmap.is_xy_visible Rect.right Rect.bottom at hv
    omega

/-- Claim C9, witness: on a 4x4 bitmap with full clip region, each primitive
leaves the out-of-clip buffer cell at offset -1 unchanged, and each
primitive drawn entirely to the right of the clip region leaves the bitmap
unchanged. -/
theorem c9_witness :
    (let b0 : Bitmap := ⟨4, 4, ⟨0, 0, 4, 4⟩, fun _ => 0⟩
     (b0.line 0 0 3 2 7).pixels (-1) = b0.pixels (-1) ∧
     (b0.horiz_line 0 3 1 7).pixels (-1) = b0.pixels (-1) ∧
     (b0.vert_line 1 0 3 7).pixels (-1) = b0.pixels (-1) ∧
     (b0.rect 0 0 3 3 7).pixels (-1) = b0.pixels (-1) ∧
     (b0.filled_rect 0 0 3 3 7).pixels (-1) = b0.pixels (-1) ∧
     (b0.circle 1 1 2 7).pixels (-1) = b0.pixels (-1) ∧
     (b0.filled_circle 1 1 2 7).pixels (-1) = b0.pixels (-1) ∧
     b0.line 10 0 12 2 7 = b0 ∧
     b0.horiz_line 10 12 1 7 = b0 ∧
     b0.vert_line 10 0 3 7 = b0 ∧
     b0.rect 10 0 12 2 7 = b0 ∧
     b0.filled_rect 10 0 12 2 7 = b0 ∧
     b0.circle 10 1 2 7 = b0 ∧
     b0.filled_circle 10 1 2 7 = b0) := by
  refine ⟨?_, ?_, ?_, ?_, ?_, ?_, ?_, ?_, ?_, ?_, ?_, ?_, ?_, ?_⟩
  · exact c9_primitives_confined_to_clip.1 ⟨4, 4, ⟨0, 0, 4, 4⟩, fun _ => 0⟩
      0 0 3 2 7 (-1) (by decide) (by decide)
  · exact c9_primitives_confined_to_clip.2.1 ⟨4, 4, ⟨0, 0, 4, 4⟩, fun _ => 0⟩
      0 3 1 7 (-1) (by decide) (by decide)
  · exact c9_primitives_confined_to_clip.2.2.1 ⟨4, 4, ⟨0, 0, 4, 4⟩, fun _ => 0⟩
      1 0 3 7 (-1) (by decide) (by decide)
  · exact c9_primitives_confined_to_clip.2.2.2.1 ⟨4, 4, ⟨0, 0, 4, 4⟩, fun _ => 0⟩
      0 0 3 3 7 (-1) (by decide) (by decide)
  · exact c9_primitives_confined_to_clip.2.2.2.2.1 ⟨4, 4, ⟨0, 0, 4, 4⟩, fun _ => 0⟩
      0 0 3 3 7 (-1) (by decide) (by decide)
  · exact c9_primitives_confined_to_clip.2.2.2.2.2.1 ⟨4, 4, ⟨0, 0, 4, 4⟩, fun _ => 0⟩
      1 1 2 7 (-1) (by decide) (by decide)
  · exact c9_primitives_confined_to_clip.2.2.2.2.2.2.1 ⟨4, 4, ⟨0, 0, 4, 4⟩, fun _ => 0⟩
      1 1 2 7 (-1) (by decide) (by decide)
  · exact c9_primitives_confined_to_clip.2.2.2.2.2.2.2.1
      ⟨4, 4, ⟨0, 0, 4, 4⟩, fun _ => 0⟩ 10 0 12 2 7 (by decide)
  · exact c9_primitives_confined_to_clip.2.2.2.2.2.2.2.2.1
      ⟨4, 4, ⟨0, 0, 4, 4⟩, fun _ => 0⟩ 10 12 1 7 (by decide)
  · exact c9_primitives_confined_to_clip.2.2.2.2.2.2.2.2.2.1
      ⟨4, 4, ⟨0, 0, 4, 4⟩, fun _ => 0⟩ 10 0 3 7 (by decide)
  · exact c9_primitives_confined_to_clip.2.2.2.2.2.2.2.2.2.2.1
      ⟨4, 4, ⟨0, 0, 4, 4⟩, fun _ => 0⟩ 10 0 12 2 7 (by decide)
  · exact c9_primitives_confined_to_clip.2.2.2.2.2.2.2.2.2.2.2.1
      ⟨4, 4, ⟨0, 0, 4, 4⟩, fun _ => 0⟩ 10 0 12 2 7 (by decide)
  · exact c9_primitives_confined_to_clip.2.2.2.2.2.2.2.2.2.2.2.2.1
      ⟨4, 4, ⟨0, 0, 4, 4⟩, fun _ => 0⟩ 10 1 2 7 (by decide)
  · exact c9_primitives_confined_to_clip.2.2.2.2.2.2.2.2.2.2.2.2.2
      ⟨4, 4, ⟨0, 0, 4, 4⟩, fun _ => 0⟩ 10 1 2 7 (by decide)

end Retro
